import Mathlib

/-!
Verification development for the `try-on-xr` cloth-physics engine
(`physics/src/**`).  The Rust source is shallowly embedded: `f32` scalars
become exact rationals (`ℚ`), `usize`/`u32`/`u64` become `Nat` (with explicit
masking where the source relies on fixed-width behaviour), `Vec<T>` becomes
`List T`, and `glam::Vec4` particle positions become 3-component rational
vectors (the source keeps the `w` component at zero and never reads it).
Square roots (`f32::sqrt`, `length()`, `normalize()`) are not rational, so
every definition that needs one takes an explicit square-root oracle
`sq : ℚ → ℚ`; theorems either hold for every oracle or constrain the oracle's
value on the inputs that matter (`d * d = normSq v ∧ 0 ≤ d`).
-/

set_option maxHeartbeats 4000000
set_option maxRecDepth 100000

/-- Exact 3-vector of rationals, embedding `glam::Vec3` (and the xyz part of
`glam::Vec4` particle data, whose `w` stays zero). -/
structure V3 where
  x : ℚ
  y : ℚ
  z : ℚ
deriving DecidableEq, Repr

namespace V3

def add (a b : V3) : V3 := ⟨a.x + b.x, a.y + b.y, a.z + b.z⟩

def sub (a b : V3) : V3 := ⟨a.x - b.x, a.y - b.y, a.z - b.z⟩

def neg (a : V3) : V3 := ⟨-a.x, -a.y, -a.z⟩

def smul (s : ℚ) (a : V3) : V3 := ⟨s * a.x, s * a.y, s * a.z⟩

def dot (a b : V3) : ℚ := a.x * b.x + a.y * b.y + a.z * b.z

def cross (a b : V3) : V3 :=
  ⟨a.y * b.z - a.z * b.y, a.z * b.x - a.x * b.z, a.x * b.y - a.y * b.x⟩

/-- Squared Euclidean length (`length_squared`); exact in ℚ. -/
def normSq (a : V3) : ℚ := a.dot a

def zero : V3 := ⟨0, 0, 0⟩

instance : Add V3 := ⟨add⟩

instance : Sub V3 := ⟨sub⟩

instance : Neg V3 := ⟨neg⟩

instance : HMul ℚ V3 V3 := ⟨smul⟩

theorem add_def (a b : V3) : a + b = ⟨a.x + b.x, a.y + b.y, a.z + b.z⟩ := rfl

theorem sub_def (a b : V3) : a - b = ⟨a.x - b.x, a.y - b.y, a.z - b.z⟩ := rfl

theorem smul_def (s : ℚ) (a : V3) : s * a = ⟨s * a.x, s * a.y, s * a.z⟩ := rfl

theorem neg_def (a : V3) : -a = ⟨-a.x, -a.y, -a.z⟩ := rfl

theorem normSq_nonneg (a : V3) : 0 ≤ a.normSq := by
  have hx := mul_self_nonneg a.x
  have hy := mul_self_nonneg a.y
  have hz := mul_self_nonneg a.z
  simp only [normSq, dot]
  linarith

end V3

/-! ## Self-collision pair coloring
Embedding of `physics/src/collision/self_collision/coloring.rs`
(`SelfCollision::color_pairs`).  A `CollisionPair` carries two particle
indices (`config.rs`). -/

/-- Embeds `CollisionPair { i: u32, j: u32 }` from `self_collision/config.rs`. -/
structure CollisionPair where
  i : Nat
  j : Nat
deriving DecidableEq, Repr

/-- Models `array[k] += 1` on a `Vec<usize>`. -/
def bumpAt (l : List Nat) (k : Nat) : List Nat := l.set k (l.getD k 0 + 1)

/-- Per-particle degree count: the first loop of `color_pairs` (and of
`color_constraints`). -/
def pairDegrees (pairs : List CollisionPair) (particleCount : Nat) : List Nat :=
  pairs.foldl (fun deg p => bumpAt (bumpAt deg p.i) p.j) (List.replicate particleCount 0)

/-- Running prefix sums with seed `a`: `prefixSums deg 0` is the CSR `offset`
array (`offset[0] = 0`, `offset[i+1] = offset[i] + degree[i]`). -/
def prefixSums : List Nat → Nat → List Nat
  | [], a => [a]
  | d :: rest, a => a :: prefixSums rest (a + d)

/-- CSR offset array built from the degree array. -/
def csrOffsets (deg : List Nat) : List Nat := prefixSums deg 0

/-- One CSR scatter write: `adj[counter[p]] = idx; counter[p] += 1`.
State is `(adj, counter)`. -/
def csrPush (ac : List Nat × List Nat) (p idx : Nat) : List Nat × List Nat :=
  (ac.1.set (ac.2.getD p 0) idx, bumpAt ac.2 p)

/-- CSR adjacency fill of `color_pairs`: for each pair index `idx`, scatter
`idx` into the segments of both of its particles. -/
def pairAdj (pairs : List CollisionPair) (offset : List Nat) (total : Nat) : List Nat :=
  (pairs.enum.foldl (fun ac ip => csrPush (csrPush ac ip.2.i ip.1) ip.2.j ip.1)
    (List.replicate total 0, offset)).1

/-- The CSR segment `adj[offset[p]..offset[p+1]]` for particle `p`. -/
def csrSeg (adj offset : List Nat) (p : Nat) : List Nat :=
  (adj.drop (offset.getD p 0)).take (offset.getD (p + 1) 0 - offset.getD p 0)

/-- The `used_colors |= 1u64 << c` accumulation loop of `color_pairs`, with its
`if c < 64` guard. -/
def usedColorBits (colors : List (Option Nat)) (seg : List Nat) (used : Nat) : Nat :=
  seg.foldl (fun acc cIdx =>
    match colors.getD cIdx none with
    | some c => if c < 64 then acc ||| (1 <<< c) else acc
    | none => acc) used

/-- Models `(!used_colors).trailing_zeros()` on a `u64` whose set bits all lie
below 64: the least bit index `< 64` that is unset, and 64 when bits 0..63 are
all set. -/
def lowestUnsetBit (used : Nat) : Nat :=
  ((List.range 64).findIdx? (fun k => !used.testBit k)).getD 64

/-- Greedy-coloring state: per-pair assigned colors and the per-color batch
index lists (`batch_indices`). -/
structure GreedyState where
  colors : List (Option Nat)
  batches : List (List Nat)
deriving Repr

/-- Models `batch_indices.resize(color+1, vec![]); batch_indices[color].push(idx)`. -/
def pushBatch (batches : List (List Nat)) (color idx : Nat) : List (List Nat) :=
  let bs := if batches.length ≤ color
    then batches ++ List.replicate (color + 1 - batches.length) []
    else batches
  bs.set color (bs.getD color [] ++ [idx])

/-- One iteration of the greedy coloring loop of `color_pairs` for pair `idx`. -/
def greedyPairStep (pairs : List CollisionPair) (offset adj : List Nat)
    (gs : GreedyState) (idx : Nat) : GreedyState :=
  let p := pairs.getD idx ⟨0, 0⟩
  let used := usedColorBits gs.colors (csrSeg adj offset p.i) 0
  let used := usedColorBits gs.colors (csrSeg adj offset p.j) used
  let color := lowestUnsetBit used
  { colors := gs.colors.set idx (some color)
    batches := pushBatch gs.batches color idx }

/-- Embeds `SelfCollision::color_pairs` (`self_collision/coloring.rs`): returns
the reordered pair list and the batch offset array. -/
def colorPairs (pairs : List CollisionPair) (particleCount : Nat) :
    List CollisionPair × List Nat :=
  if pairs.isEmpty then (pairs, [])
  else
    let deg := pairDegrees pairs particleCount
    let offset := csrOffsets deg
    let adj := pairAdj pairs offset (offset.getD particleCount 0)
    let final := (List.range pairs.length).foldl
      (fun gs idx => greedyPairStep pairs offset adj gs idx)
      ⟨List.replicate pairs.length none, []⟩
    let sorted := final.batches.foldl
      (fun acc batch => acc ++ batch.map (fun idx => pairs.getD idx ⟨0, 0⟩)) []
    let offs := final.batches.foldl
      (fun (acc : List Nat × Nat) batch => (acc.1 ++ [acc.2], acc.2 + batch.length))
      ([], 0)
    (sorted, offs.1 ++ [offs.2])

/-- The pair records of batch `b`: the index range between consecutive batch
offsets. -/
def batchSlice (pairs : List CollisionPair) (offsets : List Nat) (b : Nat) :
    List CollisionPair :=
  (pairs.drop (offsets.getD b 0)).take (offsets.getD (b + 1) 0 - offsets.getD b 0)

/-- All particle indices mentioned by a list of pair records. -/
def batchParticles (batch : List CollisionPair) : List Nat :=
  batch.foldl (fun acc p => acc ++ [p.i, p.j]) []

/-- 66 pairs that all share particle 0: pair `k` is `{0, k+1}`. -/
def capPairs : List CollisionPair := (List.range 66).map (fun k => ⟨0, k + 1⟩)


/-! ## Topology exclusion
Embedding of `physics/src/collision/exclusion.rs` (`TopologyExclusion`).
`FxHashSet<u32>` becomes `Finset Nat` (iteration order of the hash set is
nondeterministic in the source and never observable in the results). -/

/-- Consecutive index triples of a flat triangle-index list (`indices.len()/3`
triangles; a trailing remainder is ignored, as in the source). -/
def triTriples : List Nat → List (Nat × Nat × Nat)
  | a :: b :: c :: rest => (a, b, c) :: triTriples rest
  | _ => []

/-- Models `adjacency[a].insert(b)` on the adjacency table. -/
def adjInsert (f : Nat → Finset Nat) (a b : Nat) : Nat → Finset Nat :=
  fun k => if k = a then insert b (f k) else f k

/-- The six `insert` calls done for one triangle `(i0, i1, i2)`. -/
def addTriangle (f : Nat → Finset Nat) (i0 i1 i2 : Nat) : Nat → Finset Nat :=
  let f1 := adjInsert f i0 i1
  let f2 := adjInsert f1 i0 i2
  let f3 := adjInsert f2 i1 i0
  let f4 := adjInsert f3 i1 i2
  let f5 := adjInsert f4 i2 i0
  adjInsert f5 i2 i1

/-- The adjacency table built from the triangle list (first loop of
`TopologyExclusion::new`). -/
def buildAdj (indices : List Nat) : Nat → Finset Nat :=
  (triTriples indices).foldl (fun f t => addTriangle f t.1 t.2.1 t.2.2) (fun _ => ∅)

/-- One ring of the BFS loop: state is `(visited, frontier)`; the new frontier
is every not-yet-visited neighbor of the old frontier. -/
def bfsStep (adj : Nat → Finset Nat) :
    Finset Nat × Finset Nat → Finset Nat × Finset Nat :=
  fun vf =>
    let nf := (vf.2.biUnion adj) \ vf.1
    (vf.1 ∪ nf, nf)

/-- The `(visited, frontier)` state after `r` rings of BFS from particle `i`
(the source seeds `visited = {i}`, `frontier = vec![i]`). -/
def bfsRun (adj : Nat → Finset Nat) (i r : Nat) : Finset Nat × Finset Nat :=
  (bfsStep adj)^[r] ({i}, {i})

/-- The visited set after the ring loop of `TopologyExclusion::new`. -/
def bfsVisited (adj : Nat → Finset Nat) (i r : Nat) : Finset Nat :=
  (bfsRun adj i r).1

/-- The bitmask loop `for &v in &visited { if v < 64 { mask |= 1u64 << v } }`. -/
def maskOfVisited (s : Finset Nat) : Nat :=
  s.fold (· ||| ·) 0 (fun v => if v < 64 then 1 <<< v else 0)

/-- Embeds the `TopologyExclusion` struct: per-particle bitmask plus optional
extended set. -/
structure TopologyExclusion where
  masks : List Nat
  extended : List (Option (Finset Nat))
  ring_depth : Nat

/-- Embeds `TopologyExclusion::new(indices, particle_count, ring_depth)`. -/
def TopologyExclusion.new (indices : List Nat) (particleCount ringDepth : Nat) :
    TopologyExclusion :=
  let adj := buildAdj indices
  let visited := fun i => bfsVisited adj i ringDepth
  { masks := (List.range particleCount).map (fun i => maskOfVisited (visited i))
    extended := (List.range particleCount).map (fun i =>
      if (∃ v ∈ visited i, ¬ v < 64) ∨ 64 < (visited i).card
      then some (visited i) else none)
    ring_depth := ringDepth }

/-- Embeds `TopologyExclusion::should_exclude(i, j)`: bitmask fast path for
`j < 64`, extended-set fallback otherwise. -/
def TopologyExclusion.should_exclude (te : TopologyExclusion) (i j : Nat) : Bool :=
  if j < 64 then (te.masks.getD i 0 &&& (1 <<< j)) != 0
  else
    match te.extended.getD i none with
    | some s => decide (j ∈ s)
    | none => false

/-- Reachability within `r` hops in the adjacency table (specification-side
notion used to characterize the BFS loop). -/
def reachB (adj : Nat → Finset Nat) : Nat → Nat → Nat → Prop
  | 0, i, j => j = i
  | r + 1, i, j => reachB adj r i j ∨ ∃ m, reachB adj r i m ∧ j ∈ adj m

theorem bfsRun_succ (adj : Nat → Finset Nat) (i r : Nat) :
    bfsRun adj i (r + 1) = bfsStep adj (bfsRun adj i r) :=
  Function.iterate_succ_apply' (bfsStep adj) r ({i}, {i})

theorem bfsStep_fst (adj : Nat → Finset Nat) (vf : Finset Nat × Finset Nat) :
    (bfsStep adj vf).1 = vf.1 ∪ ((vf.2.biUnion adj) \ vf.1) := rfl

theorem bfsStep_snd (adj : Nat → Finset Nat) (vf : Finset Nat × Finset Nat) :
    (bfsStep adj vf).2 = (vf.2.biUnion adj) \ vf.1 := rfl

theorem reachB_mono (adj : Nat → Finset Nat) (r i j : Nat) :
    reachB adj r i j → reachB adj (r + 1) i j := fun h => Or.inl h

theorem bfs_frontier_subset (adj : Nat → Finset Nat) (i r : Nat) :
    (bfsRun adj i r).2 ⊆ (bfsRun adj i r).1 := by
  cases r with
  | zero => simp [bfsRun]
  | succ r =>
    rw [bfsRun_succ, bfsStep_fst, bfsStep_snd]
    exact Finset.subset_union_right

theorem bfs_vis_mono (adj : Nat → Finset Nat) (i r : Nat) :
    (bfsRun adj i r).1 ⊆ (bfsRun adj i (r + 1)).1 := by
  rw [bfsRun_succ, bfsStep_fst]
  exact Finset.subset_union_left

theorem bfs_sound (adj : Nat → Finset Nat) (i : Nat) :
    ∀ r j, j ∈ (bfsRun adj i r).1 → reachB adj r i j := by
  intro r
  induction r with
  | zero => intro j hj; simpa [bfsRun, reachB] using hj
  | succ r ih =>
    intro j hj
    rw [bfsRun_succ, bfsStep_fst] at hj
    rcases Finset.mem_union.mp hj with h | h
    · exact Or.inl (ih j h)
    · rcases Finset.mem_sdiff.mp h with ⟨hb, -⟩
      rcases Finset.mem_biUnion.mp hb with ⟨m, hm, hjm⟩
      exact Or.inr ⟨m, ih m (bfs_frontier_subset adj i r hm), hjm⟩

theorem bfs_nbr_frontier (adj : Nat → Finset Nat) (i r j : Nat)
    (hj : j ∈ (bfsRun adj i r).2.biUnion adj) : j ∈ (bfsRun adj i (r + 1)).1 := by
  rw [bfsRun_succ, bfsStep_fst]
  by_cases hv : j ∈ (bfsRun adj i r).1
  · exact Finset.mem_union_left _ hv
  · exact Finset.mem_union_right _ (Finset.mem_sdiff.mpr ⟨hj, hv⟩)

theorem bfs_closure (adj : Nat → Finset Nat) (i : Nat) :
    ∀ r m, m ∈ (bfsRun adj i r).1 → ∀ j, j ∈ adj m → j ∈ (bfsRun adj i (r + 1)).1 := by
  intro r
  induction r with
  | zero =>
    intro m hm j hj
    have hmi : m = i := by simpa [bfsRun] using hm
    refine bfs_nbr_frontier adj i 0 j (Finset.mem_biUnion.mpr ⟨i, by simp [bfsRun], ?_⟩)
    rw [← hmi]
    exact hj
  | succ r ih =>
    intro m hm j hj
    rw [bfsRun_succ, bfsStep_fst] at hm
    rcases Finset.mem_union.mp hm with h | h
    · exact bfs_vis_mono adj i (r + 1) (ih m h j hj)
    · have hfr : m ∈ (bfsRun adj i (r + 1)).2 := by
        rw [bfsRun_succ, bfsStep_snd]; exact h
      exact bfs_nbr_frontier adj i (r + 1) j (Finset.mem_biUnion.mpr ⟨m, hfr, hj⟩)

theorem bfs_complete (adj : Nat → Finset Nat) (i : Nat) :
    ∀ r j, reachB adj r i j → j ∈ (bfsRun adj i r).1 := by
  intro r
  induction r with
  | zero => intro j hj; simp [bfsRun, reachB] at hj ⊢; exact hj
  | succ r ih =>
    intro j hj
    rcases hj with h | ⟨m, hm, hjm⟩
    · exact bfs_vis_mono adj i r (ih j h)
    · exact bfs_closure adj i r m (ih m hm) j hjm

/-- The BFS visited set after `r` rings is exactly the radius-`r` reachability
ball. -/
theorem bfsVisited_iff (adj : Nat → Finset Nat) (i r j : Nat) :
    j ∈ bfsVisited adj i r ↔ reachB adj r i j :=
  ⟨bfs_sound adj i r j, bfs_complete adj i r j⟩

/-- First-step characterization of bounded reachability. -/
theorem reachB_succ_left (adj : Nat → Finset Nat) :
    ∀ r i j, reachB adj (r + 1) i j ↔
      (reachB adj r i j ∨ ∃ m, m ∈ adj i ∧ reachB adj r m j) := by
  intro r
  induction r with
  | zero =>
    intro i j
    constructor
    · rintro (h | ⟨m, hm, hjm⟩)
      · exact Or.inl h
      · cases hm
        exact Or.inr ⟨j, hjm, rfl⟩
    · rintro (h | ⟨m, hmi, hmj⟩)
      · exact Or.inl h
      · cases hmj
        exact Or.inr ⟨i, rfl, hmi⟩
  | succ r ih =>
    intro i j
    constructor
    · rintro (h | ⟨m, hm, hjm⟩)
      · rcases (ih i j).mp h with h' | ⟨a, ha, har⟩
        · exact Or.inl (Or.inl h')
        · exact Or.inr ⟨a, ha, Or.inl har⟩
      · rcases (ih i m).mp hm with h' | ⟨a, ha, har⟩
        · exact Or.inl (Or.inr ⟨m, h', hjm⟩)
        · exact Or.inr ⟨a, ha, Or.inr ⟨m, har, hjm⟩⟩
    · rintro (h | ⟨a, ha, har⟩)
      · exact Or.inl h
      · rcases har with h' | ⟨m, hm, hjm⟩
        · exact Or.inl ((ih i j).mpr (Or.inr ⟨a, ha, h'⟩))
        · exact Or.inr ⟨m, (ih i m).mpr (Or.inr ⟨a, ha, hm⟩), hjm⟩

/-- An adjacency table is symmetric when membership goes both ways. -/
def AdjSymm (adj : Nat → Finset Nat) : Prop :=
  ∀ a b, a ∈ adj b ↔ b ∈ adj a

theorem reachB_symm (adj : Nat → Finset Nat) (hs : AdjSymm adj) :
    ∀ r i j, reachB adj r i j → reachB adj r j i := by
  intro r
  induction r with
  | zero => intro i j h; exact h.symm
  | succ r ih =>
    intro i j h
    rcases h with h | ⟨m, hm, hjm⟩
    · exact Or.inl (ih i j h)
    · exact (reachB_succ_left adj r j i).mpr
        (Or.inr ⟨m, (hs m j).mpr hjm, ih i m hm⟩)

theorem adjInsert_mem (f : Nat → Finset Nat) (c d k a : Nat) :
    a ∈ adjInsert f c d k ↔ a ∈ f k ∨ (k = c ∧ a = d) := by
  unfold adjInsert
  by_cases h : k = c <;> simp [h] <;> tauto

theorem addTriangle_symm (f : Nat → Finset Nat) (i0 i1 i2 : Nat)
    (hs : AdjSymm f) : AdjSymm (addTriangle f i0 i1 i2) := by
  intro a b
  have hab := hs a b
  simp only [addTriangle, adjInsert_mem]
  tauto

theorem buildAdj_symm (indices : List Nat) : AdjSymm (buildAdj indices) := by
  unfold buildAdj
  generalize triTriples indices = ts
  induction ts using List.reverseRecOn with
  | nil => intro a b; simp
  | append_singleton ts t ih =>
    rw [List.foldl_append]
    exact addTriangle_symm _ t.1 t.2.1 t.2.2 ih

theorem testBit_maskOfVisited (s : Finset Nat) (j : Nat) :
    (maskOfVisited s).testBit j = true ↔ j ∈ s ∧ j < 64 := by
  unfold maskOfVisited
  induction s using Finset.induction_on with
  | empty => simp [Nat.zero_testBit]
  | @insert a s ha ih =>
    rw [Finset.fold_insert ha, Nat.testBit_or]
    constructor
    · intro h
      rcases Bool.or_eq_true_iff.mp h with h1 | h1
      · by_cases hb : a < 64
        · simp only [hb, if_true, Nat.one_shiftLeft, Nat.testBit_two_pow] at h1
          have : a = j := by simpa using h1
          exact ⟨by simp [← this], by simpa [← this] using hb⟩
        · simp [hb, Nat.zero_testBit] at h1
      · rcases ih.mp h1 with ⟨hmem, hlt⟩
        exact ⟨Finset.mem_insert_of_mem hmem, hlt⟩
    · rintro ⟨hmem, hlt⟩
      rcases Finset.mem_insert.mp hmem with h1 | h1
      · subst h1
        simp [hlt, Nat.one_shiftLeft, Nat.testBit_two_pow]
      · exact Bool.or_eq_true_iff.mpr (Or.inr (ih.mpr ⟨h1, hlt⟩))

theorem getD_map_range {α : Type} (f : Nat → α) (n i : Nat) (hi : i < n) (d : α) :
    ((List.range n).map f).getD i d = f i := by
  rw [List.getD_eq_getElem?_getD, List.getElem?_map, List.getElem?_range hi]
  rfl

/-- For a particle index in range, `should_exclude i j` tests exactly whether
`j` lies in the BFS-visited ring neighborhood of `i`. -/
theorem should_exclude_iff (indices : List Nat) (n r i j : Nat) (hi : i < n) :
    (TopologyExclusion.new indices n r).should_exclude i j = true ↔
      j ∈ bfsVisited (buildAdj indices) i r := by
  unfold TopologyExclusion.new TopologyExclusion.should_exclude
  simp only
  by_cases hj : j < 64
  · rw [if_pos hj, getD_map_range _ n i hi, Nat.one_shiftLeft, Nat.and_two_pow]
    rcases hbit : (maskOfVisited (bfsVisited (buildAdj indices) i r)).testBit j with _ | _
    · have hnot := (not_iff_not.mpr (testBit_maskOfVisited
        (bfsVisited (buildAdj indices) i r) j)).mp (by simp [hbit])
      simp only [hbit, Bool.toNat_false, Nat.zero_mul]
      constructor
      · intro h; simp at h
      · intro h; exact absurd ⟨h, hj⟩ hnot
    · have hmem := (testBit_maskOfVisited (bfsVisited (buildAdj indices) i r) j).mp hbit
      simp only [hbit, Bool.toNat_true, Nat.one_mul]
      constructor
      · intro _; exact hmem.1
      · intro _
        have : (2 : Nat) ^ j ≠ 0 := Nat.pos_iff_ne_zero.mp (Nat.pos_pow_of_pos j (by norm_num))
        simpa using this
  · rw [if_neg hj, getD_map_range _ n i hi]
    by_cases hc : (∃ v ∈ bfsVisited (buildAdj indices) i r, ¬ v < 64) ∨
        64 < (bfsVisited (buildAdj indices) i r).card
    · rw [if_pos hc]
      simp
    · rw [if_neg hc]
      push_neg at hc
      constructor
      · intro h; exact absurd h (by simp)
      · intro h; exact absurd (hc.1 j h) (by simpa using hj)

/-- C10: for every mesh and ring depth, and for all particle indices `i`, `j`
below the particle count, `should_exclude i j` equals `should_exclude j i`:
the precomputed N-ring exclusion data answers membership in the BFS ball of
the symmetric mesh adjacency, which is a symmetric relation. -/
theorem claim_C10_should_exclude_symm (indices : List Nat) (n r i j : Nat)
    (hi : i < n) (hj : j < n) :
    (TopologyExclusion.new indices n r).should_exclude i j =
      (TopologyExclusion.new indices n r).should_exclude j i := by
  have h1 := should_exclude_iff indices n r i j hi
  have h2 := should_exclude_iff indices n r j i hj
  have hsym : reachB (buildAdj indices) r i j ↔ reachB (buildAdj indices) r j i :=
    ⟨reachB_symm _ (buildAdj_symm indices) r i j,
     reachB_symm _ (buildAdj_symm indices) r j i⟩
  have hiff : ((TopologyExclusion.new indices n r).should_exclude i j = true) ↔
      ((TopologyExclusion.new indices n r).should_exclude j i = true) := by
    rw [h1, h2, bfsVisited_iff, bfsVisited_iff]
    exact hsym
  cases hx : (TopologyExclusion.new indices n r).should_exclude i j <;>
    cases hy : (TopologyExclusion.new indices n r).should_exclude j i <;>
      simp_all

/-- Witness for C10 on a single triangle at ring depth 1. -/
theorem claim_C10_witness :
    (0 : Nat) < 3 ∧ (1 : Nat) < 3 ∧
      (TopologyExclusion.new [0, 1, 2] 3 1).should_exclude 0 1 =
        (TopologyExclusion.new [0, 1, 2] 3 1).should_exclude 1 0 :=
  ⟨by decide, by decide,
   claim_C10_should_exclude_symm [0, 1, 2] 3 1 0 1 (by decide) (by decide)⟩

/-- C1 (code evidence): feeding `color_pairs` 66 pairs that all share particle
0 exhausts the 64-bit color mask; pairs 64 and 65 (records `{0,65}` and
`{0,66}`) both receive color 64 and land in the same produced batch, so that
batch mentions particle 0 twice — the claimed batch invariant fails. -/
theorem claim_C1_coloring_cap_violation :
    batchSlice (colorPairs capPairs 67).1 (colorPairs capPairs 67).2 64 =
      [⟨0, 65⟩, ⟨0, 66⟩] ∧
    ¬ (batchParticles
        (batchSlice (colorPairs capPairs 67).1 (colorPairs capPairs 67).2 64)).Nodup := by
  have h : batchSlice (colorPairs capPairs 67).1 (colorPairs capPairs 67).2 64 =
      [⟨0, 65⟩, ⟨0, 66⟩] := by decide
  refine ⟨h, ?_⟩
  rw [h]
  decide

/-! ## Self-collision pair detection
Embedding of `physics/src/collision/self_collision/detection.rs`
(`SelfCollision::detect_pairs`, serial path).  The hierarchical-hash query
called there is passed in as an oracle `queryFn` (the candidate list returned
for a query position and radius); every theorem below holds for an arbitrary
oracle, hence for the hash of `spatial/dynamic.rs` in particular. -/

/-- Inner candidate loop of `detect_pairs` for particle `i`: skip `j ≤ i`,
skip excluded pairs, emit on the strict squared-distance window, and break as
soon as the pair cap is reached. -/
def detectInner (excl : TopologyExclusion) (positions : Nat → V3)
    (thicknessSq : ℚ) (maxPairs i : Nat) :
    List Nat → List CollisionPair → List CollisionPair
  | [], acc => acc
  | j :: rest, acc =>
    if i ≥ j then detectInner excl positions thicknessSq maxPairs i rest acc
    else if excl.should_exclude i j then
      detectInner excl positions thicknessSq maxPairs i rest acc
    else
      let delta := positions i - positions j
      let distSq := delta.normSq
      if distSq < thicknessSq ∧ distSq > 1 / 1000000000 then
        let acc' := acc ++ [⟨i, j⟩]
        if maxPairs ≤ acc'.length then acc'
        else detectInner excl positions thicknessSq maxPairs i rest acc'
      else detectInner excl positions thicknessSq maxPairs i rest acc

/-- Outer particle loop of `detect_pairs`: query the hash oracle for each
particle in turn, and break once the cap is reached. -/
def detectFrom (excl : TopologyExclusion) (queryFn : V3 → ℚ → List Nat)
    (positions : Nat → V3) (thickness : ℚ) (maxPairs : Nat) :
    List Nat → List CollisionPair → List CollisionPair
  | [], acc => acc
  | i :: rest, acc =>
    let acc' := detectInner excl positions (thickness * thickness) maxPairs i
      (queryFn (positions i) thickness) acc
    if maxPairs ≤ acc'.length then acc'
    else detectFrom excl queryFn positions thickness maxPairs rest acc'

/-- Embeds `SelfCollision::detect_pairs` (serial path): the emitted pair list
for `count` particles. -/
def SelfCollision.detect_pairs (excl : TopologyExclusion)
    (queryFn : V3 → ℚ → List Nat) (positions : Nat → V3) (count : Nat)
    (thickness : ℚ) (maxPairs : Nat) : List CollisionPair :=
  detectFrom excl queryFn positions thickness maxPairs (List.range count) []

/-- Specification-side variant of the inner loop with the pair cap removed
(used to state that the capped run is a prefix truncation of the uncapped
one). -/
def detectInnerNC (excl : TopologyExclusion) (positions : Nat → V3)
    (thicknessSq : ℚ) (i : Nat) :
    List Nat → List CollisionPair → List CollisionPair
  | [], acc => acc
  | j :: rest, acc =>
    if i ≥ j then detectInnerNC excl positions thicknessSq i rest acc
    else if excl.should_exclude i j then
      detectInnerNC excl positions thicknessSq i rest acc
    else
      let delta := positions i - positions j
      let distSq := delta.normSq
      if distSq < thicknessSq ∧ distSq > 1 / 1000000000 then
        detectInnerNC excl positions thicknessSq i rest (acc ++ [⟨i, j⟩])
      else detectInnerNC excl positions thicknessSq i rest acc

/-- Specification-side uncapped outer loop. -/
def detectFromNC (excl : TopologyExclusion) (queryFn : V3 → ℚ → List Nat)
    (positions : Nat → V3) (thickness : ℚ) :
    List Nat → List CollisionPair → List CollisionPair
  | [], acc => acc
  | i :: rest, acc =>
    detectFromNC excl queryFn positions thickness rest
      (detectInnerNC excl positions (thickness * thickness) i
        (queryFn (positions i) thickness) acc)

/-- The uncapped emission list. -/
def detectPairsNC (excl : TopologyExclusion) (queryFn : V3 → ℚ → List Nat)
    (positions : Nat → V3) (count : Nat) (thickness : ℚ) : List CollisionPair :=
  detectFromNC excl queryFn positions thickness (List.range count) []

/-- The property C7 asserts of every emitted pair. -/
def GoodPair (excl : TopologyExclusion) (positions : Nat → V3) (thicknessSq : ℚ)
    (p : CollisionPair) : Prop :=
  p.i < p.j ∧ excl.should_exclude p.i p.j = false ∧
    (positions p.i - positions p.j).normSq < thicknessSq ∧
    1 / 1000000000 < (positions p.i - positions p.j).normSq

theorem detectInner_sound (excl : TopologyExclusion) (positions : Nat → V3)
    (thicknessSq : ℚ) (maxPairs i : Nat) :
    ∀ js acc, (∀ p ∈ acc, GoodPair excl positions thicknessSq p) →
      ∀ p ∈ detectInner excl positions thicknessSq maxPairs i js acc,
        GoodPair excl positions thicknessSq p := by
  intro js
  induction js with
  | nil => intro acc hacc p hp; exact hacc p hp
  | cons j rest ih =>
    intro acc hacc p hp
    simp only [detectInner] at hp
    by_cases hij : i ≥ j
    · rw [if_pos hij] at hp; exact ih acc hacc p hp
    · rw [if_neg hij] at hp
      by_cases hex : excl.should_exclude i j
      · rw [if_pos hex] at hp; exact ih acc hacc p hp
      · rw [if_neg hex] at hp
        by_cases hd : (positions i - positions j).normSq < thicknessSq ∧
            (positions i - positions j).normSq > 1 / 1000000000
        · rw [if_pos hd] at hp
          have hgood : GoodPair excl positions thicknessSq ⟨i, j⟩ :=
            ⟨Nat.lt_of_not_le hij, Bool.not_eq_true _ ▸ (by simpa using hex),
             hd.1, hd.2⟩
          have hacc' : ∀ q ∈ acc ++ [(⟨i, j⟩ : CollisionPair)],
              GoodPair excl positions thicknessSq q := by
            intro q hq
            rcases List.mem_append.mp hq with h | h
            · exact hacc q h
            · rw [List.mem_singleton.mp h]; exact hgood
          by_cases hcap : maxPairs ≤ (acc ++ [(⟨i, j⟩ : CollisionPair)]).length
          · rw [if_pos hcap] at hp; exact hacc' p hp
          · rw [if_neg hcap] at hp; exact ih _ hacc' p hp
        · rw [if_neg hd] at hp; exact ih acc hacc p hp

theorem detectFrom_sound (excl : TopologyExclusion) (queryFn : V3 → ℚ → List Nat)
    (positions : Nat → V3) (thickness : ℚ) (maxPairs : Nat) :
    ∀ is acc, (∀ p ∈ acc, GoodPair excl positions (thickness * thickness) p) →
      ∀ p ∈ detectFrom excl queryFn positions thickness maxPairs is acc,
        GoodPair excl positions (thickness * thickness) p := by
  intro is
  induction is with
  | nil => intro acc hacc p hp; exact hacc p hp
  | cons i rest ih =>
    intro acc hacc p hp
    simp only [detectFrom] at hp
    have hacc' := detectInner_sound excl positions (thickness * thickness) maxPairs i
      (queryFn (positions i) thickness) acc hacc
    by_cases hcap : maxPairs ≤ (detectInner excl positions (thickness * thickness)
        maxPairs i (queryFn (positions i) thickness) acc).length
    · rw [if_pos hcap] at hp; exact hacc' p hp
    · rw [if_neg hcap] at hp; exact ih _ hacc' p hp

theorem detectInnerNC_extends (excl : TopologyExclusion) (positions : Nat → V3)
    (thicknessSq : ℚ) (i : Nat) :
    ∀ js acc, ∃ t, detectInnerNC excl positions thicknessSq i js acc = acc ++ t := by
  intro js
  induction js with
  | nil => intro acc; exact ⟨[], by simp [detectInnerNC]⟩
  | cons j rest ih =>
    intro acc
    simp only [detectInnerNC]
    by_cases hij : i ≥ j
    · rw [if_pos hij]; exact ih acc
    · rw [if_neg hij]
      by_cases hex : excl.should_exclude i j
      · rw [if_pos hex]; exact ih acc
      · rw [if_neg hex]
        by_cases hd : (positions i - positions j).normSq < thicknessSq ∧
            (positions i - positions j).normSq > 1 / 1000000000
        · rw [if_pos hd]
          rcases ih (acc ++ [⟨i, j⟩]) with ⟨t, ht⟩
          exact ⟨⟨i, j⟩ :: t, by simpa using ht⟩
        · rw [if_neg hd]; exact ih acc

theorem detectFromNC_extends (excl : TopologyExclusion) (queryFn : V3 → ℚ → List Nat)
    (positions : Nat → V3) (thickness : ℚ) :
    ∀ is acc, ∃ t, detectFromNC excl queryFn positions thickness is acc = acc ++ t := by
  intro is
  induction is with
  | nil => intro acc; exact ⟨[], by simp [detectFromNC]⟩
  | cons i rest ih =>
    intro acc
    simp only [detectFromNC]
    rcases detectInnerNC_extends excl positions (thickness * thickness) i
      (queryFn (positions i) thickness) acc with ⟨t1, ht1⟩
    rcases ih (detectInnerNC excl positions (thickness * thickness) i
      (queryFn (positions i) thickness) acc) with ⟨t2, ht2⟩
    exact ⟨t1 ++ t2, by rw [ht2, ht1, List.append_assoc]⟩

theorem detectInner_take (excl : TopologyExclusion) (positions : Nat → V3)
    (thicknessSq : ℚ) (maxPairs i : Nat) :
    ∀ js acc, acc.length < maxPairs →
      detectInner excl positions thicknessSq maxPairs i js acc =
        (detectInnerNC excl positions thicknessSq i js acc).take maxPairs := by
  intro js
  induction js with
  | nil =>
    intro acc hlen
    simp only [detectInner, detectInnerNC]
    exact (List.take_of_length_le (Nat.le_of_lt hlen)).symm
  | cons j rest ih =>
    intro acc hlen
    simp only [detectInner, detectInnerNC]
    by_cases hij : i ≥ j
    · rw [if_pos hij, if_pos hij]; exact ih acc hlen
    · rw [if_neg hij, if_neg hij]
      by_cases hex : excl.should_exclude i j
      · rw [if_pos hex, if_pos hex]; exact ih acc hlen
      · rw [if_neg hex, if_neg hex]
        by_cases hd : (positions i - positions j).normSq < thicknessSq ∧
            (positions i - positions j).normSq > 1 / 1000000000
        · rw [if_pos hd, if_pos hd]
          by_cases hcap : maxPairs ≤ (acc ++ [(⟨i, j⟩ : CollisionPair)]).length
          · rw [if_pos hcap]
            have hexact : (acc ++ [(⟨i, j⟩ : CollisionPair)]).length = maxPairs := by
              have : (acc ++ [(⟨i, j⟩ : CollisionPair)]).length = acc.length + 1 := by
                simp
              omega
            rcases detectInnerNC_extends excl positions thicknessSq i rest
              (acc ++ [⟨i, j⟩]) with ⟨t, ht⟩
            rw [ht, ← hexact]
            exact (List.take_left _ _).symm
          · rw [if_neg hcap]
            exact ih _ (by simp at hcap ⊢; omega)
        · rw [if_neg hd, if_neg hd]; exact ih acc hlen

theorem detectFrom_take (excl : TopologyExclusion) (queryFn : V3 → ℚ → List Nat)
    (positions : Nat → V3) (thickness : ℚ) (maxPairs : Nat) :
    ∀ is acc, acc.length < maxPairs →
      detectFrom excl queryFn positions thickness maxPairs is acc =
        (detectFromNC excl queryFn positions thickness is acc).take maxPairs := by
  intro is
  induction is with
  | nil =>
    intro acc hlen
    simp only [detectFrom, detectFromNC]
    exact (List.take_of_length_le (Nat.le_of_lt hlen)).symm
  | cons i rest ih =>
    intro acc hlen
    simp only [detectFrom, detectFromNC]
    have hinner := detectInner_take excl positions (thickness * thickness) maxPairs i
      (queryFn (positions i) thickness) acc hlen
    set capped := detectInner excl positions (thickness * thickness) maxPairs i
      (queryFn (positions i) thickness) acc with hcdef
    set nc := detectInnerNC excl positions (thickness * thickness) i
      (queryFn (positions i) thickness) acc with hncdef
    by_cases hcap : maxPairs ≤ capped.length
    · rw [if_pos hcap]
      have hlc : capped.length = maxPairs := by
        have h1 : capped.length ≤ maxPairs := by
          rw [hinner, List.length_take]; exact Nat.min_le_left _ _
        omega
      have hnc_len : maxPairs ≤ nc.length := by
        have := congrArg List.length hinner
        rw [List.length_take] at this
        omega
      rcases detectFromNC_extends excl queryFn positions thickness rest nc with ⟨t, ht⟩
      rw [ht, hinner, List.take_append_of_le_length hnc_len]
    · rw [if_neg hcap]
      have hclt : capped.length < maxPairs := Nat.lt_of_not_le hcap
      have hnceq : nc = capped := by
        have := congrArg List.length hinner
        rw [List.length_take] at this
        have hnclen : nc.length < maxPairs := by omega
        rw [hinner, List.take_of_length_le (Nat.le_of_lt hnclen)]
      rw [hnceq]
      exact ih capped hclt

/-- Two particles 1 mm apart (well inside the default 5 mm thickness). -/
def posPairCx : Nat → V3 := fun n => if n = 0 then ⟨0, 0, 0⟩ else ⟨1 / 1000, 0, 0⟩

/-- C7 counterexample: with `max_pairs = 0` the serial detection loop pushes a
pair before testing the cap, so it emits one pair — more than the configured
maximum. -/
theorem claim_C7_counterexample :
    ¬ ((SelfCollision.detect_pairs (TopologyExclusion.new [] 2 2)
        (fun _ _ => [0, 1]) posPairCx 2 (5 / 1000) 0).length ≤ 0) ∧
    (SelfCollision.detect_pairs (TopologyExclusion.new [] 2 2)
        (fun _ _ => [0, 1]) posPairCx 2 (5 / 1000) 0) = [⟨0, 1⟩] := by
  constructor
  · with_unfolding_all decide
  · with_unfolding_all decide

/-- C7 (amended): provided the configured maximum is at least 1, every emitted
pair `{i, j}` has `i < j`, is not topology-excluded, and its squared distance
lies strictly between the numerical floor 1e-9 and the squared thickness; the
emitted list is exactly the first `max_pairs` entries of the uncapped
emission (so once the cap is reached, all remaining candidates for the
current and later particles are dropped without error) and never exceeds the
cap. -/
theorem claim_C7_detection_amended (excl : TopologyExclusion)
    (queryFn : V3 → ℚ → List Nat) (positions : Nat → V3) (count : Nat)
    (thickness : ℚ) (maxPairs : Nat) (hmp : 1 ≤ maxPairs) :
    (∀ p ∈ SelfCollision.detect_pairs excl queryFn positions count thickness maxPairs,
        GoodPair excl positions (thickness * thickness) p) ∧
    SelfCollision.detect_pairs excl queryFn positions count thickness maxPairs =
      (detectPairsNC excl queryFn positions count thickness).take maxPairs ∧
    (SelfCollision.detect_pairs excl queryFn positions count thickness
        maxPairs).length ≤ maxPairs := by
  have hs := detectFrom_sound excl queryFn positions thickness maxPairs
    (List.range count) [] (by simp)
  have ht := detectFrom_take excl queryFn positions thickness maxPairs
    (List.range count) [] (by simpa using hmp)
  refine ⟨?_, ?_, ?_⟩
  · intro p hp
    exact hs p hp
  · exact ht
  · show (detectFrom excl queryFn positions thickness maxPairs
      (List.range count) []).length ≤ maxPairs
    rw [ht, List.length_take]
    exact Nat.min_le_left _ _

/-- Witness for C7 on a 2-particle scene with cap 10. -/
theorem claim_C7_witness :
    (∀ p ∈ SelfCollision.detect_pairs (TopologyExclusion.new [] 2 2)
        (fun _ _ => [0, 1]) posPairCx 2 (5 / 1000) 10,
        GoodPair (TopologyExclusion.new [] 2 2) posPairCx
          ((5 / 1000) * (5 / 1000)) p) ∧
    SelfCollision.detect_pairs (TopologyExclusion.new [] 2 2)
        (fun _ _ => [0, 1]) posPairCx 2 (5 / 1000) 10 =
      (detectPairsNC (TopologyExclusion.new [] 2 2)
        (fun _ _ => [0, 1]) posPairCx 2 (5 / 1000)).take 10 ∧
    (SelfCollision.detect_pairs (TopologyExclusion.new [] 2 2)
        (fun _ _ => [0, 1]) posPairCx 2 (5 / 1000) 10).length ≤ 10 :=
  claim_C7_detection_amended (TopologyExclusion.new [] 2 2)
    (fun _ _ => [0, 1]) posPairCx 2 (5 / 1000) 10 (by decide)

/-! ## Particle state
Embedding of `engine/state.rs` (`PhysicsState`), restricted to the fields the
claims touch.  Per-particle arrays become total functions on indices; every
source access is in bounds for well-formed states. -/

/-- Embeds `PhysicsState`: current/previous positions and inverse masses. -/
structure PState where
  count : Nat
  positions : Nat → V3
  prevPositions : Nat → V3
  invMass : Nat → ℚ

/-- Models `state.positions[i] = v`. -/
def PState.setPos (st : PState) (i : Nat) (v : V3) : PState :=
  { st with positions := fun k => if k = i then v else st.positions k }

/-- Models `state.positions[i] += v`. -/
def PState.addPos (st : PState) (i : Nat) (v : V3) : PState :=
  st.setPos i (st.positions i + v)

/-- Models `state.prev_positions[i] = v`. -/
def PState.setPrev (st : PState) (i : Nat) (v : V3) : PState :=
  { st with prevPositions := fun k => if k = i then v else st.prevPositions k }

/-- Componentwise division by a scalar (`Vec3 / f32`). -/
def V3.divQ (a : V3) (s : ℚ) : V3 := ⟨a.x / s, a.y / s, a.z / s⟩

instance : HDiv V3 ℚ V3 := ⟨V3.divQ⟩

theorem V3.div_def (a : V3) (s : ℚ) : a / s = ⟨a.x / s, a.y / s, a.z / s⟩ := rfl

/-! ## Self-collision resolution
Embedding of `physics/src/collision/self_collision/resolution.rs`
(`SelfCollision::resolve_single`, the scalar fallback). -/

/-- Embeds `SelfCollision::resolve_single(state, k, stiffness, thickness)`. -/
def SelfCollision.resolve_single (sq : ℚ → ℚ) (pairs : List CollisionPair)
    (st : PState) (k : Nat) (stiffness thickness : ℚ) : PState :=
  let pair := pairs.getD k ⟨0, 0⟩
  let i := pair.i
  let j := pair.j
  let pI := st.positions i
  let pJ := st.positions j
  let delta := pI - pJ
  let dist := sq delta.normSq
  if dist < 1 / 1000000000 then st
  else
    let overlap := thickness - dist
    if overlap ≤ 0 then st
    else
      let normal := delta / dist
      let correction := (overlap * stiffness) * normal
      let w1 := st.invMass i
      let w2 := st.invMass j
      let wSum := w1 + w2
      if 0 < wSum then
        let r1 := w1 / wSum
        let r2 := w2 / wSum
        let st1 := if 0 < w1 then st.addPos i (r1 * correction) else st
        if 0 < w2 then st1.addPos j (-(r2 * correction)) else st1
      else st

theorem V3.ext {a b : V3} (hx : a.x = b.x) (hy : a.y = b.y) (hz : a.z = b.z) :
    a = b := by
  cases a; cases b; simp_all

theorem PState.addPos_positions (st : PState) (i : Nat) (v : V3) (k : Nat) :
    (st.addPos i v).positions k = if k = i then st.positions i + v else st.positions k :=
  rfl

theorem PState.addPos_invMass (st : PState) (i : Nat) (v : V3) :
    (st.addPos i v).invMass = st.invMass := rfl

/-- Core computation for C9: one `resolve_single` on an overlapping pair of
free particles rescales the separation vector by `1 + s·(thickness−d)/d`. -/
theorem resolve_single_delta (sq : ℚ → ℚ) (pairs : List CollisionPair)
    (st : PState) (k : Nat) (i j : Nat) (d s th : ℚ)
    (hpair : pairs.getD k ⟨0, 0⟩ = ⟨i, j⟩) (hij : i ≠ j)
    (hsq : sq ((st.positions i - st.positions j).normSq) = d)
    (hfl : 1 / 1000000000 ≤ d) (hth : d < th)
    (hw1 : 0 < st.invMass i) (hw2 : 0 < st.invMass j) :
    (SelfCollision.resolve_single sq pairs st k s th).positions i -
      (SelfCollision.resolve_single sq pairs st k s th).positions j =
      (1 + s * (th - d) / d) * (st.positions i - st.positions j) := by
  have hd0 : 0 < d := lt_of_lt_of_le (by norm_num) hfl
  have hdne : d ≠ 0 := ne_of_gt hd0
  have hnfl : ¬ (d < 1 / 1000000000) := not_lt.mpr hfl
  have hnov : ¬ (th - d ≤ 0) := not_le.mpr (by linarith)
  have hws : 0 < st.invMass i + st.invMass j := by linarith
  have hwsne : st.invMass i + st.invMass j ≠ 0 := ne_of_gt hws
  unfold SelfCollision.resolve_single
  rw [hpair]
  dsimp only
  rw [hsq, if_neg hnfl, if_neg hnov, if_pos hws, if_pos hw1, if_pos hw2]
  apply V3.ext <;>
  · simp only [PState.addPos_positions, if_pos rfl, if_neg hij, if_neg (Ne.symm hij),
      V3.add_def, V3.sub_def, V3.smul_def, V3.div_def, V3.neg_def]
    field_simp
    ring

theorem V3.normSq_smul (c : ℚ) (v : V3) : (c * v).normSq = c ^ 2 * v.normSq := by
  simp only [V3.smul_def, V3.normSq, V3.dot]
  ring

/-- Distance state used by the C9 counterexample: the two particles sit
1e-10 apart, below the 1e-9 guard of `resolve_single`. -/
def cxPos : Nat → V3 := fun n =>
  if n = 0 then ⟨1 / 10000000000, 0, 0⟩ else ⟨0, 0, 0⟩

/-- State for the C9 counterexample: two free particles. -/
def cxState : PState := ⟨2, cxPos, cxPos, fun _ => 1⟩

/-- Exact square-root oracle for the C9 counterexample. -/
def cxSq : ℚ → ℚ := fun q => if q = 1 / 100000000000000000000 then 1 / 10000000000 else 0


/-- C9 counterexample: at distance `d = 1e-10` (which satisfies
`0 < d < thickness`) the scalar resolver hits its `dist < 1e-9` guard and
leaves both free particles unchanged, so the final distance stays `d` instead
of the claimed `d + s·(thickness − d)`. -/
theorem claim_C9_counterexample :
    ((SelfCollision.resolve_single cxSq [⟨0, 1⟩] cxState 0 (1 / 2)
        (5 / 1000)).positions 0 -
      (SelfCollision.resolve_single cxSq [⟨0, 1⟩] cxState 0 (1 / 2)
        (5 / 1000)).positions 1).normSq ≠
      (1 / 10000000000 + (1 / 2) * (5 / 1000 - 1 / 10000000000)) ^ 2 ∧
    (SelfCollision.resolve_single cxSq [⟨0, 1⟩] cxState 0 (1 / 2)
        (5 / 1000)).positions 0 = cxState.positions 0 ∧
    (SelfCollision.resolve_single cxSq [⟨0, 1⟩] cxState 0 (1 / 2)
        (5 / 1000)).positions 1 = cxState.positions 1 := by
  refine ⟨?_, ?_, ?_⟩ <;>
    norm_num [SelfCollision.resolve_single, cxSq, cxState, cxPos,
      V3.sub_def, V3.normSq, V3.dot]

/-- C9 (amended): for two free particles at exact distance `d` with
`1e-9 ≤ d < thickness`, one `resolve_single` with stiffness `s` leaves the
pair at squared distance `(d + s·(thickness − d))²`, so a larger stiffness
separates strictly further than a smaller one from the same configuration. -/
theorem claim_C9_stiffness_amended (sq : ℚ → ℚ) (pairs : List CollisionPair)
    (st : PState) (k : Nat) (i j : Nat) (d th s1 s2 : ℚ)
    (hpair : pairs.getD k ⟨0, 0⟩ = ⟨i, j⟩) (hij : i ≠ j)
    (hd : d * d = (st.positions i - st.positions j).normSq)
    (hsq : sq ((st.positions i - st.positions j).normSq) = d)
    (hfl : 1 / 1000000000 ≤ d) (hth : d < th)
    (hw1 : 0 < st.invMass i) (hw2 : 0 < st.invMass j)
    (hs2 : 0 ≤ s2) (hss : s2 < s1) :
    ((SelfCollision.resolve_single sq pairs st k s1 th).positions i -
        (SelfCollision.resolve_single sq pairs st k s1 th).positions j).normSq =
      (d + s1 * (th - d)) ^ 2 ∧
    ((SelfCollision.resolve_single sq pairs st k s2 th).positions i -
        (SelfCollision.resolve_single sq pairs st k s2 th).positions j).normSq =
      (d + s2 * (th - d)) ^ 2 ∧
    ((SelfCollision.resolve_single sq pairs st k s2 th).positions i -
        (SelfCollision.resolve_single sq pairs st k s2 th).positions j).normSq <
      ((SelfCollision.resolve_single sq pairs st k s1 th).positions i -
        (SelfCollision.resolve_single sq pairs st k s1 th).positions j).normSq := by
  have hd0 : 0 < d := lt_of_lt_of_le (by norm_num) hfl
  have hdne : d ≠ 0 := ne_of_gt hd0
  have key : ∀ s : ℚ,
      ((SelfCollision.resolve_single sq pairs st k s th).positions i -
        (SelfCollision.resolve_single sq pairs st k s th).positions j).normSq =
      (d + s * (th - d)) ^ 2 := by
    intro s
    rw [resolve_single_delta sq pairs st k i j d s th hpair hij hsq hfl hth hw1 hw2,
      V3.normSq_smul, ← hd]
    have h1 : (1 + s * (th - d) / d) * d = d + s * (th - d) := by
      field_simp
    calc (1 + s * (th - d) / d) ^ 2 * (d * d)
        = ((1 + s * (th - d) / d) * d) ^ 2 := by ring
      _ = (d + s * (th - d)) ^ 2 := by rw [h1]
  have hov : 0 < th - d := by linarith
  refine ⟨key s1, key s2, ?_⟩
  rw [key s1, key s2]
  have hb1 : 0 ≤ d + s2 * (th - d) := by nlinarith
  have hb2 : d + s2 * (th - d) < d + s1 * (th - d) := by nlinarith
  exact pow_lt_pow_left hb2 hb1 (by norm_num)

/-- Positions for the C9 witness: particles 3 mm apart. -/
def wPos9 : Nat → V3 := fun n => if n = 0 then ⟨3 / 1000, 0, 0⟩ else ⟨0, 0, 0⟩

/-- Witness state for C9: two free particles. -/
def wState9 : PState := ⟨2, wPos9, wPos9, fun _ => 1⟩

/-- Exact square-root oracle for the C9 witness. -/
def wSq9 : ℚ → ℚ := fun q => if q = 9 / 1000000 then 3 / 1000 else 0

/-- Witness for C9 at `d = 3 mm`, `thickness = 5 mm`, stiffnesses 1/2 and
1/4. -/
theorem claim_C9_witness :
    ((SelfCollision.resolve_single wSq9 [⟨0, 1⟩] wState9 0 (1 / 2)
        (5 / 1000)).positions 0 -
      (SelfCollision.resolve_single wSq9 [⟨0, 1⟩] wState9 0 (1 / 2)
        (5 / 1000)).positions 1).normSq =
      (3 / 1000 + (1 / 2) * (5 / 1000 - 3 / 1000)) ^ 2 ∧
    ((SelfCollision.resolve_single wSq9 [⟨0, 1⟩] wState9 0 (1 / 4)
        (5 / 1000)).positions 0 -
      (SelfCollision.resolve_single wSq9 [⟨0, 1⟩] wState9 0 (1 / 4)
        (5 / 1000)).positions 1).normSq =
      (3 / 1000 + (1 / 4) * (5 / 1000 - 3 / 1000)) ^ 2 ∧
    ((SelfCollision.resolve_single wSq9 [⟨0, 1⟩] wState9 0 (1 / 4)
        (5 / 1000)).positions 0 -
      (SelfCollision.resolve_single wSq9 [⟨0, 1⟩] wState9 0 (1 / 4)
        (5 / 1000)).positions 1).normSq <
      ((SelfCollision.resolve_single wSq9 [⟨0, 1⟩] wState9 0 (1 / 2)
        (5 / 1000)).positions 0 -
      (SelfCollision.resolve_single wSq9 [⟨0, 1⟩] wState9 0 (1 / 2)
        (5 / 1000)).positions 1).normSq :=
  claim_C9_stiffness_amended wSq9 [⟨0, 1⟩] wState9 0 0 1 (3 / 1000) (5 / 1000)
    (1 / 2) (1 / 4) rfl (by decide)
    (by norm_num [wState9, wPos9, V3.sub_def, V3.normSq, V3.dot])
    (by norm_num [wSq9, wState9, wPos9, V3.sub_def, V3.normSq, V3.dot])
    (by norm_num) (by norm_num)
    (by norm_num [wState9]) (by norm_num [wState9]) (by norm_num) (by norm_num)

/-! ## Tether constraint
Embedding of `physics/src/systems/constraints/tether/mod.rs`
(`TetherConstraint::solve_single` and `solve_simd_4`).  The 4-wide SIMD types
`F32x4`/`Vec3x4` are modelled lane-wise as functions `Fin 4 → ℚ` / `Fin 4 → V3`;
`gt_mask`/`to_bits` lane tests become the per-lane conditions `0 < w`. -/

/-- Embeds the `TetherConstraint` struct (colored 2-particle records). -/
structure TetherConstraint where
  constraints : List (Nat × Nat)
  rest_lengths : List ℚ
  batch_offsets : List Nat

/-- Embeds `TetherConstraint::solve_single(state, k, omega)`. -/
def TetherConstraint.solve_single (sq : ℚ → ℚ) (tc : TetherConstraint)
    (st : PState) (k : Nat) (omega : ℚ) : PState :=
  let c := tc.constraints.getD k (0, 0)
  let i1 := c.1
  let i2 := c.2
  let w1 := st.invMass i1
  let w2 := st.invMass i2
  let wSum := w1 + w2
  if wSum = 0 then st
  else
    let delta := st.positions i1 - st.positions i2
    let len := sq delta.normSq
    if len < 1 / 1000000 then st
    else
      let rest := tc.rest_lengths.getD k 0
      if len ≤ rest then st
      else
        let cviol := len - rest
        let deltaLambda := -cviol / wSum
        let correctionVector := (deltaLambda * omega) * (delta / len)
        let st1 := if 0 < w1 then st.addPos i1 (w1 * correctionVector) else st
        if 0 < w2 then st1.addPos i2 (-(w2 * correctionVector)) else st1

/-- Embeds `TetherConstraint::solve_simd_4(state, base, omega)`: four lanes
computed in lock-step from the pre-store state (lane `l` of each
`F32x4`/`Vec3x4` is the function value at `l`), then eight guarded
read-modify-write stores in source order. -/
def TetherConstraint.solve_simd_4 (sq : ℚ → ℚ) (tc : TetherConstraint)
    (st : PState) (base : Nat) (omega : ℚ) : PState :=
  let idx : Nat → Nat × Nat := fun l => tc.constraints.getD (base + l) (0, 0)
  let w1 : Nat → ℚ := fun l => st.invMass (idx l).1
  let w2 : Nat → ℚ := fun l => st.invMass (idx l).2
  let wSum : Nat → ℚ := fun l => w1 l + w2 l
  let delta : Nat → V3 := fun l => st.positions (idx l).1 - st.positions (idx l).2
  let len : Nat → ℚ := fun l => sq (delta l).normSq
  let rest : Nat → ℚ := fun l => tc.rest_lengths.getD (base + l) 0
  let cviol : Nat → ℚ := fun l => max (len l - rest l) 0
  let safeWSum : Nat → ℚ := fun l => max (wSum l) (1 / 100000000)
  let deltaLambda : Nat → ℚ := fun l => -(cviol l) / safeWSum l
  let safeLen : Nat → ℚ := fun l => max (len l) (1 / 100000000)
  let direction : Nat → V3 := fun l => delta l / safeLen l
  let correctionMag : Nat → ℚ := fun l => deltaLambda l * omega
  let correction : Nat → V3 := fun l => correctionMag l * direction l
  let corr1 : Nat → V3 := fun l => w1 l * correction l
  let corr2 : Nat → V3 := fun l => w2 l * correction l
  let s0 := if 0 < w1 0 then st.addPos (idx 0).1 (corr1 0) else st
  let s1 := if 0 < w2 0 then s0.addPos (idx 0).2 (-(corr2 0)) else s0
  let s2 := if 0 < w1 1 then s1.addPos (idx 1).1 (corr1 1) else s1
  let s3 := if 0 < w2 1 then s2.addPos (idx 1).2 (-(corr2 1)) else s2
  let s4 := if 0 < w1 2 then s3.addPos (idx 2).1 (corr1 2) else s3
  let s5 := if 0 < w2 2 then s4.addPos (idx 2).2 (-(corr2 2)) else s4
  let s6 := if 0 < w1 3 then s5.addPos (idx 3).1 (corr1 3) else s5
  if 0 < w2 3 then s6.addPos (idx 3).2 (-(corr2 3)) else s6

theorem ite_addPos_positions (c : Prop) [Decidable c] (st : PState) (a : Nat)
    (v : V3) (x : Nat) :
    (if c then st.addPos a v else st).positions x =
      if c ∧ x = a then st.positions a + v else st.positions x := by
  by_cases hc : c
  · rw [if_pos hc, PState.addPos_positions]
    by_cases hx : x = a
    · rw [if_pos hx, if_pos ⟨hc, hx⟩]
    · rw [if_neg hx, if_neg (fun h => hx h.2)]
  · rw [if_neg hc, if_neg (fun h => hc h.1)]

theorem ite_addPos_positions_ne (c : Prop) [Decidable c] (st : PState) (a : Nat)
    (v : V3) (x : Nat) (hx : x ≠ a) :
    (if c then st.addPos a v else st).positions x = st.positions x := by
  rw [ite_addPos_positions, if_neg (fun h => hx h.2)]

theorem V3.add_zero_smul (p u : V3) : p + (0 : ℚ) * u = p := by
  apply V3.ext <;> simp [V3.add_def, V3.smul_def]

theorem V3.add_neg_zero_smul (p u : V3) : p + -((0 : ℚ) * u) = p := by
  apply V3.ext <;> simp [V3.add_def, V3.smul_def, V3.neg_def]

theorem addPos_zero_smul (st : PState) (a : Nat) (u : V3) :
    st.addPos a ((0 : ℚ) * u) = st := by
  cases st with
  | mk c p pp im =>
    unfold PState.addPos PState.setPos
    simp only [PState.mk.injEq, and_true, true_and]
    funext k
    by_cases hk : k = a
    · subst hk
      rw [if_pos rfl]
      exact V3.add_zero_smul _ _
    · rw [if_neg hk]

theorem addPos_neg_zero_smul (st : PState) (a : Nat) (u : V3) :
    st.addPos a (-((0 : ℚ) * u)) = st := by
  cases st with
  | mk c p pp im =>
    unfold PState.addPos PState.setPos
    simp only [PState.mk.injEq, and_true, true_and]
    funext k
    by_cases hk : k = a
    · subst hk
      rw [if_pos rfl]
      exact V3.add_neg_zero_smul _ _
    · rw [if_neg hk]

theorem ite_pos_addPos_mul (st : PState) (a : Nat) (w : ℚ) (u : V3) (hw : 0 ≤ w) :
    (if 0 < w then st.addPos a (w * u) else st) = st.addPos a (w * u) := by
  by_cases h : 0 < w
  · rw [if_pos h]
  · have hw0 : w = 0 := le_antisymm (not_lt.mp h) hw
    rw [if_neg h, hw0, addPos_zero_smul]

theorem ite_pos_addPos_mul_neg (st : PState) (a : Nat) (w : ℚ) (u : V3)
    (hw : 0 ≤ w) :
    (if 0 < w then st.addPos a (-(w * u)) else st) = st.addPos a (-(w * u)) := by
  by_cases h : 0 < w
  · rw [if_pos h]
  · have hw0 : w = 0 := le_antisymm (not_lt.mp h) hw
    rw [if_neg h, hw0, addPos_neg_zero_smul]

/-- Scalar tether solve is the identity when the pair is not stretched past
its rest length (any of the three early-return guards fires). -/
theorem tether_single_slack (sq : ℚ → ℚ) (tc : TetherConstraint) (st : PState)
    (k : Nat) (omega d : ℚ)
    (hsq : sq ((st.positions (tc.constraints.getD k (0, 0)).1 -
      st.positions (tc.constraints.getD k (0, 0)).2).normSq) = d)
    (hd : d ≤ tc.rest_lengths.getD k 0) :
    tc.solve_single sq st k omega = st := by
  unfold TetherConstraint.solve_single
  dsimp only
  by_cases hw : st.invMass (tc.constraints.getD k (0, 0)).1 +
      st.invMass (tc.constraints.getD k (0, 0)).2 = 0
  · rw [if_pos hw]
  · rw [if_neg hw, hsq]
    by_cases hl : d < 1 / 1000000
    · rw [if_pos hl]
    · rw [if_neg hl, if_pos hd]

/-- Scalar tether solve on a stretched pair: the separation vector is scaled
by `1 − ω·(d − rest)/d` (a mass-weighted partial correction along the pair
direction). -/
theorem tether_single_stretched (sq : ℚ → ℚ) (tc : TetherConstraint)
    (st : PState) (k : Nat) (omega d rest : ℚ) (i1 i2 : Nat)
    (hc : tc.constraints.getD k (0, 0) = (i1, i2))
    (hr : tc.rest_lengths.getD k 0 = rest) (hij : i1 ≠ i2)
    (hm1 : 0 ≤ st.invMass i1) (hm2 : 0 ≤ st.invMass i2)
    (hwsum : st.invMass i1 + st.invMass i2 ≠ 0)
    (hsq : sq ((st.positions i1 - st.positions i2).normSq) = d)
    (hlen : 1 / 1000000 ≤ d) (hrd : rest < d) :
    (tc.solve_single sq st k omega).positions i1 -
      (tc.solve_single sq st k omega).positions i2 =
      (1 - omega * (d - rest) / d) * (st.positions i1 - st.positions i2) := by
  have hd0 : 0 < d := lt_of_lt_of_le (by norm_num) hlen
  have hdne : d ≠ 0 := ne_of_gt hd0
  unfold TetherConstraint.solve_single
  rw [hc]
  dsimp only
  rw [hsq, hr, if_neg hwsum, if_neg (not_lt.mpr hlen), if_neg (not_le.mpr hrd)]
  rw [ite_pos_addPos_mul st i1 _ _ hm1]
  rw [ite_pos_addPos_mul_neg _ i2 _ _ hm2]
  apply V3.ext <;>
  · simp only [PState.addPos_positions, if_pos rfl, if_neg hij, if_neg (Ne.symm hij),
      V3.add_def, V3.sub_def, V3.smul_def, V3.div_def, V3.neg_def]
    field_simp
    ring

/-- The correction vector `correction = direction * (delta_lambda * omega)`
that lane arithmetic of `solve_simd_4` computes for a lane whose record is
`(i1, i2)` with rest length `rest`. -/
def tetherLaneCorr (sq : ℚ → ℚ) (st : PState) (i1 i2 : Nat)
    (rest omega : ℚ) : V3 :=
  let delta := st.positions i1 - st.positions i2
  let len := sq delta.normSq
  (-(max (len - rest) 0) / max (st.invMass i1 + st.invMass i2) (1 / 100000000) *
      omega) *
    (delta / max len (1 / 100000000))

/-- Per-lane effect of `solve_simd_4`: lane `l`'s record `(i1, i2)` receives
exactly the mass-weighted correction of its lane arithmetic, and no other
lane of the 4-group touches `i1` or `i2`. -/
theorem tether_simd_4_lane (sq : ℚ → ℚ) (tc : TetherConstraint) (st : PState)
    (base : Nat) (omega : ℚ) (l : Nat) (hl : l < 4) (i1 i2 : Nat)
    (hc : tc.constraints.getD (base + l) (0, 0) = (i1, i2)) (hij : i1 ≠ i2)
    (hsep : ∀ m, m < 4 → m ≠ l →
      (tc.constraints.getD (base + m) (0, 0)).1 ≠ i1 ∧
      (tc.constraints.getD (base + m) (0, 0)).1 ≠ i2 ∧
      (tc.constraints.getD (base + m) (0, 0)).2 ≠ i1 ∧
      (tc.constraints.getD (base + m) (0, 0)).2 ≠ i2)
    (hm1 : 0 ≤ st.invMass i1) (hm2 : 0 ≤ st.invMass i2) :
    (tc.solve_simd_4 sq st base omega).positions i1 =
      st.positions i1 + st.invMass i1 *
        tetherLaneCorr sq st i1 i2 (tc.rest_lengths.getD (base + l) 0) omega ∧
    (tc.solve_simd_4 sq st base omega).positions i2 =
      st.positions i2 + -(st.invMass i2 *
        tetherLaneCorr sq st i1 i2 (tc.rest_lengths.getD (base + l) 0) omega) := by
  unfold TetherConstraint.solve_simd_4 tetherLaneCorr
  dsimp only
  interval_cases l
  · obtain ⟨hA1, hA2, hA3, hA4⟩ := hsep 1 (by norm_num) (by norm_num)
    obtain ⟨hB1, hB2, hB3, hB4⟩ := hsep 2 (by norm_num) (by norm_num)
    obtain ⟨hC1, hC2, hC3, hC4⟩ := hsep 3 (by norm_num) (by norm_num)
    rw [hc]
    constructor
    · rw [ite_addPos_positions_ne _ _ _ _ _ (Ne.symm hC3),
        ite_addPos_positions_ne _ _ _ _ _ (Ne.symm hC1),
        ite_addPos_positions_ne _ _ _ _ _ (Ne.symm hB3),
        ite_addPos_positions_ne _ _ _ _ _ (Ne.symm hB1),
        ite_addPos_positions_ne _ _ _ _ _ (Ne.symm hA3),
        ite_addPos_positions_ne _ _ _ _ _ (Ne.symm hA1),
        ite_addPos_positions_ne _ _ _ _ _ hij,
        ite_pos_addPos_mul st i1 _ _ hm1, PState.addPos_positions, if_pos rfl]
    · rw [ite_addPos_positions_ne _ _ _ _ _ (Ne.symm hC4),
        ite_addPos_positions_ne _ _ _ _ _ (Ne.symm hC2),
        ite_addPos_positions_ne _ _ _ _ _ (Ne.symm hB4),
        ite_addPos_positions_ne _ _ _ _ _ (Ne.symm hB2),
        ite_addPos_positions_ne _ _ _ _ _ (Ne.symm hA4),
        ite_addPos_positions_ne _ _ _ _ _ (Ne.symm hA2),
        ite_pos_addPos_mul_neg _ i2 _ _ hm2, PState.addPos_positions, if_pos rfl,
        ite_addPos_positions_ne _ _ _ _ _ (Ne.symm hij)]
  · obtain ⟨hA1, hA2, hA3, hA4⟩ := hsep 0 (by norm_num) (by norm_num)
    obtain ⟨hB1, hB2, hB3, hB4⟩ := hsep 2 (by norm_num) (by norm_num)
    obtain ⟨hC1, hC2, hC3, hC4⟩ := hsep 3 (by norm_num) (by norm_num)
    rw [hc]
    constructor
    · rw [ite_addPos_positions_ne _ _ _ _ _ (Ne.symm hC3),
        ite_addPos_positions_ne _ _ _ _ _ (Ne.symm hC1),
        ite_addPos_positions_ne _ _ _ _ _ (Ne.symm hB3),
        ite_addPos_positions_ne _ _ _ _ _ (Ne.symm hB1),
        ite_addPos_positions_ne _ _ _ _ _ hij,
        ite_pos_addPos_mul _ i1 _ _ hm1, PState.addPos_positions, if_pos rfl,
        ite_addPos_positions_ne _ _ _ _ _ (Ne.symm hA3),
        ite_addPos_positions_ne _ _ _ _ _ (Ne.symm hA1)]
    · rw [ite_addPos_positions_ne _ _ _ _ _ (Ne.symm hC4),
        ite_addPos_positions_ne _ _ _ _ _ (Ne.symm hC2),
        ite_addPos_positions_ne _ _ _ _ _ (Ne.symm hB4),
        ite_addPos_positions_ne _ _ _ _ _ (Ne.symm hB2),
        ite_pos_addPos_mul_neg _ i2 _ _ hm2, PState.addPos_positions, if_pos rfl,
        ite_addPos_positions_ne _ _ _ _ _ (Ne.symm hij),
        ite_addPos_positions_ne _ _ _ _ _ (Ne.symm hA4),
        ite_addPos_positions_ne _ _ _ _ _ (Ne.symm hA2)]
  · obtain ⟨hA1, hA2, hA3, hA4⟩ := hsep 0 (by norm_num) (by norm_num)
    obtain ⟨hB1, hB2, hB3, hB4⟩ := hsep 1 (by norm_num) (by norm_num)
    obtain ⟨hC1, hC2, hC3, hC4⟩ := hsep 3 (by norm_num) (by norm_num)
    rw [hc]
    constructor
    · rw [ite_addPos_positions_ne _ _ _ _ _ (Ne.symm hC3),
        ite_addPos_positions_ne _ _ _ _ _ (Ne.symm hC1),
        ite_addPos_positions_ne _ _ _ _ _ hij,
        ite_pos_addPos_mul _ i1 _ _ hm1, PState.addPos_positions, if_pos rfl,
        ite_addPos_positions_ne _ _ _ _ _ (Ne.symm hB3),
        ite_addPos_positions_ne _ _ _ _ _ (Ne.symm hB1),
        ite_addPos_positions_ne _ _ _ _ _ (Ne.symm hA3),
        ite_addPos_positions_ne _ _ _ _ _ (Ne.symm hA1)]
    · rw [ite_addPos_positions_ne _ _ _ _ _ (Ne.symm hC4),
        ite_addPos_positions_ne _ _ _ _ _ (Ne.symm hC2),
        ite_pos_addPos_mul_neg _ i2 _ _ hm2, PState.addPos_positions, if_pos rfl,
        ite_addPos_positions_ne _ _ _ _ _ (Ne.symm hij),
        ite_addPos_positions_ne _ _ _ _ _ (Ne.symm hB4),
        ite_addPos_positions_ne _ _ _ _ _ (Ne.symm hB2),
        ite_addPos_positions_ne _ _ _ _ _ (Ne.symm hA4),
        ite_addPos_positions_ne _ _ _ _ _ (Ne.symm hA2)]
  · obtain ⟨hA1, hA2, hA3, hA4⟩ := hsep 0 (by norm_num) (by norm_num)
    obtain ⟨hB1, hB2, hB3, hB4⟩ := hsep 1 (by norm_num) (by norm_num)
    obtain ⟨hC1, hC2, hC3, hC4⟩ := hsep 2 (by norm_num) (by norm_num)
    rw [hc]
    constructor
    · rw [ite_addPos_positions_ne _ _ _ _ _ hij,
        ite_pos_addPos_mul _ i1 _ _ hm1, PState.addPos_positions, if_pos rfl,
        ite_addPos_positions_ne _ _ _ _ _ (Ne.symm hC3),
        ite_addPos_positions_ne _ _ _ _ _ (Ne.symm hC1),
        ite_addPos_positions_ne _ _ _ _ _ (Ne.symm hB3),
        ite_addPos_positions_ne _ _ _ _ _ (Ne.symm hB1),
        ite_addPos_positions_ne _ _ _ _ _ (Ne.symm hA3),
        ite_addPos_positions_ne _ _ _ _ _ (Ne.symm hA1)]
    · rw [ite_pos_addPos_mul_neg _ i2 _ _ hm2, PState.addPos_positions, if_pos rfl,
        ite_addPos_positions_ne _ _ _ _ _ (Ne.symm hij),
        ite_addPos_positions_ne _ _ _ _ _ (Ne.symm hC4),
        ite_addPos_positions_ne _ _ _ _ _ (Ne.symm hC2),
        ite_addPos_positions_ne _ _ _ _ _ (Ne.symm hB4),
        ite_addPos_positions_ne _ _ _ _ _ (Ne.symm hB2),
        ite_addPos_positions_ne _ _ _ _ _ (Ne.symm hA4),
        ite_addPos_positions_ne _ _ _ _ _ (Ne.symm hA2)]

theorem V3.add_zero_mk (p : V3) : p + (⟨0, 0, 0⟩ : V3) = p := by
  apply V3.ext <;> simp [V3.add_def]

theorem V3.smul_zero_mk (w : ℚ) : w * (⟨0, 0, 0⟩ : V3) = (⟨0, 0, 0⟩ : V3) := by
  apply V3.ext <;> simp [V3.smul_def]

/-- A lane whose pair is at or below rest length computes a zero correction. -/
theorem tetherLaneCorr_slack (sq : ℚ → ℚ) (st : PState) (i1 i2 : Nat)
    (rest omega d : ℚ)
    (hsq : sq ((st.positions i1 - st.positions i2).normSq) = d)
    (hd : d ≤ rest) :
    tetherLaneCorr sq st i1 i2 rest omega = (⟨0, 0, 0⟩ : V3) := by
  unfold tetherLaneCorr
  dsimp only
  rw [hsq]
  have hmax : max (d - rest) 0 = 0 := max_eq_right (by linarith)
  rw [hmax]
  apply V3.ext <;> simp [V3.smul_def]

/-- `solve_simd_4` leaves a slack lane's particles exactly unchanged. -/
theorem tether_simd_4_slack (sq : ℚ → ℚ) (tc : TetherConstraint) (st : PState)
    (base : Nat) (omega : ℚ) (l : Nat) (hl : l < 4) (i1 i2 : Nat)
    (hc : tc.constraints.getD (base + l) (0, 0) = (i1, i2)) (hij : i1 ≠ i2)
    (hsep : ∀ m, m < 4 → m ≠ l →
      (tc.constraints.getD (base + m) (0, 0)).1 ≠ i1 ∧
      (tc.constraints.getD (base + m) (0, 0)).1 ≠ i2 ∧
      (tc.constraints.getD (base + m) (0, 0)).2 ≠ i1 ∧
      (tc.constraints.getD (base + m) (0, 0)).2 ≠ i2)
    (hm1 : 0 ≤ st.invMass i1) (hm2 : 0 ≤ st.invMass i2) (d : ℚ)
    (hsq : sq ((st.positions i1 - st.positions i2).normSq) = d)
    (hd : d ≤ tc.rest_lengths.getD (base + l) 0) :
    (tc.solve_simd_4 sq st base omega).positions i1 = st.positions i1 ∧
    (tc.solve_simd_4 sq st base omega).positions i2 = st.positions i2 := by
  obtain ⟨h1, h2⟩ := tether_simd_4_lane sq tc st base omega l hl i1 i2 hc hij hsep hm1 hm2
  rw [tetherLaneCorr_slack sq st i1 i2 _ omega d hsq hd] at h1 h2
  constructor
  · rw [h1, V3.smul_zero_mk, V3.add_zero_mk]
  · rw [h2, V3.smul_zero_mk]
    have hneg : -(⟨0, 0, 0⟩ : V3) = (⟨0, 0, 0⟩ : V3) := by
      apply V3.ext <;> simp [V3.neg_def]
    rw [hneg, V3.add_zero_mk]

/-- `solve_simd_4` on a stretched lane scales the separation vector by
`1 − ω·(d − rest)/d`. -/
theorem tether_simd_4_stretched (sq : ℚ → ℚ) (tc : TetherConstraint)
    (st : PState) (base : Nat) (omega : ℚ) (l : Nat) (hl : l < 4) (i1 i2 : Nat)
    (hc : tc.constraints.getD (base + l) (0, 0) = (i1, i2)) (hij : i1 ≠ i2)
    (hsep : ∀ m, m < 4 → m ≠ l →
      (tc.constraints.getD (base + m) (0, 0)).1 ≠ i1 ∧
      (tc.constraints.getD (base + m) (0, 0)).1 ≠ i2 ∧
      (tc.constraints.getD (base + m) (0, 0)).2 ≠ i1 ∧
      (tc.constraints.getD (base + m) (0, 0)).2 ≠ i2)
    (hm1 : 0 ≤ st.invMass i1) (hm2 : 0 ≤ st.invMass i2) (d rest : ℚ)
    (hr : tc.rest_lengths.getD (base + l) 0 = rest)
    (hsq : sq ((st.positions i1 - st.positions i2).normSq) = d)
    (hws : 1 / 100000000 ≤ st.invMass i1 + st.invMass i2)
    (hd8 : 1 / 100000000 ≤ d) (hrd : rest < d) :
    (tc.solve_simd_4 sq st base omega).positions i1 -
      (tc.solve_simd_4 sq st base omega).positions i2 =
      (1 - omega * (d - rest) / d) * (st.positions i1 - st.positions i2) := by
  obtain ⟨h1, h2⟩ := tether_simd_4_lane sq tc st base omega l hl i1 i2 hc hij hsep hm1 hm2
  rw [h1, h2, hr]
  have hd0 : 0 < d := lt_of_lt_of_le (by norm_num) hd8
  have hdne : d ≠ 0 := ne_of_gt hd0
  have hws0 : st.invMass i1 + st.invMass i2 ≠ 0 := by
    have : (0 : ℚ) < st.invMass i1 + st.invMass i2 :=
      lt_of_lt_of_le (by norm_num) hws
    exact ne_of_gt this
  unfold tetherLaneCorr
  dsimp only
  rw [hsq]
  rw [max_eq_left (by linarith : (0 : ℚ) ≤ d - rest)]
  rw [max_eq_left hws, max_eq_left (le_trans (by norm_num) hd8)]
  apply V3.ext <;>
  · simp only [V3.add_def, V3.sub_def, V3.smul_def, V3.div_def, V3.neg_def]
    field_simp
    ring

/-- Scaling a stretched pair's separation by `1 − ω·(d − rest)/d` strictly
decreases its squared length when `0 < ω < 2` and `0 ≤ rest < d`. -/
theorem tether_closer (delta : V3) (d rest omega : ℚ)
    (hdd : d * d = delta.normSq) (hd0 : 0 < d) (hr0 : 0 ≤ rest) (hrd : rest < d)
    (ho1 : 0 < omega) (ho2 : omega < 2) :
    ((1 - omega * (d - rest) / d) * delta).normSq < delta.normSq := by
  rw [V3.normSq_smul, ← hdd]
  have hdne : d ≠ 0 := ne_of_gt hd0
  have h1 : (1 - omega * (d - rest) / d) * d = d - omega * (d - rest) := by
    field_simp
  have h2 : (1 - omega * (d - rest) / d) ^ 2 * (d * d) =
      (d - omega * (d - rest)) ^ 2 := by
    calc (1 - omega * (d - rest) / d) ^ 2 * (d * d)
        = ((1 - omega * (d - rest) / d) * d) ^ 2 := by ring
      _ = (d - omega * (d - rest)) ^ 2 := by rw [h1]
  rw [h2]
  nlinarith [mul_pos ho1 (sub_pos.mpr hrd),
    mul_lt_mul_of_pos_right ho2 (sub_pos.mpr hrd)]

/-- C6 (amended): tether solving is unilateral in both code paths.  Scalar
fallback: a pair at or below rest length is left exactly unchanged, and a
stretched pair with at least one free endpoint and length at least the 1e-6
guard is scaled by `1 − ω·(d − rest)/d` along the pair direction — for the
solver's relaxation factors `0 < ω < 2` that is a strict move closer.  4-wide
batched path: the same two facts hold lane-wise (with the SIMD clamps `1e-8`
in place of the scalar guards) for a lane whose particles are not shared with
the other three lanes of its group. -/
theorem claim_C6_tether_amended :
    (∀ (sq : ℚ → ℚ) (tc : TetherConstraint) (st : PState) (k : Nat)
        (omega d : ℚ),
      sq ((st.positions (tc.constraints.getD k (0, 0)).1 -
        st.positions (tc.constraints.getD k (0, 0)).2).normSq) = d →
      d ≤ tc.rest_lengths.getD k 0 →
      tc.solve_single sq st k omega = st) ∧
    (∀ (sq : ℚ → ℚ) (tc : TetherConstraint) (st : PState) (k : Nat)
        (omega d rest : ℚ) (i1 i2 : Nat),
      tc.constraints.getD k (0, 0) = (i1, i2) →
      tc.rest_lengths.getD k 0 = rest → i1 ≠ i2 →
      0 ≤ st.invMass i1 → 0 ≤ st.invMass i2 →
      st.invMass i1 + st.invMass i2 ≠ 0 →
      sq ((st.positions i1 - st.positions i2).normSq) = d →
      d * d = (st.positions i1 - st.positions i2).normSq →
      1 / 1000000 ≤ d → 0 ≤ rest → rest < d → 0 < omega → omega < 2 →
      ((tc.solve_single sq st k omega).positions i1 -
          (tc.solve_single sq st k omega).positions i2 =
        (1 - omega * (d - rest) / d) * (st.positions i1 - st.positions i2)) ∧
      ((tc.solve_single sq st k omega).positions i1 -
          (tc.solve_single sq st k omega).positions i2).normSq <
        (st.positions i1 - st.positions i2).normSq) ∧
    (∀ (sq : ℚ → ℚ) (tc : TetherConstraint) (st : PState) (base : Nat)
        (omega : ℚ) (l : Nat) (i1 i2 : Nat) (d : ℚ),
      l < 4 →
      tc.constraints.getD (base + l) (0, 0) = (i1, i2) → i1 ≠ i2 →
      (∀ m, m < 4 → m ≠ l →
        (tc.constraints.getD (base + m) (0, 0)).1 ≠ i1 ∧
        (tc.constraints.getD (base + m) (0, 0)).1 ≠ i2 ∧
        (tc.constraints.getD (base + m) (0, 0)).2 ≠ i1 ∧
        (tc.constraints.getD (base + m) (0, 0)).2 ≠ i2) →
      0 ≤ st.invMass i1 → 0 ≤ st.invMass i2 →
      sq ((st.positions i1 - st.positions i2).normSq) = d →
      d ≤ tc.rest_lengths.getD (base + l) 0 →
      (tc.solve_simd_4 sq st base omega).positions i1 = st.positions i1 ∧
      (tc.solve_simd_4 sq st base omega).positions i2 = st.positions i2) ∧
    (∀ (sq : ℚ → ℚ) (tc : TetherConstraint) (st : PState) (base : Nat)
        (omega : ℚ) (l : Nat) (i1 i2 : Nat) (d rest : ℚ),
      l < 4 →
      tc.constraints.getD (base + l) (0, 0) = (i1, i2) → i1 ≠ i2 →
      (∀ m, m < 4 → m ≠ l →
        (tc.constraints.getD (base + m) (0, 0)).1 ≠ i1 ∧
        (tc.constraints.getD (base + m) (0, 0)).1 ≠ i2 ∧
        (tc.constraints.getD (base + m) (0, 0)).2 ≠ i1 ∧
        (tc.constraints.getD (base + m) (0, 0)).2 ≠ i2) →
      0 ≤ st.invMass i1 → 0 ≤ st.invMass i2 →
      tc.rest_lengths.getD (base + l) 0 = rest →
      sq ((st.positions i1 - st.positions i2).normSq) = d →
      d * d = (st.positions i1 - st.positions i2).normSq →
      1 / 100000000 ≤ st.invMass i1 + st.invMass i2 →
      1 / 100000000 ≤ d → 0 ≤ rest → rest < d → 0 < omega → omega < 2 →
      ((tc.solve_simd_4 sq st base omega).positions i1 -
          (tc.solve_simd_4 sq st base omega).positions i2 =
        (1 - omega * (d - rest) / d) * (st.positions i1 - st.positions i2)) ∧
      ((tc.solve_simd_4 sq st base omega).positions i1 -
          (tc.solve_simd_4 sq st base omega).positions i2).normSq <
        (st.positions i1 - st.positions i2).normSq) := by
  refine ⟨?_, ?_, ?_, ?_⟩
  · intro sq tc st k omega d hsq hd
    exact tether_single_slack sq tc st k omega d hsq hd
  · intro sq tc st k omega d rest i1 i2 hc hr hij hm1 hm2 hws hsq hdd hlen hr0 hrd ho1 ho2
    have hdelta := tether_single_stretched sq tc st k omega d rest i1 i2 hc hr hij
      hm1 hm2 hws hsq hlen hrd
    refine ⟨hdelta, ?_⟩
    rw [hdelta]
    exact tether_closer _ d rest omega hdd (lt_of_lt_of_le (by norm_num) hlen)
      hr0 hrd ho1 ho2
  · intro sq tc st base omega l i1 i2 d hl hc hij hsep hm1 hm2 hsq hd
    exact tether_simd_4_slack sq tc st base omega l hl i1 i2 hc hij hsep hm1 hm2 d hsq hd
  · intro sq tc st base omega l i1 i2 d rest hl hc hij hsep hm1 hm2 hr hsq hdd hws hd8 hr0 hrd ho1 ho2
    have hdelta := tether_simd_4_stretched sq tc st base omega l hl i1 i2 hc hij hsep
      hm1 hm2 d rest hr hsq hws hd8 hrd
    refine ⟨hdelta, ?_⟩
    rw [hdelta]
    exact tether_closer _ d rest omega hdd (lt_of_lt_of_le (by norm_num) hd8)
      hr0 hrd ho1 ho2

/-- Positions for the first C6 counterexample scenario: a pair stretched to
length 2 with rest length 1, both endpoints pinned. -/
def cx6aPos : Nat → V3 := fun n => if n = 0 then ⟨2, 0, 0⟩ else ⟨0, 0, 0⟩

/-- State for the first C6 counterexample scenario (both inverse masses 0). -/
def cx6aSt : PState := ⟨2, cx6aPos, cx6aPos, fun _ => 0⟩

/-- Single stretched tether record at rest length 1. -/
def tc6a : TetherConstraint := ⟨[(0, 1)], [1], [0, 1]⟩

/-- Exact square-root oracle for the first C6 counterexample. -/
def sq6a : ℚ → ℚ := fun q => if q = 4 then 2 else 0

/-- Positions for the second C6 counterexample scenario: a pair of free
particles at length 5e-7, stretched past its rest length 1e-7 but below the
solver's 1e-6 length guard. -/
def cx6bPos : Nat → V3 := fun n => if n = 0 then ⟨1 / 2000000, 0, 0⟩ else ⟨0, 0, 0⟩

/-- State for the second C6 counterexample scenario. -/
def cx6bSt : PState := ⟨2, cx6bPos, cx6bPos, fun _ => 1⟩

/-- Single tiny stretched tether record at rest length 1e-7. -/
def tc6b : TetherConstraint := ⟨[(0, 1)], [1 / 10000000], [0, 1]⟩

/-- Exact square-root oracle for the second C6 counterexample. -/
def sq6b : ℚ → ℚ := fun q => if q = 1 / 4000000000000 then 1 / 2000000 else 0

/-- C6 counterexample: two tether records whose current length exceeds the
rest length but which the scalar solver leaves exactly unchanged (so the pair
does not move closer): a fully pinned pair, and a free pair below the 1e-6
length guard. -/
theorem claim_C6_counterexample :
    ((tc6a.solve_single sq6a cx6aSt 0 1).positions 0 = cx6aSt.positions 0 ∧
     (tc6a.solve_single sq6a cx6aSt 0 1).positions 1 = cx6aSt.positions 1 ∧
     ¬ (((tc6a.solve_single sq6a cx6aSt 0 1).positions 0 -
          (tc6a.solve_single sq6a cx6aSt 0 1).positions 1).normSq <
        (cx6aSt.positions 0 - cx6aSt.positions 1).normSq)) ∧
    ((tc6b.solve_single sq6b cx6bSt 0 1).positions 0 = cx6bSt.positions 0 ∧
     (tc6b.solve_single sq6b cx6bSt 0 1).positions 1 = cx6bSt.positions 1 ∧
     ¬ (((tc6b.solve_single sq6b cx6bSt 0 1).positions 0 -
          (tc6b.solve_single sq6b cx6bSt 0 1).positions 1).normSq <
        (cx6bSt.positions 0 - cx6bSt.positions 1).normSq)) := by
  refine ⟨⟨?_, ?_, ?_⟩, ⟨?_, ?_, ?_⟩⟩ <;>
    norm_num [TetherConstraint.solve_single, tc6a, tc6b, sq6a, sq6b,
      cx6aSt, cx6bSt, cx6aPos, cx6bPos, V3.sub_def, V3.normSq, V3.dot]

/-- Witness positions for C6: particle 0 at `(2,0,0)`, everything else at the
origin. -/
def w6Pos : Nat → V3 := fun n => if n = 0 then ⟨2, 0, 0⟩ else ⟨0, 0, 0⟩

/-- Witness state for C6 with eight free particles. -/
def w6St : PState := ⟨8, w6Pos, w6Pos, fun _ => 1⟩

/-- Witness tether group for C6: four disjoint records; lane 0 is stretched
(length 2, rest 1). -/
def tc6w : TetherConstraint := ⟨[(0, 1), (2, 3), (4, 5), (6, 7)], [1, 1, 1, 1], [0, 4]⟩

/-- Witness oracle for C6. -/
def sq6w : ℚ → ℚ := fun q => if q = 4 then 2 else 0

/-- Witness positions for the slack C6 scenarios: length 1/2; rest 1. -/
def w6sPos : Nat → V3 := fun n => if n = 0 then ⟨1 / 2, 0, 0⟩ else ⟨0, 0, 0⟩

/-- Witness state for the slack C6 scenarios. -/
def w6sSt : PState := ⟨8, w6sPos, w6sPos, fun _ => 1⟩

/-- Witness oracle for the slack C6 scenarios. -/
def sq6s : ℚ → ℚ := fun q => if q = 1 / 4 then 1 / 2 else 0

/-- Witness for C6: the four amended facts at concrete configurations
(scalar slack, scalar stretched, SIMD slack lane 0, SIMD stretched lane 0). -/
theorem claim_C6_witness :
    tc6w.solve_single sq6s w6sSt 0 1 = w6sSt ∧
    ((tc6w.solve_single sq6w w6St 0 1).positions 0 -
        (tc6w.solve_single sq6w w6St 0 1).positions 1 =
      (1 - 1 * ((2 : ℚ) - 1) / 2) * (w6St.positions 0 - w6St.positions 1)) ∧
    ((tc6w.solve_simd_4 sq6s w6sSt 0 1).positions 0 = w6sSt.positions 0 ∧
     (tc6w.solve_simd_4 sq6s w6sSt 0 1).positions 1 = w6sSt.positions 1) ∧
    ((tc6w.solve_simd_4 sq6w w6St 0 1).positions 0 -
        (tc6w.solve_simd_4 sq6w w6St 0 1).positions 1 =
      (1 - 1 * ((2 : ℚ) - 1) / 2) * (w6St.positions 0 - w6St.positions 1)) := by
  have hsep : ∀ m, m < 4 → m ≠ 0 →
      (tc6w.constraints.getD (0 + m) (0, 0)).1 ≠ 0 ∧
      (tc6w.constraints.getD (0 + m) (0, 0)).1 ≠ 1 ∧
      (tc6w.constraints.getD (0 + m) (0, 0)).2 ≠ 0 ∧
      (tc6w.constraints.getD (0 + m) (0, 0)).2 ≠ 1 := by
    intro m hm hne
    interval_cases m
    · exact absurd rfl hne
    · exact ⟨by decide, by decide, by decide, by decide⟩
    · exact ⟨by decide, by decide, by decide, by decide⟩
    · exact ⟨by decide, by decide, by decide, by decide⟩
  refine ⟨?_, ?_, ?_, ?_⟩
  · exact claim_C6_tether_amended.1 sq6s tc6w w6sSt 0 1 (1 / 2)
      (by norm_num [tc6w, sq6s, w6sSt, w6sPos, V3.sub_def, V3.normSq, V3.dot])
      (by norm_num [tc6w])
  · exact (claim_C6_tether_amended.2.1 sq6w tc6w w6St 0 1 2 1 0 1
      (by decide) (by norm_num [tc6w]) (by decide)
      (by norm_num [w6St]) (by norm_num [w6St]) (by norm_num [w6St])
      (by norm_num [tc6w, sq6w, w6St, w6Pos, V3.sub_def, V3.normSq, V3.dot])
      (by norm_num [w6St, w6Pos, V3.sub_def, V3.normSq, V3.dot])
      (by norm_num) (by norm_num) (by norm_num) (by norm_num) (by norm_num)).1
  · exact claim_C6_tether_amended.2.2.1 sq6s tc6w w6sSt 0 1 0 0 1 (1 / 2)
      (by norm_num) (by decide) (by decide) hsep
      (by norm_num [w6sSt]) (by norm_num [w6sSt])
      (by norm_num [sq6s, w6sSt, w6sPos, V3.sub_def, V3.normSq, V3.dot])
      (by norm_num [tc6w])
  · exact (claim_C6_tether_amended.2.2.2 sq6w tc6w w6St 0 1 0 0 1 2 1
      (by norm_num) (by decide) (by decide) hsep
      (by norm_num [w6St]) (by norm_num [w6St]) (by norm_num [tc6w])
      (by norm_num [sq6w, w6St, w6Pos, V3.sub_def, V3.normSq, V3.dot])
      (by norm_num [w6St, w6Pos, V3.sub_def, V3.normSq, V3.dot])
      (by norm_num [w6St]) (by norm_num) (by norm_num) (by norm_num)
      (by norm_num) (by norm_num)).1

/-! ## Hierarchical Morton-coded spatial hash
Embedding of `physics/src/collision/spatial/dynamic.rs`
(`morton_encode`, `HierarchicalSpatialHash::{insert_point, query}`).  The two
`FxHashMap` grids of a freshly built hash are modelled by the insertion list:
a key is present exactly when some inserted point maps to it, and its cell
holds the ids of those points in insertion order (`entry(key).or_default()
.push(id)`). -/

/-- Embeds `expand_bits`: spreads the low 10 bits to every third position. -/
def expand_bits (v : Nat) : Nat :=
  let v1 := (v ||| (v <<< 32)) &&& 0x1f00000000ffff
  let v2 := (v1 ||| (v1 <<< 16)) &&& 0x1f0000ff0000ff
  let v3 := (v2 ||| (v2 <<< 8)) &&& 0x100f00f00f00f00f
  let v4 := (v3 ||| (v3 <<< 4)) &&& 0x10c30c30c30c30c3
  (v4 ||| (v4 <<< 2)) &&& 0x1249249249249249

/-- Embeds `morton_encode`: offsets each signed cell coordinate by 512, keeps
its low 10 bits (the `as u64 & 0x3FF` masking), and interleaves. -/
def morton_encode (x y z : Int) : Nat :=
  let xu := ((x + 512) % (2 ^ 64 : Int)).toNat &&& 0x3FF
  let yu := ((y + 512) % (2 ^ 64 : Int)).toNat &&& 0x3FF
  let zu := ((z + 512) % (2 ^ 64 : Int)).toNat &&& 0x3FF
  expand_bits xu ||| (expand_bits yu <<< 1) ||| (expand_bits zu <<< 2)

/-- Embeds `HierarchicalSpatialHash` (fresh state: grids as insertion list). -/
structure HierarchicalSpatialHash where
  fine_cell_size : ℚ
  coarse_cell_size : ℚ
  inserts : List (Nat × V3)

/-- Embeds `HierarchicalSpatialHash::new(collision_radius)`. -/
def HierarchicalSpatialHash.new (collisionRadius : ℚ) : HierarchicalSpatialHash :=
  ⟨collisionRadius * 2, collisionRadius * 2 * 4, []⟩

/-- Embeds `insert_point(id, p)`. -/
def HierarchicalSpatialHash.insert_point (h : HierarchicalSpatialHash)
    (id : Nat) (p : V3) : HierarchicalSpatialHash :=
  { h with inserts := h.inserts ++ [(id, p)] }

/-- Embeds `get_fine_cell`. -/
def HierarchicalSpatialHash.get_fine_cell (h : HierarchicalSpatialHash)
    (p : V3) : Int × Int × Int :=
  (Int.floor (p.x / h.fine_cell_size), Int.floor (p.y / h.fine_cell_size),
    Int.floor (p.z / h.fine_cell_size))

/-- Embeds `get_coarse_cell`. -/
def HierarchicalSpatialHash.get_coarse_cell (h : HierarchicalSpatialHash)
    (p : V3) : Int × Int × Int :=
  (Int.floor (p.x / h.coarse_cell_size), Int.floor (p.y / h.coarse_cell_size),
    Int.floor (p.z / h.coarse_cell_size))

/-- The fine-grid Morton key of a point. -/
def HierarchicalSpatialHash.fineKey (h : HierarchicalSpatialHash) (p : V3) : Nat :=
  morton_encode (h.get_fine_cell p).1 (h.get_fine_cell p).2.1 (h.get_fine_cell p).2.2

/-- The coarse-grid Morton key of a point. -/
def HierarchicalSpatialHash.coarseKey (h : HierarchicalSpatialHash) (p : V3) : Nat :=
  morton_encode (h.get_coarse_cell p).1 (h.get_coarse_cell p).2.1
    (h.get_coarse_cell p).2.2

/-- The fine-grid cell contents under a Morton key (insertion order). -/
def HierarchicalSpatialHash.fineCellList (h : HierarchicalSpatialHash)
    (key : Nat) : List Nat :=
  (h.inserts.filter (fun e => h.fineKey e.2 == key)).map (fun e => e.1)

/-- Whether the coarse grid has an entry under a Morton key
(`coarse_grid.contains_key`). -/
def HierarchicalSpatialHash.coarseOccupied (h : HierarchicalSpatialHash)
    (key : Nat) : Bool :=
  h.inserts.any (fun e => h.coarseKey e.2 == key)

/-- Integer range `a..=b` as a list (empty when `b < a`). -/
def intRange (a b : Int) : List Int :=
  (List.range (b - a + 1).toNat).map (fun k : Nat => a + (k : Int))

/-- The 27 neighbor offsets scanned by the coarse early-exit test. -/
def offsets27 : List (Int × Int × Int) :=
  [-1, 0, 1].bind (fun dz =>
    [-1, 0, 1].bind (fun dy => [-1, 0, 1].map (fun dx => ((dx : Int), dy, dz))))

/-- First-occurrence deduplication: models the `dedup_set.insert` / push
pattern of the query loop. -/
def dedupKeepFirst (l : List Nat) : List Nat :=
  l.foldl (fun acc id => if id ∈ acc then acc else acc ++ [id]) []

/-- The fine cells visited by the scan loops of `query`: every cell
overlapping `[p−r, p+r]`, in `z`/`y`/`x` loop order. -/
def HierarchicalSpatialHash.scanCells (h : HierarchicalSpatialHash) (p : V3)
    (radius : ℚ) : List (Int × Int × Int) :=
  let cmin := h.get_fine_cell (p - ⟨radius, radius, radius⟩)
  let cmax := h.get_fine_cell (p + ⟨radius, radius, radius⟩)
  (intRange cmin.2.2 cmax.2.2).bind (fun z =>
    (intRange cmin.2.1 cmax.2.1).bind (fun y =>
      (intRange cmin.1 cmax.1).map (fun x => (x, y, z))))

/-- The fine-grid scan of `query`: collects the visited cells' contents with
first-occurrence deduplication. -/
def HierarchicalSpatialHash.fineScan (h : HierarchicalSpatialHash) (p : V3)
    (radius : ℚ) : List Nat :=
  dedupKeepFirst ((h.scanCells p radius).bind (fun c =>
    h.fineCellList (morton_encode c.1 c.2.1 c.2.2)))

/-- Embeds `HierarchicalSpatialHash::query(p, radius)`: coarse early-exit
(the `!contains_key` test followed by the 27-neighbor occupancy scan, which
returns with an empty buffer when nothing is occupied), then the fine-grid
scan with deduplication. -/
def HierarchicalSpatialHash.query (h : HierarchicalSpatialHash) (p : V3)
    (radius : ℚ) : List Nat :=
  let cc := h.get_coarse_cell p
  if ¬ h.coarseOccupied (morton_encode cc.1 cc.2.1 cc.2.2) ∧
      ¬ offsets27.any (fun d =>
        h.coarseOccupied (morton_encode (cc.1 + d.1) (cc.2.1 + d.2.1)
          (cc.2.2 + d.2.2)))
  then []
  else h.fineScan p radius

theorem mem_foldl_dedup (l acc : List Nat) (a : Nat) :
    a ∈ l.foldl (fun acc id => if id ∈ acc then acc else acc ++ [id]) acc ↔
      a ∈ acc ∨ a ∈ l := by
  induction l generalizing acc with
  | nil => simp
  | cons x xs ih =>
    simp only [List.foldl_cons]
    by_cases hx : x ∈ acc
    · rw [if_pos hx, ih, List.mem_cons]
      constructor
      · rintro (h | h)
        exacts [Or.inl h, Or.inr (Or.inr h)]
      · rintro (h | rfl | h)
        exacts [Or.inl h, Or.inl hx, Or.inr h]
    · rw [if_neg hx, ih, List.mem_cons]
      simp only [List.mem_append, List.mem_singleton]
      tauto

theorem mem_dedupKeepFirst (l : List Nat) (a : Nat) :
    a ∈ dedupKeepFirst l ↔ a ∈ l := by
  rw [dedupKeepFirst, mem_foldl_dedup]
  simp

theorem mem_intRange (a b x : Int) : x ∈ intRange a b ↔ a ≤ x ∧ x ≤ b := by
  unfold intRange
  rw [List.mem_map]
  constructor
  · rintro ⟨k, hk, rfl⟩
    rw [List.mem_range] at hk
    omega
  · rintro ⟨h1, h2⟩
    refine ⟨(x - a).toNat, ?_, ?_⟩
    · rw [List.mem_range]
      omega
    · omega

theorem floor_div_mono (a b s : ℚ) (hs : 0 < s) (hab : a ≤ b) :
    Int.floor (a / s) ≤ Int.floor (b / s) :=
  Int.floor_mono ((div_le_div_right hs).mpr hab)

theorem floor_div_adjacent (a b s : ℚ) (hs : 0 < s) (hab : |a - b| ≤ s) :
    Int.floor (b / s) - 1 ≤ Int.floor (a / s) ∧
      Int.floor (a / s) ≤ Int.floor (b / s) + 1 := by
  rw [abs_le] at hab
  constructor
  · have h1 : (b - s) / s ≤ a / s := (div_le_div_right hs).mpr (by linarith)
    have h2 : (b - s) / s = b / s - 1 := by field_simp
    have h3 := Int.floor_mono h1
    rw [h2] at h3
    have h4 : Int.floor (b / s - 1) = Int.floor (b / s) - 1 := by
      have := Int.floor_sub_int (b / s) 1
      simpa using this
    omega
  · have h1 : a / s ≤ (b + s) / s := (div_le_div_right hs).mpr (by linarith)
    have h2 : (b + s) / s = b / s + 1 := by field_simp
    have h3 := Int.floor_mono h1
    rw [h2] at h3
    have h4 : Int.floor (b / s + 1) = Int.floor (b / s) + 1 := by
      have := Int.floor_add_int (b / s) 1
      simpa using this
    omega

theorem axis_le_of_normSq_le (v : V3) (r : ℚ) (hr : 0 ≤ r)
    (h : V3.normSq v ≤ r * r) : |v.x| ≤ r ∧ |v.y| ≤ r ∧ |v.z| ≤ r := by
  unfold V3.normSq V3.dot at h
  refine ⟨abs_le.mpr ⟨?_, ?_⟩, abs_le.mpr ⟨?_, ?_⟩, abs_le.mpr ⟨?_, ?_⟩⟩ <;>
    nlinarith [mul_self_nonneg v.x, mul_self_nonneg v.y, mul_self_nonneg v.z,
      mul_self_nonneg (v.x + r), mul_self_nonneg (v.x - r),
      mul_self_nonneg (v.y + r), mul_self_nonneg (v.y - r),
      mul_self_nonneg (v.z + r), mul_self_nonneg (v.z - r)]

theorem mem_fineCellList_iff (h : HierarchicalSpatialHash) (key : Nat) (id : Nat) :
    id ∈ h.fineCellList key ↔ ∃ q, (id, q) ∈ h.inserts ∧ h.fineKey q = key := by
  unfold HierarchicalSpatialHash.fineCellList
  rw [List.mem_map]
  constructor
  · rintro ⟨⟨i, q⟩, hm, rfl⟩
    rw [List.mem_filter] at hm
    exact ⟨q, hm.1, by simpa using hm.2⟩
  · rintro ⟨q, hm, hk⟩
    exact ⟨(id, q), List.mem_filter.mpr ⟨hm, by simpa using hk⟩, rfl⟩

theorem coarseOccupied_of_mem (h : HierarchicalSpatialHash) (id : Nat) (q : V3)
    (hm : (id, q) ∈ h.inserts) : h.coarseOccupied (h.coarseKey q) = true := by
  unfold HierarchicalSpatialHash.coarseOccupied
  rw [List.any_eq_true]
  exact ⟨(id, q), hm, by simp⟩

theorem mem_offsets27 (a b c : Int) (ha : -1 ≤ a ∧ a ≤ 1) (hb : -1 ≤ b ∧ b ≤ 1)
    (hc : -1 ≤ c ∧ c ≤ 1) : (a, b, c) ∈ offsets27 := by
  unfold offsets27
  rw [List.mem_bind]
  refine ⟨c, by simp; omega, ?_⟩
  rw [List.mem_bind]
  refine ⟨b, by simp; omega, ?_⟩
  rw [List.mem_map]
  exact ⟨a, by simp; omega, rfl⟩

theorem mem_scanCells_iff (h : HierarchicalSpatialHash) (p : V3) (r : ℚ)
    (cell : Int × Int × Int) :
    cell ∈ h.scanCells p r ↔
      ((h.get_fine_cell (p - ⟨r, r, r⟩)).1 ≤ cell.1 ∧
        cell.1 ≤ (h.get_fine_cell (p + ⟨r, r, r⟩)).1) ∧
      ((h.get_fine_cell (p - ⟨r, r, r⟩)).2.1 ≤ cell.2.1 ∧
        cell.2.1 ≤ (h.get_fine_cell (p + ⟨r, r, r⟩)).2.1) ∧
      ((h.get_fine_cell (p - ⟨r, r, r⟩)).2.2 ≤ cell.2.2 ∧
        cell.2.2 ≤ (h.get_fine_cell (p + ⟨r, r, r⟩)).2.2) := by
  obtain ⟨a, b, c⟩ := cell
  unfold HierarchicalSpatialHash.scanCells
  dsimp only
  constructor
  · intro hm
    rw [List.mem_bind] at hm
    obtain ⟨z, hz, hm⟩ := hm
    rw [List.mem_bind] at hm
    obtain ⟨y, hy, hm⟩ := hm
    rw [List.mem_map] at hm
    obtain ⟨x, hx, heq⟩ := hm
    cases heq
    rw [mem_intRange] at hz hy hx
    exact ⟨hx, hy, hz⟩
  · rintro ⟨hxa, hyb, hzc⟩
    rw [List.mem_bind]
    refine ⟨c, (mem_intRange _ _ _).mpr hzc, ?_⟩
    rw [List.mem_bind]
    refine ⟨b, (mem_intRange _ _ _).mpr hyb, ?_⟩
    rw [List.mem_map]
    exact ⟨a, (mem_intRange _ _ _).mpr hxa, rfl⟩

theorem query_eq_fineScan (h : HierarchicalSpatialHash) (p : V3) (r : ℚ)
    (hocc : offsets27.any (fun d =>
      h.coarseOccupied (morton_encode ((h.get_coarse_cell p).1 + d.1)
        ((h.get_coarse_cell p).2.1 + d.2.1)
        ((h.get_coarse_cell p).2.2 + d.2.2))) = true) :
    h.query p r = h.fineScan p r := by
  unfold HierarchicalSpatialHash.query
  dsimp only
  rw [if_neg]
  rintro ⟨_, h2⟩
  exact h2 hocc

theorem query_subset_fineScan (h : HierarchicalSpatialHash) (p : V3) (r : ℚ)
    (id : Nat) (hid : id ∈ h.query p r) : id ∈ h.fineScan p r := by
  unfold HierarchicalSpatialHash.query at hid
  dsimp only at hid
  split_ifs at hid
  · exact absurd hid (List.not_mem_nil id)
  · exact hid

theorem mem_fineScan_iff (h : HierarchicalSpatialHash) (p : V3) (r : ℚ)
    (id : Nat) :
    id ∈ h.fineScan p r ↔ ∃ c ∈ h.scanCells p r,
      id ∈ h.fineCellList (morton_encode c.1 c.2.1 c.2.2) := by
  unfold HierarchicalSpatialHash.fineScan
  rw [mem_dedupKeepFirst, List.mem_bind]

/-- A hash built from radius 1 holding one point at x = 100. -/
def cx8h : HierarchicalSpatialHash :=
  (HierarchicalSpatialHash.new 1).insert_point 0 ⟨100, 0, 0⟩

/-- C8 counterexample: the inserted point lies within distance 200 of the
query origin, yet `query` at radius 200 returns nothing — the coarse-grid
early exit only looks one coarse cell (8 units) away, so a radius larger
than the coarse cell size misses occupied cells further out. -/
theorem claim_C8_counterexample :
    (0, ⟨100, 0, 0⟩) ∈ cx8h.inserts ∧
    V3.normSq ((⟨100, 0, 0⟩ : V3) - ⟨0, 0, 0⟩) ≤ 200 * 200 ∧
    cx8h.query ⟨0, 0, 0⟩ 200 = [] := by
  refine ⟨?_, ?_, ?_⟩
  · with_unfolding_all decide
  · with_unfolding_all decide
  · with_unfolding_all decide

/-- C8 (amended): provided the query radius is nonnegative and at most the
coarse cell size (and both cell sizes are positive), `query` returns the id
of every inserted point within Euclidean distance `r` of the origin `p`;
and any id whose every insertion sits in a fine cell whose Morton key
differs from the key of every scanned cell (no box overlap and no aliasing)
is not returned. -/
theorem claim_C8_query_amended (h : HierarchicalSpatialHash) (p : V3) (r : ℚ)
    (hf : 0 < h.fine_cell_size) (hc : 0 < h.coarse_cell_size)
    (hr : 0 ≤ r) (hrc : r ≤ h.coarse_cell_size) :
    (∀ id q, (id, q) ∈ h.inserts → V3.normSq (q - p) ≤ r * r →
      id ∈ h.query p r) ∧
    ∀ i0, (∀ e ∈ h.inserts, e.1 = i0 →
        ∀ c ∈ h.scanCells p r, morton_encode c.1 c.2.1 c.2.2 ≠ h.fineKey e.2) →
      i0 ∉ h.query p r := by
  constructor
  · intro id q hmem hdist
    obtain ⟨hax, hay, haz⟩ := axis_le_of_normSq_le (q - p) r hr hdist
    have hax' : |q.x - p.x| ≤ r := hax
    have hay' : |q.y - p.y| ≤ r := hay
    have haz' : |q.z - p.z| ≤ r := haz
    have hbx := floor_div_adjacent q.x p.x h.coarse_cell_size hc
      (le_trans hax' hrc)
    have hby := floor_div_adjacent q.y p.y h.coarse_cell_size hc
      (le_trans hay' hrc)
    have hbz := floor_div_adjacent q.z p.z h.coarse_cell_size hc
      (le_trans haz' hrc)
    have e1 : (h.get_coarse_cell q).1 = Int.floor (q.x / h.coarse_cell_size) := rfl
    have e2 : (h.get_coarse_cell q).2.1 = Int.floor (q.y / h.coarse_cell_size) := rfl
    have e3 : (h.get_coarse_cell q).2.2 = Int.floor (q.z / h.coarse_cell_size) := rfl
    have f1 : (h.get_coarse_cell p).1 = Int.floor (p.x / h.coarse_cell_size) := rfl
    have f2 : (h.get_coarse_cell p).2.1 = Int.floor (p.y / h.coarse_cell_size) := rfl
    have f3 : (h.get_coarse_cell p).2.2 = Int.floor (p.z / h.coarse_cell_size) := rfl
    have hd : ((h.get_coarse_cell q).1 - (h.get_coarse_cell p).1,
        (h.get_coarse_cell q).2.1 - (h.get_coarse_cell p).2.1,
        (h.get_coarse_cell q).2.2 - (h.get_coarse_cell p).2.2) ∈ offsets27 :=
      mem_offsets27 _ _ _ (by rw [e1, f1]; omega) (by rw [e2, f2]; omega)
        (by rw [e3, f3]; omega)
    have hocc : offsets27.any (fun d =>
        h.coarseOccupied (morton_encode ((h.get_coarse_cell p).1 + d.1)
          ((h.get_coarse_cell p).2.1 + d.2.1)
          ((h.get_coarse_cell p).2.2 + d.2.2))) = true := by
      rw [List.any_eq_true]
      refine ⟨_, hd, ?_⟩
      have g1 : (h.get_coarse_cell p).1 +
          ((h.get_coarse_cell q).1 - (h.get_coarse_cell p).1) =
          (h.get_coarse_cell q).1 := by ring
      have g2 : (h.get_coarse_cell p).2.1 +
          ((h.get_coarse_cell q).2.1 - (h.get_coarse_cell p).2.1) =
          (h.get_coarse_cell q).2.1 := by ring
      have g3 : (h.get_coarse_cell p).2.2 +
          ((h.get_coarse_cell q).2.2 - (h.get_coarse_cell p).2.2) =
          (h.get_coarse_cell q).2.2 := by ring
      show h.coarseOccupied _ = true
      rw [g1, g2, g3]
      exact coarseOccupied_of_mem h id q hmem
    rw [query_eq_fineScan h p r hocc, mem_fineScan_iff]
    refine ⟨h.get_fine_cell q, ?_, ?_⟩
    · rw [mem_scanCells_iff]
      rw [abs_le] at hax' hay' haz'
      refine ⟨⟨?_, ?_⟩, ⟨?_, ?_⟩, ⟨?_, ?_⟩⟩
      · show Int.floor ((p - ⟨r, r, r⟩).x / h.fine_cell_size) ≤
          Int.floor (q.x / h.fine_cell_size)
        show Int.floor ((p.x - r) / h.fine_cell_size) ≤ _
        exact floor_div_mono _ _ _ hf (by linarith [hax'.1])
      · show Int.floor (q.x / h.fine_cell_size) ≤
          Int.floor ((p + ⟨r, r, r⟩).x / h.fine_cell_size)
        show _ ≤ Int.floor ((p.x + r) / h.fine_cell_size)
        exact floor_div_mono _ _ _ hf (by linarith [hax'.2])
      · show Int.floor ((p - ⟨r, r, r⟩).y / h.fine_cell_size) ≤
          Int.floor (q.y / h.fine_cell_size)
        show Int.floor ((p.y - r) / h.fine_cell_size) ≤ _
        exact floor_div_mono _ _ _ hf (by linarith [hay'.1])
      · show Int.floor (q.y / h.fine_cell_size) ≤
          Int.floor ((p + ⟨r, r, r⟩).y / h.fine_cell_size)
        show _ ≤ Int.floor ((p.y + r) / h.fine_cell_size)
        exact floor_div_mono _ _ _ hf (by linarith [hay'.2])
      · show Int.floor ((p - ⟨r, r, r⟩).z / h.fine_cell_size) ≤
          Int.floor (q.z / h.fine_cell_size)
        show Int.floor ((p.z - r) / h.fine_cell_size) ≤ _
        exact floor_div_mono _ _ _ hf (by linarith [haz'.1])
      · show Int.floor (q.z / h.fine_cell_size) ≤
          Int.floor ((p + ⟨r, r, r⟩).z / h.fine_cell_size)
        show _ ≤ Int.floor ((p.z + r) / h.fine_cell_size)
        exact floor_div_mono _ _ _ hf (by linarith [haz'.2])
    · rw [mem_fineCellList_iff]
      exact ⟨q, hmem, rfl⟩
  · intro i0 hfar hid
    have h1 := query_subset_fineScan h p r i0 hid
    rw [mem_fineScan_iff] at h1
    obtain ⟨c, hc1, hc2⟩ := h1
    rw [mem_fineCellList_iff] at hc2
    obtain ⟨q, hq1, hq2⟩ := hc2
    exact hfar (i0, q) hq1 rfl c hc1 hq2.symm

/-- A hash from radius 1 holding near points 0, 1 and a far point 2. -/
def w8h : HierarchicalSpatialHash :=
  (((HierarchicalSpatialHash.new 1).insert_point 0 ⟨0, 0, 0⟩).insert_point 1
    ⟨2, 0, 0⟩).insert_point 2 ⟨100, 0, 0⟩

/-- C8 witness: querying `w8h` at `(1,0,0)` with radius 2 returns the two
near ids and omits the far one. -/
theorem claim_C8_witness : 0 ∈ w8h.query ⟨1, 0, 0⟩ 2 ∧
    1 ∈ w8h.query ⟨1, 0, 0⟩ 2 ∧ 2 ∉ w8h.query ⟨1, 0, 0⟩ 2 := by
  obtain ⟨hcomp, hexcl⟩ := claim_C8_query_amended w8h ⟨1, 0, 0⟩ 2
    (by with_unfolding_all decide) (by with_unfolding_all decide)
    (by norm_num) (by with_unfolding_all decide)
  refine ⟨hcomp 0 ⟨0, 0, 0⟩ ?_ ?_, hcomp 1 ⟨2, 0, 0⟩ ?_ ?_, hexcl 2 ?_⟩
  · with_unfolding_all decide
  · with_unfolding_all decide
  · with_unfolding_all decide
  · with_unfolding_all decide
  · with_unfolding_all decide

/-! ## Static uniform grid and the broad phase
Embedding of `physics/src/collision/spatial/static_grid.rs` and the serial
path of `physics/src/collision/resolver/broad.rs`.  `as usize` casts of
nonnegative floats truncate (floor); on negative values they saturate to 0,
which `Int.toNat` reproduces. -/

/-- Componentwise `Vec3::max(Vec3::ZERO)`. -/
def vmax0 (v : V3) : V3 := ⟨max v.x 0, max v.y 0, max v.z 0⟩

/-- Nat range `a..=b` as a list (empty when `b < a`). -/
def natRange (a b : Nat) : List Nat :=
  (List.range (b + 1 - a)).map (fun k => a + k)

/-- Embeds `StaticSpatialHash` (cells by flat index `x + y*w + z*w*h`). -/
structure StaticSpatialHash where
  cell_size : ℚ
  min : V3
  max : V3
  width : Nat
  height : Nat
  depth : Nat
  cells : List (List Nat)

/-- Embeds `StaticSpatialHash::new`: pads the bounds by two cells and caps
each axis to `[1, 1000]` cells. -/
def StaticSpatialHash.new (bounds_min bounds_max : V3) (cell_size : ℚ) :
    StaticSpatialHash :=
  let padding : V3 := ⟨cell_size * 2, cell_size * 2, cell_size * 2⟩
  let mn := bounds_min - padding
  let mx := bounds_max + padding
  let size := mx - mn
  let width := (Int.ceil (size.x / cell_size)).toNat
  let height := (Int.ceil (size.y / cell_size)).toNat
  let depth := (Int.ceil (size.z / cell_size)).toNat
  let safe_width := (width.max 1).min 1000
  let safe_height := (height.max 1).min 1000
  let safe_depth := (depth.max 1).min 1000
  ⟨cell_size, mn, mx, safe_width, safe_height, safe_depth,
    List.replicate (safe_width * safe_height * safe_depth) []⟩

/-- Embeds `StaticSpatialHash::contains`: the padded-AABB membership test. -/
def StaticSpatialHash.contains (g : StaticSpatialHash) (p : V3) : Bool :=
  decide (g.min.x ≤ p.x) && decide (p.x ≤ g.max.x) &&
    decide (g.min.y ≤ p.y) && decide (p.y ≤ g.max.y) &&
    decide (g.min.z ≤ p.z) && decide (p.z ≤ g.max.z)

/-- Pushes an id onto the cell at a flat index. -/
def cellsPush (cells : List (List Nat)) (idx id : Nat) : List (List Nat) :=
  cells.set idx (cells.getD idx [] ++ [id])

/-- Embeds `StaticSpatialHash::insert_aabb`. -/
def StaticSpatialHash.insert_aabb (g : StaticSpatialHash) (id : Nat)
    (mn mx : V3) : StaticSpatialHash :=
  let sl := vmax0 (mn - g.min)
  let el := mx - g.min
  let min_x := (Int.floor (sl.x / g.cell_size)).toNat
  let min_y := (Int.floor (sl.y / g.cell_size)).toNat
  let min_z := (Int.floor (sl.z / g.cell_size)).toNat
  let max_x := ((Int.floor (el.x / g.cell_size)).toNat).min (g.width - 1)
  let max_y := ((Int.floor (el.y / g.cell_size)).toNat).min (g.height - 1)
  let max_z := ((Int.floor (el.z / g.cell_size)).toNat).min (g.depth - 1)
  let newCells :=
    (natRange min_z max_z).foldl (fun cz z =>
      (natRange min_y max_y).foldl (fun cy y =>
        (natRange min_x max_x).foldl (fun cx x =>
          cellsPush cx (x + y * g.width + z * g.width * g.height) id) cy) cz)
      g.cells
  { g with cells := newCells }

/-- Embeds `StaticSpatialHash::query`: clamps the query box to the grid,
returns early when the box starts past the grid, otherwise collects the
overlapped cells' contents with first-occurrence deduplication. -/
def StaticSpatialHash.query (g : StaticSpatialHash) (p : V3) (radius : ℚ) :
    List Nat :=
  let mn := p - ⟨radius, radius, radius⟩
  let mx := p + ⟨radius, radius, radius⟩
  let sl := vmax0 (mn - g.min)
  let el := mx - g.min
  let min_x := (Int.floor (sl.x / g.cell_size)).toNat
  let min_y := (Int.floor (sl.y / g.cell_size)).toNat
  let min_z := (Int.floor (sl.z / g.cell_size)).toNat
  if g.width ≤ min_x ∨ g.height ≤ min_y ∨ g.depth ≤ min_z then []
  else
    let max_x := ((Int.floor (el.x / g.cell_size)).toNat).min (g.width - 1)
    let max_y := ((Int.floor (el.y / g.cell_size)).toNat).min (g.height - 1)
    let max_z := ((Int.floor (el.z / g.cell_size)).toNat).min (g.depth - 1)
    dedupKeepFirst ((natRange min_z max_z).bind (fun z =>
      (natRange min_y max_y).bind (fun y =>
        (natRange min_x max_x).bind (fun x =>
          g.cells.getD (x + y * g.width + z * g.width * g.height) []))))

/-- The broad-phase outputs: candidate buffer plus per-particle offsets and
counts (arrays as total functions). -/
structure BroadResolver where
  candidate_indices : List Nat
  candidate_offsets : Nat → Nat
  candidate_counts : Nat → Nat

/-- Pointwise array store. -/
def natUpd (f : Nat → Nat) (i v : Nat) : Nat → Nat :=
  fun j => if j = i then v else f j

/-- Embeds one iteration of the serial loop of `perform_broad_phase`
(`broad.rs`, non-parallel path): pinned particles and particles with both
endpoints outside the padded bounds are skipped with a zero count; otherwise
the grid is queried at radius `0.02 +` displacement (`sq` supplies the
square root of the squared displacement) and the result is appended under a
heap guard. -/
def broadStep (sq : ℚ → ℚ) (grid : StaticSpatialHash) (st : PState)
    (capacity : Nat) (bs : BroadResolver) (i : Nat) : BroadResolver :=
  if st.invMass i = 0 then
    { bs with candidate_counts := natUpd bs.candidate_counts i 0 }
  else
    let pos := st.positions i
    let prev := st.prevPositions i
    let search_radius := 1 / 50 + sq (V3.normSq (pos - prev))
    if ¬ grid.contains pos ∧ ¬ grid.contains prev then
      { bs with candidate_counts := natUpd bs.candidate_counts i 0 }
    else
      let res := grid.query pos search_radius
      let start_idx := bs.candidate_indices.length
      if start_idx + res.length < capacity then
        ⟨bs.candidate_indices ++ res,
          natUpd bs.candidate_offsets i start_idx,
          natUpd bs.candidate_counts i res.length⟩
      else
        { bs with candidate_counts := natUpd bs.candidate_counts i 0 }

/-- Embeds the serial `perform_broad_phase`: clears the candidate buffer and
runs `broadStep` over every particle. -/
def perform_broad_phase (sq : ℚ → ℚ) (grid : StaticSpatialHash) (st : PState)
    (capacity : Nat) (r0 : BroadResolver) : BroadResolver :=
  (List.range st.count).foldl (broadStep sq grid st capacity)
    { r0 with candidate_indices := [] }

/-- Grid over bounds `(0,0,0)-(1,1,1)` with unit cells, holding triangle 7
in the cell of `(1, 1/2, 1/2)`. -/
def g5 : StaticSpatialHash :=
  (StaticSpatialHash.new ⟨0, 0, 0⟩ ⟨1, 1, 1⟩ 1).insert_aabb 7
    ⟨1, 1/2, 1/2⟩ ⟨1, 1/2, 1/2⟩

/-- One free particle moving from `x = 5` to `x = -3` through the grid. -/
def st5 : PState :=
  ⟨1, fun _ => ⟨-3, 1/2, 1/2⟩, fun _ => ⟨5, 1/2, 1/2⟩, fun _ => 1⟩

/-- Square-root oracle for `st5`: the displacement is 8. -/
def sq5 : ℚ → ℚ := fun v => if v = 64 then 8 else 0

/-- All-zero broad-phase outputs. -/
def bs0 : BroadResolver := ⟨[], fun _ => 0, fun _ => 0⟩

/-- C5 counterexample: both endpoints lie outside the padded bounds but
their midpoint lies inside, and a grid query at the swept radius would even
return triangle 7 — yet the broad phase skips the particle (count 0, no
cached candidates).  The code never tests the midpoint. -/
theorem claim_C5_counterexample :
    g5.contains ⟨-3, 1/2, 1/2⟩ = false ∧
    g5.contains ⟨5, 1/2, 1/2⟩ = false ∧
    g5.contains (((⟨-3, 1/2, 1/2⟩ : V3) + ⟨5, 1/2, 1/2⟩) / (2 : ℚ)) = true ∧
    g5.query ⟨-3, 1/2, 1/2⟩ (1 / 50 + 8) = [7] ∧
    (perform_broad_phase sq5 g5 st5 100 bs0).candidate_counts 0 = 0 ∧
    (perform_broad_phase sq5 g5 st5 100 bs0).candidate_indices = [] := by
  refine ⟨?_, ?_, ?_, ?_, ?_, ?_⟩ <;> with_unfolding_all decide

/-- C5 (amended): the serial broad phase folds `broadStep` over all
particles on a cleared buffer; per particle, a pinned particle is skipped,
a free particle is skipped exactly when neither its position nor its
previous position (the midpoint is never tested) lies in the padded bounds,
and otherwise — displacement `d` being the square root of the squared
displacement and the heap guard passing — the grid is queried at radius
`0.02 + d` and the result is cached: count, offset and the corresponding
slice of the candidate buffer all describe exactly the query result.  When
the heap guard fails the particle gets count 0 as well. -/
theorem claim_C5_broad_amended (sq : ℚ → ℚ) (grid : StaticSpatialHash)
    (st : PState) (capacity : Nat) (bs : BroadResolver) (i : Nat) :
    (perform_broad_phase sq grid st capacity bs =
      (List.range st.count).foldl (broadStep sq grid st capacity)
        { bs with candidate_indices := [] }) ∧
    (st.invMass i = 0 →
      (broadStep sq grid st capacity bs i).candidate_counts i = 0 ∧
      (broadStep sq grid st capacity bs i).candidate_indices =
        bs.candidate_indices) ∧
    (st.invMass i ≠ 0 →
      grid.contains (st.positions i) = false →
      grid.contains (st.prevPositions i) = false →
      (broadStep sq grid st capacity bs i).candidate_counts i = 0 ∧
      (broadStep sq grid st capacity bs i).candidate_indices =
        bs.candidate_indices) ∧
    ∀ d, st.invMass i ≠ 0 →
      (grid.contains (st.positions i) = true ∨
        grid.contains (st.prevPositions i) = true) →
      0 ≤ d → d * d = V3.normSq (st.positions i - st.prevPositions i) →
      sq (V3.normSq (st.positions i - st.prevPositions i)) = d →
      (bs.candidate_indices.length +
          (grid.query (st.positions i) (1 / 50 + d)).length < capacity →
        (broadStep sq grid st capacity bs i).candidate_counts i =
          (grid.query (st.positions i) (1 / 50 + d)).length ∧
        (broadStep sq grid st capacity bs i).candidate_offsets i =
          bs.candidate_indices.length ∧
        (broadStep sq grid st capacity bs i).candidate_indices =
          bs.candidate_indices ++ grid.query (st.positions i) (1 / 50 + d) ∧
        (((broadStep sq grid st capacity bs i).candidate_indices.drop
            ((broadStep sq grid st capacity bs i).candidate_offsets i)).take
          ((broadStep sq grid st capacity bs i).candidate_counts i)) =
          grid.query (st.positions i) (1 / 50 + d)) ∧
      (¬ (bs.candidate_indices.length +
          (grid.query (st.positions i) (1 / 50 + d)).length < capacity) →
        (broadStep sq grid st capacity bs i).candidate_counts i = 0 ∧
        (broadStep sq grid st capacity bs i).candidate_indices =
          bs.candidate_indices) := by
  refine ⟨rfl, ?_, ?_, ?_⟩
  · intro h0
    unfold broadStep
    rw [if_pos h0]
    exact ⟨by simp [natUpd], rfl⟩
  · intro hm hp hq
    unfold broadStep
    rw [if_neg hm]
    dsimp only
    rw [if_pos ⟨by simp [hp], by simp [hq]⟩]
    exact ⟨by simp [natUpd], rfl⟩
  · intro d hm hpq _ _ hsq
    have hcond : ¬ (¬ grid.contains (st.positions i) ∧
        ¬ grid.contains (st.prevPositions i)) := by
      rcases hpq with h | h
      · exact fun hc => hc.1 (by simp [h])
      · exact fun hc => hc.2 (by simp [h])
    constructor
    · intro hcap
      unfold broadStep
      rw [if_neg hm]
      dsimp only
      rw [hsq, if_neg hcond, if_pos hcap]
      refine ⟨by simp [natUpd], by simp [natUpd], rfl, ?_⟩
      dsimp only
      simp only [natUpd, eq_self_iff_true, if_true]
      rw [List.drop_left, List.take_length]
    · intro hcap
      unfold broadStep
      rw [if_neg hm]
      dsimp only
      rw [hsq, if_neg hcond, if_neg hcap]
      exact ⟨by simp [natUpd], rfl⟩

/-- Two particles: 0 pinned at the origin, 1 free and at rest inside the
grid bounds next to triangle 7's cell. -/
def st5w : PState :=
  ⟨2, fun j => if j = 0 then ⟨0, 0, 0⟩ else ⟨1, 1/2, 1/2⟩,
    fun j => if j = 0 then ⟨0, 0, 0⟩ else ⟨1, 1/2, 1/2⟩,
    fun j => if j = 0 then 0 else 1⟩

/-- Square-root oracle for the resting particle (zero displacement). -/
def sq5w : ℚ → ℚ := fun _ => 0

/-- C5 witness: the pinned particle and the fully-outside particle are
skipped; the inside particle gets exactly the query result cached, and with
capacity 0 the heap guard zeroes its count. -/
theorem claim_C5_witness :
    (broadStep sq5 g5 st5w 100 bs0 0).candidate_counts 0 = 0 ∧
    (broadStep sq5 g5 st5 100 bs0 0).candidate_counts 0 = 0 ∧
    (broadStep sq5w g5 st5w 100 bs0 1).candidate_counts 1 =
      (g5.query (st5w.positions 1) (1 / 50 + 0)).length ∧
    (broadStep sq5w g5 st5w 100 bs0 1).candidate_indices =
      bs0.candidate_indices ++ g5.query (st5w.positions 1) (1 / 50 + 0) ∧
    (broadStep sq5w g5 st5w 0 bs0 1).candidate_counts 1 = 0 := by
  refine ⟨?_, ?_, ?_, ?_, ?_⟩
  · exact ((claim_C5_broad_amended sq5 g5 st5w 100 bs0 0).2.1
      (by with_unfolding_all decide)).1
  · exact ((claim_C5_broad_amended sq5 g5 st5 100 bs0 0).2.2.1
      (by with_unfolding_all decide) (by with_unfolding_all decide)
      (by with_unfolding_all decide)).1
  · exact (((claim_C5_broad_amended sq5w g5 st5w 100 bs0 1).2.2.2 0
      (by with_unfolding_all decide) (Or.inl (by with_unfolding_all decide))
      (by with_unfolding_all decide) (by with_unfolding_all decide)
      (by with_unfolding_all decide)).1 (by with_unfolding_all decide)).1
  · exact (((claim_C5_broad_amended sq5w g5 st5w 100 bs0 1).2.2.2 0
      (by with_unfolding_all decide) (Or.inl (by with_unfolding_all decide))
      (by with_unfolding_all decide) (by with_unfolding_all decide)
      (by with_unfolding_all decide)).1 (by with_unfolding_all decide)).2.2.1
  · exact (((claim_C5_broad_amended sq5w g5 st5w 0 bs0 1).2.2.2 0
      (by with_unfolding_all decide) (Or.inl (by with_unfolding_all decide))
      (by with_unfolding_all decide) (by with_unfolding_all decide)
      (by with_unfolding_all decide)).2 (by with_unfolding_all decide)).1

/-! ## Triangle geometry and the narrow phase
Embedding of `physics/src/collision/geometry.rs` and the serial path of
`physics/src/collision/resolver/narrow.rs`.  Square roots (`normalize`) go
through the `sq` oracle; `f32::MAX` is the exact value of the float. -/

/-- Componentwise `Vec3::min`. -/
def V3.cmin (a b : V3) : V3 := ⟨min a.x b.x, min a.y b.y, min a.z b.z⟩

/-- Componentwise `Vec3::max`. -/
def V3.cmax (a b : V3) : V3 := ⟨max a.x b.x, max a.y b.y, max a.z b.z⟩

/-- Embeds `Triangle` (`geometry.rs`). -/
structure Triangle where
  v0 : V3
  v1 : V3
  v2 : V3
  index : Nat

/-- Embeds `Triangle::aabb`. -/
def Triangle.aabb (tri : Triangle) : V3 × V3 :=
  ((tri.v0.cmin tri.v1).cmin tri.v2, (tri.v0.cmax tri.v1).cmax tri.v2)

/-- `Triangle::aabb_dist_sq` is called by the narrow phase but its body is
absent from this source snapshot; modelled with its standard semantics — the
squared distance from `p` to the `aabb()` box (per-axis clamped distance),
which is what a conservative AABB prune requires. -/
def Triangle.aabb_dist_sq (tri : Triangle) (p : V3) : ℚ :=
  let mn := tri.aabb.1
  let mx := tri.aabb.2
  let dx := max (mn.x - p.x) (max 0 (p.x - mx.x))
  let dy := max (mn.y - p.y) (max 0 (p.y - mx.y))
  let dz := max (mn.z - p.z) (max 0 (p.z - mx.z))
  dx * dx + dy * dy + dz * dz

/-- Embeds `Triangle::closest_point` (Ericson-style Voronoi-region walk):
returns the closest point and the barycentric coordinates. -/
def Triangle.closest_point (tri : Triangle) (p : V3) : V3 × (ℚ × ℚ × ℚ) :=
  let ab := tri.v1 - tri.v0
  let ac := tri.v2 - tri.v0
  let ap := p - tri.v0
  let d1 := V3.dot ab ap
  let d2 := V3.dot ac ap
  if d1 ≤ 0 ∧ d2 ≤ 0 then (tri.v0, (1, 0, 0))
  else
    let bp := p - tri.v1
    let d3 := V3.dot ab bp
    let d4 := V3.dot ac bp
    if d3 ≥ 0 ∧ d4 ≤ d3 then (tri.v1, (0, 1, 0))
    else
      let vc := d1 * d4 - d3 * d2
      if vc ≤ 0 ∧ d1 ≥ 0 ∧ d3 ≤ 0 then
        let v := d1 / (d1 - d3)
        (tri.v0 + v * ab, (1 - v, v, 0))
      else
        let cp := p - tri.v2
        let d5 := V3.dot ab cp
        let d6 := V3.dot ac cp
        if d6 ≥ 0 ∧ d5 ≤ d6 then (tri.v2, (0, 0, 1))
        else
          let vb := d5 * d2 - d1 * d6
          if vb ≤ 0 ∧ d2 ≥ 0 ∧ d6 ≤ 0 then
            let w := d2 / (d2 - d6)
            (tri.v0 + w * ac, (1 - w, 0, w))
          else
            let va := d3 * d6 - d5 * d4
            if va ≤ 0 ∧ d4 - d3 ≥ 0 ∧ d5 - d6 ≥ 0 then
              let w := (d4 - d3) / ((d4 - d3) + (d5 - d6))
              (tri.v1 + w * (tri.v2 - tri.v1), (0, 1 - w, w))
            else
              let denom := 1 / (va + vb + vc)
              let v := vb * denom
              let w := vc * denom
              let u := 1 - v - w
              (tri.v0 + v * ab + w * ac, (u, v, w))

/-- Embeds `Triangle::intersect_segment` (Möller–Trumbore, epsilon `1e-7`,
hit accepted for `t` strictly inside `(epsilon, 1)`); the face normal is
normalized through the `sq` oracle and re-oriented against the ray. -/
def Triangle.intersect_segment (sq : ℚ → ℚ) (tri : Triangle) (p1 p2 : V3) :
    Option (V3 × V3 × ℚ) :=
  let epsilon : ℚ := 1 / 10000000
  let edge1 := tri.v1 - tri.v0
  let edge2 := tri.v2 - tri.v0
  let ray_vector := p2 - p1
  let h := V3.cross ray_vector edge2
  let a := V3.dot edge1 h
  if -epsilon < a ∧ a < epsilon then none
  else
    let f := 1 / a
    let s := p1 - tri.v0
    let u := f * V3.dot s h
    if u < 0 ∨ u > 1 then none
    else
      let q := V3.cross s edge1
      let v := f * V3.dot ray_vector q
      if v < 0 ∨ u + v > 1 then none
      else
        let t := f * V3.dot edge2 q
        if epsilon < t ∧ t < 1 then
          let ip := p1 + t * ray_vector
          let n0 := V3.cross edge1 edge2
          let normal := n0 / sq (V3.normSq n0)
          let final_normal :=
            if V3.dot normal ray_vector < 0 then normal else -normal
          some (ip, final_normal, t)
        else none

/-- Exact value of `f32::MAX`. -/
def f32Max : ℚ := 2 ^ 128 - 2 ^ 104

/-- The per-particle scan state of the narrow phase. -/
structure BestState where
  best : Option (V3 × V3 × ℚ)
  min_metric : ℚ
  is_continuous : Bool

/-- Embeds one iteration of the candidate loop of the serial
`perform_narrow_phase` (`narrow.rs`): the continuous check compares `t`
against `min_metric`, then — only while no continuous hit is recorded — the
discrete check with AABB pruning and `discrete_radius = 0.05`, comparing
`dist_sq` against the same `min_metric`.  The discrete smooth normal blends
the vertex normals barycentrically and normalizes via `sq`. -/
def narrowStep (sq : ℚ → ℚ) (triangles : Nat → Triangle)
    (indices : Nat → Nat) (normals : Nat → V3) (pos prev : V3)
    (bs : BestState) (triIdx : Nat) : BestState :=
  let tri := triangles triIdx
  let bs1 := match tri.intersect_segment sq prev pos with
    | some (hit_point, hit_normal, t) =>
      if t < bs.min_metric then
        let normal := if V3.dot hit_normal (pos - prev) < 0 then hit_normal
          else -hit_normal
        ⟨some (hit_point, normal, t), t, true⟩
      else bs
    | none => bs
  if ¬ bs1.is_continuous then
    if tri.aabb_dist_sq pos < 1 / 20 * (1 / 20) then
      let closest := (tri.closest_point pos).1
      let dist_sq := V3.normSq (closest - pos)
      if dist_sq < 1 / 20 * (1 / 20) then
        if dist_sq < bs1.min_metric then
          let n0 := normals (indices (triIdx * 3))
          let n1 := normals (indices (triIdx * 3 + 1))
          let n2 := normals (indices (triIdx * 3 + 2))
          let bary := (tri.closest_point pos).2
          let blended := bary.1 * n0 + bary.2.1 * n1 + bary.2.2 * n2
          let smooth_normal := blended / sq (V3.normSq blended)
          ⟨some (closest, smooth_normal, dist_sq), dist_sq, bs1.is_continuous⟩
        else bs1
      else bs1
    else bs1
  else bs1

/-- The best contact selected by scanning a particle's candidate list
(`best_contact` after the loop of `perform_narrow_phase`). -/
def narrowBest (sq : ℚ → ℚ) (triangles : Nat → Triangle)
    (indices : Nat → Nat) (normals : Nat → V3) (candidates : List Nat)
    (pos prev : V3) : Option (V3 × V3 × ℚ) :=
  (candidates.foldl (narrowStep sq triangles indices normals pos prev)
    ⟨none, f32Max, false⟩).best

/-- Floor triangle in the plane `z = -1/100`, below the particle. -/
def tri2A : Triangle := ⟨⟨-1, -1, -1/100⟩, ⟨1, -1, -1/100⟩, ⟨0, 1, -1/100⟩, 0⟩

/-- Mid triangle in the plane `z = 1/2`, crossed by the particle's path. -/
def tri2B : Triangle := ⟨⟨-1, -1, 1/2⟩, ⟨1, -1, 1/2⟩, ⟨0, 1, 1/2⟩, 1⟩

/-- Triangle table: candidate 0 is `tri2A`, candidate 1 is `tri2B`. -/
def tris2 : Nat → Triangle := fun k => if k = 0 then tri2A else tri2B

/-- Flat vertex-index table (identity). -/
def idx2 : Nat → Nat := fun k => k

/-- All vertex normals point up. -/
def nrm2 : Nat → V3 := fun _ => ⟨0, 0, 1⟩

/-- Square-root oracle for the two unit-normal computations. -/
def sq2 : ℚ → ℚ := fun v => if v = 16 then 4 else if v = 1 then 1 else 0

/-- C2: the particle falls from `(0,0,1)` to `(0,0,0)` with candidates
`[tri2A, tri2B]`.  `tri2B` has a genuine continuous hit at `t = 1/2`, but
`tri2A` is scanned first and records a discrete candidate with
`min_metric = dist_sq = 1/10000`; the continuous check then compares the
*parameter* `1/2` against the *squared distance* `1/10000` and discards the
hit, so the stored contact is the discrete one — continuous hits do not take
priority, because `min_metric` mixes incomparable units. -/
theorem claim_C2_continuous_priority_bug :
    tris2 1 = tri2B ∧
    tri2B.intersect_segment sq2 ⟨0, 0, 1⟩ ⟨0, 0, 0⟩ =
      some (⟨0, 0, 1/2⟩, ⟨0, 0, 1⟩, 1/2) ∧
    narrowBest sq2 tris2 idx2 nrm2 [0, 1] ⟨0, 0, 0⟩ ⟨0, 0, 1⟩ =
      some (⟨0, 0, -1/100⟩, ⟨0, 0, 1⟩, 1/10000) := by
  refine ⟨rfl, ?_, ?_⟩
  · norm_num [Triangle.intersect_segment, tri2B, V3.cross, V3.dot,
      V3.sub_def, V3.add_def, V3.smul_def, V3.neg_def, V3.div_def, sq2,
      V3.normSq]
  · norm_num [narrowBest, narrowStep, tris2, tri2A, tri2B, idx2, nrm2,
      f32Max, Triangle.intersect_segment, Triangle.aabb_dist_sq,
      Triangle.aabb, V3.cmin, V3.cmax, Triangle.closest_point, V3.cross,
      V3.dot, V3.sub_def, V3.add_def, V3.smul_def, V3.neg_def, V3.div_def,
      sq2, V3.normSq]

/-! ## Contact resolution and the solver loop
Embedding of `CollisionResolver::resolve_contacts`
(`physics/src/collision/resolver/mod.rs`) and `Solver::solve`
(`physics/src/systems/dynamics/solver.rs`).  The four constraint solves and
their profiling wrappers are abstracted as a record of solve functions; the
solver loop itself is translated verbatim. -/

/-- Embeds `Contact`. -/
structure Contact where
  particle_index : Nat
  normal : V3
  surface_point : V3

/-- The resolver settings and cached contacts used by `resolve_contacts`. -/
structure CollisionResolverCfg where
  thickness : ℚ
  static_friction : ℚ
  dynamic_friction : ℚ
  collision_stiffness : ℚ
  contacts : List Contact

/-- Embeds one iteration of the contact loop of `resolve_contacts`:
back-face recovery (with snap-and-continue below `-2·thickness`), stiffness-
scaled position correction, and stick/slide friction rewriting the previous
position (`sq` supplies the tangential speed). -/
def resolveContact (sq : ℚ → ℚ) (cfg : CollisionResolverCfg) (st : PState)
    (contact : Contact) : PState :=
  let i := contact.particle_index
  let pos := st.positions i
  let normal := contact.normal
  let surface_point := contact.surface_point
  let vec := pos - surface_point
  let projection := V3.dot vec normal
  if projection < cfg.thickness then
    let st1 :=
      if projection < 0 then
        let prev := st.prevPositions i
        let velocity := st.positions i - prev
        if V3.dot velocity normal < 0 then st.setPrev i (st.positions i)
        else st
      else st
    if projection < 0 ∧ projection < -cfg.thickness * 2 then
      st1.addPos i ((cfg.thickness - projection) * normal)
    else
      let penetration := cfg.thickness - projection
      let stiffness := if projection < 0 then 1 else cfg.collision_stiffness
      let correction := (penetration * stiffness) * normal
      let st2 := st1.addPos i correction
      let prev := st2.prevPositions i
      let velocity := st2.positions i - prev
      let vn_mag := V3.dot velocity normal
      let vn := vn_mag * normal
      let vt := velocity - vn
      let vt_len := sq (V3.normSq vt)
      let friction_factor :=
        if vt_len > 1 / 1000000000 then
          if vt_len < penetration * cfg.static_friction then 1
          else min (penetration * cfg.dynamic_friction / vt_len) 1
        else 0
      let new_vt := (1 - friction_factor) * vt
      let new_vn := if vn_mag < 0 then V3.zero else vn
      st2.setPrev i (st2.positions i - (new_vn + new_vt))
  else st

/-- Embeds `CollisionResolver::resolve_contacts` (its `_dt` is unused). -/
def CollisionResolver.resolve_contacts (sq : ℚ → ℚ)
    (cfg : CollisionResolverCfg) (_dt : ℚ) (st : PState) : PState :=
  cfg.contacts.foldl (resolveContact sq cfg) st

/-- Modelled from the spec's words: contact resolution accelerated by a
relaxation factor `omega` would scale the position correction by `omega`;
at `omega = 1` it must coincide with the code's `resolve_contacts`. -/
def resolveContactScaled (sq : ℚ → ℚ) (cfg : CollisionResolverCfg)
    (omega : ℚ) (st : PState) (contact : Contact) : PState :=
  let i := contact.particle_index
  let pos := st.positions i
  let normal := contact.normal
  let surface_point := contact.surface_point
  let vec := pos - surface_point
  let projection := V3.dot vec normal
  if projection < cfg.thickness then
    let st1 :=
      if projection < 0 then
        let prev := st.prevPositions i
        let velocity := st.positions i - prev
        if V3.dot velocity normal < 0 then st.setPrev i (st.positions i)
        else st
      else st
    if projection < 0 ∧ projection < -cfg.thickness * 2 then
      st1.addPos i ((cfg.thickness - projection) * normal)
    else
      let penetration := cfg.thickness - projection
      let stiffness := if projection < 0 then 1 else cfg.collision_stiffness
      let correction := (penetration * stiffness * omega) * normal
      let st2 := st1.addPos i correction
      let prev := st2.prevPositions i
      let velocity := st2.positions i - prev
      let vn_mag := V3.dot velocity normal
      let vn := vn_mag * normal
      let vt := velocity - vn
      let vt_len := sq (V3.normSq vt)
      let friction_factor :=
        if vt_len > 1 / 1000000000 then
          if vt_len < penetration * cfg.static_friction then 1
          else min (penetration * cfg.dynamic_friction / vt_len) 1
        else 0
      let new_vt := (1 - friction_factor) * vt
      let new_vn := if vn_mag < 0 then V3.zero else vn
      st2.setPrev i (st2.positions i - (new_vn + new_vt))
  else st

/-- Modelled from the spec's words: omega-scaled contact resolution. -/
def resolveContactsScaled (sq : ℚ → ℚ) (cfg : CollisionResolverCfg)
    (omega : ℚ) (st : PState) : PState :=
  cfg.contacts.foldl (resolveContactScaled sq cfg omega) st

/-- The four constraint solves and the contact resolution invoked by
`Solver::solve`, abstracted as functions of the state, the relaxation
factor and `dt` (the area solve also takes its compliance; contact
resolution takes no relaxation factor, matching its signature). -/
structure SolverFns where
  distance : PState → ℚ → ℚ → PState
  bending : PState → ℚ → ℚ → PState
  tether : PState → ℚ → ℚ → PState
  area : PState → ℚ → ℚ → ℚ → PState
  resolveContacts : PState → ℚ → PState

/-- The `omega` update at the top of the loop of `Solver::solve`. -/
def omegaNext (rho prev : ℚ) (i : Nat) : ℚ :=
  if i = 0 then 1 else if i = 1 then 2 / (2 - rho * rho)
  else 4 / (4 - rho * rho * prev)

/-- Embeds one iteration of the loop of `Solver::solve`: update `omega`
from the iteration index and its previous value, then solve distance,
bending, tether, area at the current `omega` and resolve contacts. -/
def solverStep (fns : SolverFns) (rho ac dt : ℚ) (acc : ℚ × PState)
    (i : Nat) : ℚ × PState :=
  let omega := omegaNext rho acc.1 i
  let st1 := fns.distance acc.2 omega dt
  let st2 := fns.bending st1 omega dt
  let st3 := fns.tether st2 omega dt
  let st4 := fns.area st3 ac omega dt
  let st5 := fns.resolveContacts st4 dt
  (omega, st5)

/-- Embeds `Solver::solve` (`omega` starts at `1.0` and is threaded through
the iterations). -/
def Solver.solve (fns : SolverFns) (iterations : Nat) (rho ac dt : ℚ)
    (st : PState) : PState :=
  ((List.range iterations).foldl (solverStep fns rho ac dt) (1, st)).2

/-- Modelled from the spec's words: the closed-form Chebyshev sequence. -/
def omegaSpec (rho : ℚ) : Nat → ℚ
  | 0 => 1
  | 1 => 2 / (2 - rho * rho)
  | n + 2 => 4 / (4 - rho * rho * omegaSpec rho (n + 1))

/-- Modelled from the spec's words: iteration `i` solves distance, bending,
tether, area at `omegaSpec rho i`, then resolves contacts. -/
def specIter (fns : SolverFns) (rho ac dt : ℚ) (st : PState) (i : Nat) :
    PState :=
  fns.resolveContacts
    (fns.area (fns.tether (fns.bending
      (fns.distance st (omegaSpec rho i) dt) (omegaSpec rho i) dt)
      (omegaSpec rho i) dt) ac (omegaSpec rho i) dt) dt

/-- Modelled from the spec's words: the whole solve as a fold of
`specIter`. -/
def solveSpec (fns : SolverFns) (iterations : Nat) (rho ac dt : ℚ)
    (st : PState) : PState :=
  (List.range iterations).foldl (specIter fns rho ac dt) st

theorem solverStep_fst (fns : SolverFns) (rho ac dt : ℚ) (acc : ℚ × PState)
    (i : Nat) : (solverStep fns rho ac dt acc i).1 = omegaNext rho acc.1 i :=
  rfl

theorem solverStep_snd (fns : SolverFns) (rho ac dt : ℚ) (acc : ℚ × PState)
    (i : Nat) :
    (solverStep fns rho ac dt acc i).2 =
      fns.resolveContacts (fns.area (fns.tether (fns.bending
        (fns.distance acc.2 (omegaNext rho acc.1 i) dt)
        (omegaNext rho acc.1 i) dt) (omegaNext rho acc.1 i) dt) ac
        (omegaNext rho acc.1 i) dt) dt :=
  rfl

theorem omegaNext_spec (rho prev : ℚ) (m : Nat)
    (h : prev = if m = 0 then 1 else omegaSpec rho (m - 1)) :
    omegaNext rho prev m = omegaSpec rho m := by
  rcases m with _ | m1
  · rfl
  · rcases m1 with _ | m2
    · rfl
    · unfold omegaNext
      rw [if_neg (by omega), if_neg (by omega), h, if_neg (by omega)]
      norm_num
      rfl

theorem solver_threads_omega (fns : SolverFns) (rho ac dt : ℚ) (st : PState)
    (n : Nat) :
    ((List.range n).foldl (solverStep fns rho ac dt) (1, st)).1 =
      (if n = 0 then 1 else omegaSpec rho (n - 1)) ∧
    ((List.range n).foldl (solverStep fns rho ac dt) (1, st)).2 =
      solveSpec fns n rho ac dt st := by
  induction n with
  | zero => exact ⟨rfl, rfl⟩
  | succ m ih =>
    obtain ⟨ih1, ih2⟩ := ih
    rw [List.range_succ, List.foldl_append, List.foldl_cons, List.foldl_nil]
    have homega : omegaNext rho
        ((List.range m).foldl (solverStep fns rho ac dt) (1, st)).1 m =
        omegaSpec rho m := omegaNext_spec rho _ m ih1
    refine ⟨?_, ?_⟩
    · rw [solverStep_fst, homega, if_neg (Nat.succ_ne_zero m),
        Nat.succ_sub_one]
    · have hrhs : solveSpec fns (m + 1) rho ac dt st =
          specIter fns rho ac dt (solveSpec fns m rho ac dt st) m := by
        unfold solveSpec
        rw [List.range_succ, List.foldl_append, List.foldl_cons,
          List.foldl_nil]
      rw [hrhs, ← ih2, solverStep_snd, homega]
      rfl

/-- C4: the solver loop equals its specification — iteration `i` uses the
closed-form Chebyshev factor (`omegaSpec`: `1`, `2/(2−ρ²)`, then
`4/(4−ρ²·ω_{i−1})`), solves distance, bending, tether, area in that order at
that factor, and resolves the cached contacts with no factor: scaling the
contact correction by `omega = 1` is exactly `resolve_contacts`. -/
theorem claim_C4_solver_orchestration (fns : SolverFns) (iterations : Nat)
    (rho ac dt : ℚ) (st : PState) (sq : ℚ → ℚ)
    (cfg : CollisionResolverCfg) :
    Solver.solve fns iterations rho ac dt st =
      solveSpec fns iterations rho ac dt st ∧
    omegaSpec rho 0 = 1 ∧
    omegaSpec rho 1 = 2 / (2 - rho * rho) ∧
    (∀ i, omegaSpec rho (i + 2) =
      4 / (4 - rho * rho * omegaSpec rho (i + 1))) ∧
    ∀ st2, resolveContactsScaled sq cfg 1 st2 =
      CollisionResolver.resolve_contacts sq cfg dt st2 := by
  refine ⟨(solver_threads_omega fns rho ac dt st iterations).2, rfl, rfl,
    fun i => rfl, fun st2 => ?_⟩
  unfold resolveContactsScaled CollisionResolver.resolve_contacts
  have hstep : resolveContactScaled sq cfg 1 = resolveContact sq cfg := by
    funext s c
    unfold resolveContactScaled resolveContact
    simp only [mul_one]
  rw [hstep]

/-! ## Full constraint kernels and the whole step
Embedding of the remaining mutation sites of `Simulation::step`:
`Integrator::integrate` (`systems/dynamics/integrator.rs`),
`MouseConstraint::solve` (`systems/constraints/mouse.rs`), the shared
batch/SIMD loop shape, the distance and bending edge kernels (the two
solvers are textually identical; `EdgeConstraint` embeds both
`systems/constraints/distance/solver.rs` and
`systems/constraints/bending.rs`), `AreaConstraint::solve`
(`systems/constraints/area.rs`), `SelfCollision::{resolve_simd_4,
resolve_batched, solve}` (`collision/self_collision/resolution.rs`,
`mod.rs`), and the serial `perform_narrow_phase` writing contacts and the
airbag clamp.  The 4x-unrolled integrator loop visits `0..count` in
ascending order, which the plain fold reproduces. -/

/-- The shared batch loop of every constraint solver: per color batch,
4-wide chunks then a scalar remainder. -/
def batchLoop (simd4 : PState → Nat → PState) (single : PState → Nat → PState)
    (batch_offsets : List Nat) (st : PState) : PState :=
  (List.range (batch_offsets.length - 1)).foldl (fun s b =>
    let start := batch_offsets.getD b 0
    let stop := batch_offsets.getD (b + 1) 0
    let count := stop - start
    let chunks := count / 4
    let remainder := count % 4
    let s1 := (List.range chunks).foldl
      (fun s2 chunk => simd4 s2 (start + chunk * 4)) s
    (List.range remainder).foldl
      (fun s2 r => single s2 (start + chunks * 4 + r)) s1) st

/-- Embeds `DistanceConstraint` and `BendingConstraint` (identical edge-
spring XPBD records). -/
structure EdgeConstraint where
  constraints : List (Nat × Nat)
  rest_lengths : List ℚ
  compliances : List ℚ
  batch_offsets : List Nat

/-- Embeds the scalar `solve_single` shared by the distance and bending
solvers. -/
def EdgeConstraint.solve_single (sq : ℚ → ℚ) (ec : EdgeConstraint)
    (st : PState) (k : Nat) (dt_sq_inv omega : ℚ) : PState :=
  let c := ec.constraints.getD k (0, 0)
  let i1 := c.1
  let i2 := c.2
  let w1 := st.invMass i1
  let w2 := st.invMass i2
  let wSum := w1 + w2
  if wSum = 0 then st
  else
    let delta := st.positions i1 - st.positions i2
    let len := sq delta.normSq
    if len < 1 / 1000000 then st
    else
      let cviol := len - ec.rest_lengths.getD k 0
      let alpha := ec.compliances.getD k 0 * dt_sq_inv
      let deltaLambda := -cviol / (wSum + alpha)
      let correction_vector := deltaLambda * (delta / len)
      let accelerated_correction := omega * correction_vector
      let st1 := if 0 < w1 then st.addPos i1 (w1 * accelerated_correction)
        else st
      if 0 < w2 then st1.addPos i2 (-(w2 * accelerated_correction)) else st1

/-- Embeds the 4-wide `solve_simd_4` shared by the distance and bending
solvers (lane-wise, eight guarded stores in source order). -/
def EdgeConstraint.solve_simd_4 (sq : ℚ → ℚ) (ec : EdgeConstraint)
    (st : PState) (base : Nat) (dt_sq_inv omega : ℚ) : PState :=
  let idx : Nat → Nat × Nat := fun l => ec.constraints.getD (base + l) (0, 0)
  let w1 : Nat → ℚ := fun l => st.invMass (idx l).1
  let w2 : Nat → ℚ := fun l => st.invMass (idx l).2
  let wSum : Nat → ℚ := fun l => w1 l + w2 l
  let delta : Nat → V3 := fun l =>
    st.positions (idx l).1 - st.positions (idx l).2
  let len : Nat → ℚ := fun l => sq (delta l).normSq
  let rest : Nat → ℚ := fun l => ec.rest_lengths.getD (base + l) 0
  let compliance : Nat → ℚ := fun l => ec.compliances.getD (base + l) 0
  let alpha : Nat → ℚ := fun l => compliance l * dt_sq_inv
  let cviol : Nat → ℚ := fun l => len l - rest l
  let denom : Nat → ℚ := fun l => wSum l + alpha l
  let safeDenom : Nat → ℚ := fun l => max (denom l) (1 / 100000000)
  let deltaLambda : Nat → ℚ := fun l => -(cviol l) / safeDenom l
  let safeLen : Nat → ℚ := fun l => max (len l) (1 / 100000000)
  let direction : Nat → V3 := fun l => delta l / safeLen l
  let correctionMag : Nat → ℚ := fun l => deltaLambda l * omega
  let correction : Nat → V3 := fun l => correctionMag l * direction l
  let corr1 : Nat → V3 := fun l => w1 l * correction l
  let corr2 : Nat → V3 := fun l => w2 l * correction l
  let s0 := if 0 < w1 0 then st.addPos (idx 0).1 (corr1 0) else st
  let s1 := if 0 < w2 0 then s0.addPos (idx 0).2 (-(corr2 0)) else s0
  let s2 := if 0 < w1 1 then s1.addPos (idx 1).1 (corr1 1) else s1
  let s3 := if 0 < w2 1 then s2.addPos (idx 1).2 (-(corr2 1)) else s2
  let s4 := if 0 < w1 2 then s3.addPos (idx 2).1 (corr1 2) else s3
  let s5 := if 0 < w2 2 then s4.addPos (idx 2).2 (-(corr2 2)) else s4
  let s6 := if 0 < w1 3 then s5.addPos (idx 3).1 (corr1 3) else s5
  if 0 < w2 3 then s6.addPos (idx 3).2 (-(corr2 3)) else s6

/-- Embeds `DistanceConstraint::solve` / `BendingConstraint::solve`. -/
def EdgeConstraint.solve (sq : ℚ → ℚ) (ec : EdgeConstraint) (st : PState)
    (omega dt : ℚ) : PState :=
  let dt_sq_inv := 1 / (dt * dt)
  batchLoop (fun s base => ec.solve_simd_4 sq s base dt_sq_inv omega)
    (fun s k => ec.solve_single sq s k dt_sq_inv omega) ec.batch_offsets st

/-- Embeds `TetherConstraint::solve` (its `_dt` is unused). -/
def TetherConstraint.solve (sq : ℚ → ℚ) (tc : TetherConstraint) (st : PState)
    (omega _dt : ℚ) : PState :=
  batchLoop (fun s base => TetherConstraint.solve_simd_4 sq tc s base omega)
    (fun s k => TetherConstraint.solve_single sq tc s k omega)
    tc.batch_offsets st

/-- Embeds `AreaConstraint` (colored 3-particle records). -/
structure AreaConstraint where
  indices : List (Nat × Nat × Nat)
  rest_areas : List ℚ
  batch_offsets : List Nat

/-- Embeds `AreaConstraint::solve_single`: the XPBD area kernel with its
four early-outs and three guarded stores (`sq` supplies the cross-product
length). -/
def AreaConstraint.solve_single (sq : ℚ → ℚ) (st : PState)
    (ind : Nat × Nat × Nat) (rest_area alpha omega : ℚ) : PState :=
  let i0 := ind.1
  let i1 := ind.2.1
  let i2 := ind.2.2
  let w0 := st.invMass i0
  let w1 := st.invMass i1
  let w2 := st.invMass i2
  let wSum := w0 + w1 + w2
  if wSum = 0 then st
  else
    let p0 := st.positions i0
    let p1 := st.positions i1
    let p2 := st.positions i2
    let u := p1 - p0
    let v := p2 - p0
    let cross := V3.cross u v
    let current_area := (1 / 2) * sq cross.normSq
    let cviol := current_area - rest_area
    if abs cviol < 1 / 1000000 then st
    else if current_area < 1 / 1000000000 then st
    else
      let n := cross / (2 * current_area)
      let grad0 := (1 / 2 : ℚ) * V3.cross (p2 - p1) n
      let grad1 := (1 / 2 : ℚ) * V3.cross (p0 - p2) n
      let grad2 := (1 / 2 : ℚ) * V3.cross (p1 - p0) n
      let denom := w0 * grad0.normSq + w1 * grad1.normSq + w2 * grad2.normSq
      if denom < 1 / 1000000000 then st
      else
        let deltaLambda := -cviol / (denom + alpha)
        let lambdaOmega := deltaLambda * omega
        let st1 := if 0 < w0 then st.addPos i0 ((lambdaOmega * w0) * grad0)
          else st
        let st2 := if 0 < w1 then st1.addPos i1 ((lambdaOmega * w1) * grad1)
          else st1
        if 0 < w2 then st2.addPos i2 ((lambdaOmega * w2) * grad2) else st2

/-- Embeds `AreaConstraint::solve` (the 4x-unrolled chunk calls
`solve_single` four times). -/
def AreaConstraint.solve (sq : ℚ → ℚ) (ac : AreaConstraint) (st : PState)
    (compliance omega dt : ℚ) : PState :=
  let alpha := compliance / (dt * dt)
  let single := fun (s : PState) (k : Nat) =>
    AreaConstraint.solve_single sq s (ac.indices.getD k (0, 0, 0))
      (ac.rest_areas.getD k 0) alpha omega
  batchLoop
    (fun s base => single (single (single (single s base) (base + 1))
      (base + 2)) (base + 3))
    single ac.batch_offsets st

/-- Embeds `SelfCollision::resolve_simd_4` (lane-wise, eight guarded
stores in source order). -/
def SelfCollision.resolve_simd_4 (sq : ℚ → ℚ) (pairs : List CollisionPair)
    (st : PState) (base : Nat) (stiffness thickness : ℚ) : PState :=
  let pr : Nat → CollisionPair := fun l => pairs.getD (base + l) ⟨0, 0⟩
  let wI : Nat → ℚ := fun l => st.invMass (pr l).i
  let wJ : Nat → ℚ := fun l => st.invMass (pr l).j
  let delta : Nat → V3 := fun l =>
    st.positions (pr l).i - st.positions (pr l).j
  let dist : Nat → ℚ := fun l => sq (delta l).normSq
  let overlap : Nat → ℚ := fun l => thickness - dist l
  let positiveOverlap : Nat → ℚ := fun l => max (overlap l) 0
  let safeDist : Nat → ℚ := fun l => max (dist l) (1 / 100000000)
  let normal : Nat → V3 := fun l => delta l / safeDist l
  let correctionMag : Nat → ℚ := fun l => positiveOverlap l * stiffness
  let wSum : Nat → ℚ := fun l => wI l + wJ l
  let safeWSum : Nat → ℚ := fun l => max (wSum l) (1 / 100000000)
  let ratioI : Nat → ℚ := fun l => wI l / safeWSum l
  let ratioJ : Nat → ℚ := fun l => wJ l / safeWSum l
  let corrI : Nat → V3 := fun l => (correctionMag l * ratioI l) * normal l
  let corrJ : Nat → V3 := fun l => (correctionMag l * ratioJ l) * normal l
  let s0 := if 0 < wI 0 then st.addPos (pr 0).i (corrI 0) else st
  let s1 := if 0 < wJ 0 then s0.addPos (pr 0).j (-(corrJ 0)) else s0
  let s2 := if 0 < wI 1 then s1.addPos (pr 1).i (corrI 1) else s1
  let s3 := if 0 < wJ 1 then s2.addPos (pr 1).j (-(corrJ 1)) else s2
  let s4 := if 0 < wI 2 then s3.addPos (pr 2).i (corrI 2) else s3
  let s5 := if 0 < wJ 2 then s4.addPos (pr 2).j (-(corrJ 2)) else s4
  let s6 := if 0 < wI 3 then s5.addPos (pr 3).i (corrI 3) else s5
  if 0 < wJ 3 then s6.addPos (pr 3).j (-(corrJ 3)) else s6

/-- Embeds `SelfCollision::resolve_batched`. -/
def SelfCollision.resolve_batched (sq : ℚ → ℚ) (pairs : List CollisionPair)
    (batch_offsets : List Nat) (stiffness thickness : ℚ) (st : PState) :
    PState :=
  batchLoop
    (fun s base => SelfCollision.resolve_simd_4 sq pairs s base stiffness
      thickness)
    (fun s k => SelfCollision.resolve_single sq pairs s k stiffness thickness)
    batch_offsets st

/-- Embeds `SelfCollision::solve`: detect pairs, and when any were found,
color them and resolve in batches. -/
def SelfCollision.solve (sq : ℚ → ℚ) (excl : TopologyExclusion)
    (queryFn : V3 → ℚ → List Nat) (particle_count : Nat)
    (thickness stiffness : ℚ) (maxPairs : Nat) (st : PState) : PState :=
  let pairs0 := SelfCollision.detect_pairs excl queryFn st.positions st.count
    thickness maxPairs
  if pairs0.isEmpty then st
  else
    let cp := colorPairs pairs0 particle_count
    SelfCollision.resolve_batched sq cp.1 cp.2 stiffness thickness st

/-- Embeds `MouseConstraint::solve`. -/
def MouseConstraint.solve (grabbed : Option Nat) (target : V3)
    (compliance : ℚ) (st : PState) (dt : ℚ) : PState :=
  match grabbed with
  | none => st
  | some idx =>
    if st.count ≤ idx then st
    else
      let w := st.invMass idx
      if w = 0 then st
      else
        let alpha := compliance / (dt * dt)
        let difference := target - st.positions idx
        let multiplier := w / (w + alpha)
        st.addPos idx (multiplier * difference)

/-- Embeds `Integrator::integrate_single`. -/
def Integrator.integrate_single (gravity : V3) (damping : ℚ)
    (forces : Nat → V3) (dt_sq : ℚ) (st : PState) (i : Nat) : PState :=
  if st.invMass i = 0 then st
  else
    let pos := st.positions i
    let prev := st.prevPositions i
    let acceleration := gravity + st.invMass i * forces i
    let velocity_term := damping * (pos - prev)
    let acceleration_term := dt_sq * acceleration
    let next_pos := pos + velocity_term + acceleration_term
    (st.setPrev i pos).setPos i next_pos

/-- Embeds `Integrator::integrate`. -/
def Integrator.integrate (gravity : V3) (damping : ℚ) (forces : Nat → V3)
    (dt : ℚ) (st : PState) : PState :=
  (List.range st.count).foldl
    (Integrator.integrate_single gravity damping forces (dt * dt)) st

/-- Embeds one iteration of the particle loop of the serial
`perform_narrow_phase`: with cached candidates, select `narrowBest`, apply
the airbag velocity clamp to the previous position, and push one contact. -/
def narrowPassStep (sq : ℚ → ℚ) (triangles : Nat → Triangle)
    (indices : Nat → Nat) (normals : Nat → V3) (res : BroadResolver)
    (contact_thickness dt : ℚ) (acc : PState × List Contact) (i : Nat) :
    PState × List Contact :=
  let count := res.candidate_counts i
  if count = 0 then acc
  else
    let offset := res.candidate_offsets i
    let pos := acc.1.positions i
    let prev := acc.1.prevPositions i
    let cands := (res.candidate_indices.drop offset).take count
    match narrowBest sq triangles indices normals cands pos prev with
    | none => acc
    | some (surface_point, normal, _) =>
      let max_v := contact_thickness * (9 / 10) / dt
      let velocity := (pos - prev) / dt
      let v_normal := V3.dot velocity normal
      let st2 := if v_normal < -max_v then
          let v_tangent := velocity - v_normal * normal
          let v_clamped := (-max_v) * normal
          let new_velocity := v_tangent + v_clamped
          acc.1.setPrev i (pos - dt * new_velocity)
        else acc.1
      (st2, acc.2 ++ [⟨i, normal, surface_point⟩])

/-- Embeds the serial `perform_narrow_phase` in full. -/
def perform_narrow_phase (sq : ℚ → ℚ) (triangles : Nat → Triangle)
    (indices : Nat → Nat) (normals : Nat → V3) (res : BroadResolver)
    (contact_thickness dt : ℚ) (st : PState) : PState × List Contact :=
  (List.range st.count).foldl
    (narrowPassStep sq triangles indices normals res contact_thickness dt)
    (st, [])

/-- The configuration values read by `Simulation::step`. -/
structure SimConfig where
  substeps : Nat
  solver_iterations : Nat
  spectral_radius : ℚ
  area_compliance : ℚ
  gravity : V3
  damping : ℚ
  contact_thickness : ℚ
  self_collision_enabled : Bool
  self_collision_frequency : Nat
  self_collision_thickness : ℚ
  self_collision_stiffness : ℚ
  self_collision_max_pairs : Nat

/-- Embeds one substep of `Simulation::step`: aerodynamic forces
(`aeroFn`, which only reads the state), integration, mouse constraint,
narrow phase, the solver loop (distance, bending, tether, area, contact
resolution), self-collision at the configured frequency, and the wrapping
`u32` substep counter. -/
def Simulation.substep (sq : ℚ → ℚ) (cfg : SimConfig)
    (triangles : Nat → Triangle) (tindices : Nat → Nat)
    (tnormals : Nat → V3) (rthickness rsfric rdfric rstiff : ℚ)
    (dc bc : EdgeConstraint) (tc : TetherConstraint) (arc : AreaConstraint)
    (excl : TopologyExclusion) (queryFn : (Nat → V3) → V3 → ℚ → List Nat)
    (mouse : Option Nat) (mtarget : V3) (mcompliance : ℚ)
    (aeroFn : PState → Nat → V3) (br : BroadResolver) (sdt : ℚ)
    (acc : PState × Nat) : PState × Nat :=
  let s0 := acc.1
  let forces := aeroFn s0
  let s1 := Integrator.integrate cfg.gravity cfg.damping forces sdt s0
  let s2 := MouseConstraint.solve mouse mtarget mcompliance s1 sdt
  let nr := perform_narrow_phase sq triangles tindices tnormals br
    cfg.contact_thickness sdt s2
  let fns : SolverFns :=
    ⟨fun s om t => EdgeConstraint.solve sq dc s om t,
      fun s om t => EdgeConstraint.solve sq bc s om t,
      fun s om t => TetherConstraint.solve sq tc s om t,
      fun s acomp om t => AreaConstraint.solve sq arc s acomp om t,
      fun s t => CollisionResolver.resolve_contacts sq
        ⟨rthickness, rsfric, rdfric, rstiff, nr.2⟩ t s⟩
  let s4 := Solver.solve fns cfg.solver_iterations cfg.spectral_radius
    cfg.area_compliance sdt nr.1
  let s5 := if cfg.self_collision_enabled ∧
      (cfg.self_collision_frequency = 0 ∨
        acc.2 % cfg.self_collision_frequency = 0) then
    SelfCollision.solve sq excl (queryFn s4.positions) s4.count
      cfg.self_collision_thickness cfg.self_collision_stiffness
      cfg.self_collision_max_pairs s4
  else s4
  (s5, (acc.2 + 1) % 2 ^ 32)

/-- Embeds `Simulation::step`: broad phase once, then per substep —
aerodynamic forces (`aeroFn`, which only reads the state), integration,
mouse constraint, narrow phase, the solver loop (distance, bending, tether,
area, contact resolution), self-collision at the configured frequency, and
the wrapping `u32` substep counter.  The final vertex-normal recomputation
touches only the normal buffer, not positions, and is omitted. -/
def Simulation.step (sq : ℚ → ℚ) (cfg : SimConfig)
    (grid : StaticSpatialHash) (capacity : Nat) (r0 : BroadResolver)
    (triangles : Nat → Triangle) (tindices : Nat → Nat)
    (tnormals : Nat → V3) (rthickness rsfric rdfric rstiff : ℚ)
    (dc bc : EdgeConstraint) (tc : TetherConstraint) (arc : AreaConstraint)
    (excl : TopologyExclusion) (queryFn : (Nat → V3) → V3 → ℚ → List Nat)
    (mouse : Option Nat) (mtarget : V3) (mcompliance : ℚ)
    (aeroFn : PState → Nat → V3) (counter0 : Nat) (dt : ℚ) (st : PState) :
    PState :=
  let sdt := dt / (cfg.substeps : ℚ)
  let br := perform_broad_phase sq grid st capacity r0
  ((List.range cfg.substeps).foldl (fun acc _ =>
    Simulation.substep sq cfg triangles tindices tnormals rthickness rsfric
      rdfric rstiff dc bc tc arc excl queryFn mouse mtarget mcompliance
      aeroFn br sdt acc) (st, counter0)).1

/-- The pinning invariant relative to a base state: particle `i`'s position
and previous position agree with the base, and masses and count are those
of the base. -/
def PinEq (s t : PState) (i : Nat) : Prop :=
  t.positions i = s.positions i ∧ t.prevPositions i = s.prevPositions i ∧
    t.invMass = s.invMass ∧ t.count = s.count

theorem pinEq_refl (s : PState) (i : Nat) : PinEq s s i :=
  ⟨rfl, rfl, rfl, rfl⟩

theorem pinEq_trans {s t u : PState} {i : Nat} (h1 : PinEq s t i)
    (h2 : PinEq t u i) : PinEq s u i :=
  ⟨h2.1.trans h1.1, h2.2.1.trans h1.2.1, h2.2.2.1.trans h1.2.2.1,
    h2.2.2.2.trans h1.2.2.2⟩

theorem pinEq_invMass {s t : PState} {i : Nat} (h : PinEq s t i) (x : Nat) :
    t.invMass x = s.invMass x := by
  rw [h.2.2.1]

theorem pinEq_store {s t : PState} {i : Nat} (h : PinEq s t i)
    (c : Prop) [Decidable c] (a : Nat) (v : V3) (hc : a = i → ¬ c) :
    PinEq s (if c then t.addPos a v else t) i := by
  by_cases hcc : c
  · rw [if_pos hcc]
    refine ⟨?_, h.2.1, h.2.2.1, h.2.2.2⟩
    rw [PState.addPos_positions, if_neg (fun hia => hc hia.symm hcc)]
    exact h.1
  · rw [if_neg hcc]
    exact h

theorem pinEq_ite {s : PState} {i : Nat} (c : Prop) [Decidable c]
    {t u : PState} (ht : PinEq s t i) (hu : PinEq s u i) :
    PinEq s (if c then t else u) i := by
  by_cases hcc : c
  · rw [if_pos hcc]
    exact ht
  · rw [if_neg hcc]
    exact hu

theorem pinEq_ite_h {s : PState} {i : Nat} (c : Prop) [Decidable c]
    {t u : PState} (ht : c → PinEq s t i) (hu : ¬ c → PinEq s u i) :
    PinEq s (if c then t else u) i := by
  by_cases hcc : c
  · rw [if_pos hcc]
    exact ht hcc
  · rw [if_neg hcc]
    exact hu hcc

theorem pinEq_foldl {α : Type} (f : PState → α → PState) (l : List α)
    (i : Nat)
    (hstep : ∀ (s : PState) (a : α), a ∈ l → s.invMass i = 0 →
      PinEq s (f s a) i) :
    ∀ s : PState, s.invMass i = 0 → PinEq s (l.foldl f s) i := by
  induction l with
  | nil => exact fun s _ => pinEq_refl s i
  | cons x xs ih =>
    intro s h
    rw [List.foldl_cons]
    have h1 := hstep s x (List.mem_cons_self x xs) h
    have h2 : (f s x).invMass i = 0 := by
      rw [pinEq_invMass h1]
      exact h
    exact pinEq_trans h1
      (ih (fun s' a ha => hstep s' a (List.mem_cons_of_mem x ha)) (f s x) h2)

theorem tether_single_pinEq (sq : ℚ → ℚ) (tc : TetherConstraint) (k : Nat)
    (omega : ℚ) (s : PState) (i : Nat) (h0 : s.invMass i = 0) :
    PinEq s (TetherConstraint.solve_single sq tc s k omega) i := by
  unfold TetherConstraint.solve_single
  dsimp only
  apply pinEq_ite _ (pinEq_refl s i)
  apply pinEq_ite _ (pinEq_refl s i)
  apply pinEq_ite _ (pinEq_refl s i)
  refine pinEq_store (pinEq_store (pinEq_refl s i) _ _ _ ?_) _ _ _ ?_ <;>
    (intro h hlt; rw [h, h0] at hlt; exact lt_irrefl 0 hlt)

theorem PState.setPos_positions (st : PState) (a : Nat) (v : V3) (k : Nat) :
    (st.setPos a v).positions k = if k = a then v else st.positions k := rfl

theorem PState.setPrev_prevPositions (st : PState) (a : Nat) (v : V3)
    (k : Nat) :
    (st.setPrev a v).prevPositions k =
      if k = a then v else st.prevPositions k := rfl

theorem pinEq_addPos_ne {s t : PState} {i : Nat} (h : PinEq s t i) (a : Nat)
    (v : V3) (ha : a ≠ i) : PinEq s (t.addPos a v) i := by
  refine ⟨?_, h.2.1, h.2.2.1, h.2.2.2⟩
  rw [PState.addPos_positions, if_neg (fun hia => ha hia.symm)]
  exact h.1

theorem pinEq_setPos_ne {s t : PState} {i : Nat} (h : PinEq s t i) (a : Nat)
    (v : V3) (ha : a ≠ i) : PinEq s (t.setPos a v) i := by
  refine ⟨?_, h.2.1, h.2.2.1, h.2.2.2⟩
  rw [PState.setPos_positions, if_neg (fun hia => ha hia.symm)]
  exact h.1

theorem pinEq_setPrev_ne {s t : PState} {i : Nat} (h : PinEq s t i) (a : Nat)
    (v : V3) (ha : a ≠ i) : PinEq s (t.setPrev a v) i := by
  refine ⟨h.1, ?_, h.2.2.1, h.2.2.2⟩
  rw [PState.setPrev_prevPositions, if_neg (fun hia => ha hia.symm)]
  exact h.2.1

theorem tether_simd_pinEq (sq : ℚ → ℚ) (tc : TetherConstraint) (base : Nat)
    (omega : ℚ) (s : PState) (i : Nat) (h0 : s.invMass i = 0) :
    PinEq s (TetherConstraint.solve_simd_4 sq tc s base omega) i := by
  unfold TetherConstraint.solve_simd_4
  dsimp only
  refine pinEq_store (pinEq_store (pinEq_store (pinEq_store (pinEq_store
    (pinEq_store (pinEq_store (pinEq_store (pinEq_refl s i) _ _ _ ?_)
      _ _ _ ?_) _ _ _ ?_) _ _ _ ?_) _ _ _ ?_) _ _ _ ?_) _ _ _ ?_)
    _ _ _ ?_ <;>
    (intro h hlt; rw [h, h0] at hlt; exact lt_irrefl 0 hlt)

theorem edge_single_pinEq (sq : ℚ → ℚ) (ec : EdgeConstraint) (k : Nat)
    (dsi omega : ℚ) (s : PState) (i : Nat) (h0 : s.invMass i = 0) :
    PinEq s (ec.solve_single sq s k dsi omega) i := by
  unfold EdgeConstraint.solve_single
  dsimp only
  apply pinEq_ite _ (pinEq_refl s i)
  apply pinEq_ite _ (pinEq_refl s i)
  refine pinEq_store (pinEq_store (pinEq_refl s i) _ _ _ ?_) _ _ _ ?_ <;>
    (intro h hlt; rw [h, h0] at hlt; exact lt_irrefl 0 hlt)

theorem edge_simd_pinEq (sq : ℚ → ℚ) (ec : EdgeConstraint) (base : Nat)
    (dsi omega : ℚ) (s : PState) (i : Nat) (h0 : s.invMass i = 0) :
    PinEq s (ec.solve_simd_4 sq s base dsi omega) i := by
  unfold EdgeConstraint.solve_simd_4
  dsimp only
  refine pinEq_store (pinEq_store (pinEq_store (pinEq_store (pinEq_store
    (pinEq_store (pinEq_store (pinEq_store (pinEq_refl s i) _ _ _ ?_)
      _ _ _ ?_) _ _ _ ?_) _ _ _ ?_) _ _ _ ?_) _ _ _ ?_) _ _ _ ?_)
    _ _ _ ?_ <;>
    (intro h hlt; rw [h, h0] at hlt; exact lt_irrefl 0 hlt)

theorem area_single_pinEq (sq : ℚ → ℚ) (ind : Nat × Nat × Nat)
    (rest alpha omega : ℚ) (s : PState) (i : Nat) (h0 : s.invMass i = 0) :
    PinEq s (AreaConstraint.solve_single sq s ind rest alpha omega) i := by
  unfold AreaConstraint.solve_single
  dsimp only
  apply pinEq_ite _ (pinEq_refl s i)
  apply pinEq_ite _ (pinEq_refl s i)
  apply pinEq_ite _ (pinEq_refl s i)
  apply pinEq_ite _ (pinEq_refl s i)
  refine pinEq_store (pinEq_store (pinEq_store (pinEq_refl s i) _ _ _ ?_)
    _ _ _ ?_) _ _ _ ?_ <;>
    (intro h hlt; rw [h, h0] at hlt; exact lt_irrefl 0 hlt)

theorem selfres_single_pinEq (sq : ℚ → ℚ) (pairs : List CollisionPair)
    (k : Nat) (stiffness thickness : ℚ) (s : PState) (i : Nat)
    (h0 : s.invMass i = 0) :
    PinEq s (SelfCollision.resolve_single sq pairs s k stiffness thickness)
      i := by
  unfold SelfCollision.resolve_single
  dsimp only
  apply pinEq_ite _ (pinEq_refl s i)
  apply pinEq_ite _ (pinEq_refl s i)
  refine pinEq_ite _ ?_ (pinEq_refl s i)
  refine pinEq_store (pinEq_store (pinEq_refl s i) _ _ _ ?_) _ _ _ ?_ <;>
    (intro h hlt; rw [h, h0] at hlt; exact lt_irrefl 0 hlt)

theorem selfres_simd_pinEq (sq : ℚ → ℚ) (pairs : List CollisionPair)
    (base : Nat) (stiffness thickness : ℚ) (s : PState) (i : Nat)
    (h0 : s.invMass i = 0) :
    PinEq s (SelfCollision.resolve_simd_4 sq pairs s base stiffness
      thickness) i := by
  unfold SelfCollision.resolve_simd_4
  dsimp only
  refine pinEq_store (pinEq_store (pinEq_store (pinEq_store (pinEq_store
    (pinEq_store (pinEq_store (pinEq_store (pinEq_refl s i) _ _ _ ?_)
      _ _ _ ?_) _ _ _ ?_) _ _ _ ?_) _ _ _ ?_) _ _ _ ?_) _ _ _ ?_)
    _ _ _ ?_ <;>
    (intro h hlt; rw [h, h0] at hlt; exact lt_irrefl 0 hlt)

theorem batchLoop_pinEq (simd4 single : PState → Nat → PState)
    (offs : List Nat) (i : Nat)
    (hs : ∀ (s : PState) (base : Nat), s.invMass i = 0 →
      PinEq s (simd4 s base) i)
    (hg : ∀ (s : PState) (k : Nat), s.invMass i = 0 →
      PinEq s (single s k) i) :
    ∀ s : PState, s.invMass i = 0 → PinEq s (batchLoop simd4 single offs s) i := by
  intro s h
  unfold batchLoop
  refine pinEq_foldl _ _ i (fun s' b _ h' => ?_) s h
  dsimp only
  have hA := pinEq_foldl
    (fun s2 chunk => simd4 s2 (offs.getD b 0 + chunk * 4))
    (List.range ((offs.getD (b + 1) 0 - offs.getD b 0) / 4)) i
    (fun s2 a _ h2 => hs s2 _ h2) s' h'
  have hA0 : ((List.range ((offs.getD (b + 1) 0 - offs.getD b 0) / 4)).foldl
      (fun s2 chunk => simd4 s2 (offs.getD b 0 + chunk * 4)) s').invMass i =
      0 := by
    rw [pinEq_invMass hA]
    exact h'
  exact pinEq_trans hA
    (pinEq_foldl
      (fun s2 r => single s2 (offs.getD b 0 +
        (offs.getD (b + 1) 0 - offs.getD b 0) / 4 * 4 + r))
      (List.range ((offs.getD (b + 1) 0 - offs.getD b 0) % 4)) i
      (fun s2 a _ h2 => hg s2 _ h2) _ hA0)

theorem edge_solve_pinEq (sq : ℚ → ℚ) (ec : EdgeConstraint) (omega dt : ℚ)
    (s : PState) (i : Nat) (h0 : s.invMass i = 0) :
    PinEq s (ec.solve sq s omega dt) i := by
  unfold EdgeConstraint.solve
  exact batchLoop_pinEq _ _ _ i
    (fun s' b h' => edge_simd_pinEq sq ec b _ omega s' i h')
    (fun s' k h' => edge_single_pinEq sq ec k _ omega s' i h') s h0

theorem tether_solve_pinEq (sq : ℚ → ℚ) (tc : TetherConstraint)
    (omega dt : ℚ) (s : PState) (i : Nat) (h0 : s.invMass i = 0) :
    PinEq s (tc.solve sq s omega dt) i := by
  unfold TetherConstraint.solve
  exact batchLoop_pinEq _ _ _ i
    (fun s' b h' => tether_simd_pinEq sq tc b omega s' i h')
    (fun s' k h' => tether_single_pinEq sq tc k omega s' i h') s h0

theorem area_solve_pinEq (sq : ℚ → ℚ) (ac : AreaConstraint)
    (compliance omega dt : ℚ) (s : PState) (i : Nat)
    (h0 : s.invMass i = 0) :
    PinEq s (ac.solve sq s compliance omega dt) i := by
  unfold AreaConstraint.solve
  dsimp only
  refine batchLoop_pinEq _ _ _ i (fun s' b h' => ?_)
    (fun s' k h' => area_single_pinEq sq _ _ _ omega s' i h') s h0
  have h1 := area_single_pinEq sq (ac.indices.getD b (0, 0, 0))
    (ac.rest_areas.getD b 0) (compliance / (dt * dt)) omega s' i h'
  have m1 := pinEq_invMass h1 i
  rw [h'] at m1
  have h2 := area_single_pinEq sq (ac.indices.getD (b + 1) (0, 0, 0))
    (ac.rest_areas.getD (b + 1) 0) (compliance / (dt * dt)) omega _ i m1
  have m2 := pinEq_invMass h2 i
  rw [m1] at m2
  have h3 := area_single_pinEq sq (ac.indices.getD (b + 2) (0, 0, 0))
    (ac.rest_areas.getD (b + 2) 0) (compliance / (dt * dt)) omega _ i m2
  have m3 := pinEq_invMass h3 i
  rw [m2] at m3
  have h4 := area_single_pinEq sq (ac.indices.getD (b + 3) (0, 0, 0))
    (ac.rest_areas.getD (b + 3) 0) (compliance / (dt * dt)) omega _ i m3
  exact pinEq_trans (pinEq_trans (pinEq_trans h1 h2) h3) h4

theorem selfres_batched_pinEq (sq : ℚ → ℚ) (pairs : List CollisionPair)
    (offs : List Nat) (stiffness thickness : ℚ) (s : PState) (i : Nat)
    (h0 : s.invMass i = 0) :
    PinEq s (SelfCollision.resolve_batched sq pairs offs stiffness thickness
      s) i := by
  unfold SelfCollision.resolve_batched
  exact batchLoop_pinEq _ _ _ i
    (fun s' b h' => selfres_simd_pinEq sq pairs b stiffness thickness s' i h')
    (fun s' k h' => selfres_single_pinEq sq pairs k stiffness thickness s' i
      h') s h0

theorem selfsolve_pinEq (sq : ℚ → ℚ) (excl : TopologyExclusion)
    (queryFn : V3 → ℚ → List Nat) (pc : Nat) (thickness stiffness : ℚ)
    (maxPairs : Nat) (s : PState) (i : Nat) (h0 : s.invMass i = 0) :
    PinEq s (SelfCollision.solve sq excl queryFn pc thickness stiffness
      maxPairs s) i := by
  unfold SelfCollision.solve
  dsimp only
  apply pinEq_ite _ (pinEq_refl s i)
  exact selfres_batched_pinEq sq _ _ stiffness thickness s i h0

theorem integrate_single_pinEq (gravity : V3) (damping : ℚ)
    (forces : Nat → V3) (dt_sq : ℚ) (j : Nat) (s : PState) (i : Nat)
    (h0 : s.invMass i = 0) :
    PinEq s (Integrator.integrate_single gravity damping forces dt_sq s j)
      i := by
  unfold Integrator.integrate_single
  by_cases hj : s.invMass j = 0
  · rw [if_pos hj]
    exact pinEq_refl s i
  · rw [if_neg hj]
    dsimp only
    have hji : j ≠ i := fun h => hj (h ▸ h0)
    exact pinEq_setPos_ne (pinEq_setPrev_ne (pinEq_refl s i) j _ hji) j _ hji

theorem integrate_pinEq (gravity : V3) (damping : ℚ) (forces : Nat → V3)
    (dt : ℚ) (s : PState) (i : Nat) (h0 : s.invMass i = 0) :
    PinEq s (Integrator.integrate gravity damping forces dt s) i := by
  unfold Integrator.integrate
  exact pinEq_foldl _ _ i
    (fun s' j _ h' => integrate_single_pinEq gravity damping forces _ j s' i
      h') s h0

theorem mouse_pinEq (grabbed : Option Nat) (target : V3) (compliance : ℚ)
    (dt : ℚ) (s : PState) (i : Nat) (h0 : s.invMass i = 0) :
    PinEq s (MouseConstraint.solve grabbed target compliance s dt) i := by
  unfold MouseConstraint.solve
  cases grabbed with
  | none => exact pinEq_refl s i
  | some idx =>
    dsimp only
    apply pinEq_ite _ (pinEq_refl s i)
    refine pinEq_ite_h _ (fun _ => pinEq_refl s i) (fun hw => ?_)
    have hidx : idx ≠ i := fun h => hw (h ▸ h0)
    exact pinEq_addPos_ne (pinEq_refl s i) idx _ hidx

theorem resolveContact_pinEq (sq : ℚ → ℚ) (cfgR : CollisionResolverCfg)
    (s : PState) (c : Contact) (i : Nat) (hne : c.particle_index ≠ i) :
    PinEq s (resolveContact sq cfgR s c) i := by
  unfold resolveContact
  dsimp only
  refine pinEq_ite _ ?_ (pinEq_refl s i)
  refine pinEq_ite _ ?_ ?_
  · exact pinEq_addPos_ne
      (pinEq_ite _ (pinEq_ite _ (pinEq_setPrev_ne (pinEq_refl s i) _ _ hne)
        (pinEq_refl s i)) (pinEq_refl s i)) _ _ hne
  · exact pinEq_setPrev_ne (pinEq_addPos_ne
      (pinEq_ite _ (pinEq_ite _ (pinEq_setPrev_ne (pinEq_refl s i) _ _ hne)
        (pinEq_refl s i)) (pinEq_refl s i)) _ _ hne) _ _ hne

theorem resolve_contacts_pinEq (sq : ℚ → ℚ) (cfgR : CollisionResolverCfg)
    (dtq : ℚ) (i : Nat)
    (hc : ∀ c ∈ cfgR.contacts, c.particle_index ≠ i) :
    ∀ s : PState, s.invMass i = 0 →
      PinEq s (CollisionResolver.resolve_contacts sq cfgR dtq s) i := by
  intro s h
  unfold CollisionResolver.resolve_contacts
  exact pinEq_foldl _ _ i
    (fun s' c hcm _ => resolveContact_pinEq sq cfgR s' c i (hc c hcm)) s h

theorem broadStep_counts_ne (sq : ℚ → ℚ) (grid : StaticSpatialHash)
    (st : PState) (capacity : Nat) (bs : BroadResolver) (k x : Nat)
    (hx : x ≠ k) :
    (broadStep sq grid st capacity bs k).candidate_counts x =
      bs.candidate_counts x := by
  unfold broadStep
  dsimp only
  split_ifs <;> simp [natUpd, hx]

theorem broadStep_counts_self (sq : ℚ → ℚ) (grid : StaticSpatialHash)
    (st : PState) (capacity : Nat) (bs : BroadResolver) (j : Nat)
    (h0 : st.invMass j = 0) :
    (broadStep sq grid st capacity bs j).candidate_counts j = 0 := by
  unfold broadStep
  rw [if_pos h0]
  simp [natUpd]

theorem broad_fold_counts (sq : ℚ → ℚ) (grid : StaticSpatialHash)
    (st : PState) (capacity : Nat) (j : Nat) (h0 : st.invMass j = 0) :
    ∀ (l : List Nat) (bs : BroadResolver),
      (l.foldl (broadStep sq grid st capacity) bs).candidate_counts j =
        if j ∈ l then 0 else bs.candidate_counts j := by
  intro l
  induction l with
  | nil => intro bs; simp
  | cons k rest ih =>
    intro bs
    rw [List.foldl_cons, ih]
    by_cases hk : j ∈ rest
    · rw [if_pos hk, if_pos (List.mem_cons_of_mem k hk)]
    · rw [if_neg hk]
      by_cases hjk : j = k
      · subst hjk
        rw [if_pos (List.mem_cons_self j rest),
          broadStep_counts_self sq grid st capacity bs j h0]
      · rw [if_neg (by simp [hjk, hk]),
          broadStep_counts_ne sq grid st capacity bs k j hjk]

theorem broad_counts_pinned (sq : ℚ → ℚ) (grid : StaticSpatialHash)
    (st : PState) (capacity : Nat) (r0 : BroadResolver) (j : Nat)
    (h0 : st.invMass j = 0) (hj : j < st.count) :
    (perform_broad_phase sq grid st capacity r0).candidate_counts j = 0 := by
  unfold perform_broad_phase
  rw [broad_fold_counts sq grid st capacity j h0,
    if_pos (List.mem_range.mpr hj)]

theorem narrow_fold_pin (sq : ℚ → ℚ) (tris : Nat → Triangle)
    (tind : Nat → Nat) (tnorm : Nat → V3) (res : BroadResolver) (th dtq : ℚ)
    (s0 : PState) (i : Nat) (h0 : s0.invMass i = 0) :
    ∀ (l : List Nat) (acc : PState × List Contact),
      (∀ j ∈ l, res.candidate_counts j ≠ 0 → s0.invMass j ≠ 0) →
      PinEq s0 acc.1 i →
      (∀ c ∈ acc.2, c.particle_index ≠ i) →
      PinEq s0
        ((l.foldl (narrowPassStep sq tris tind tnorm res th dtq) acc)).1 i ∧
      ∀ c ∈ (l.foldl (narrowPassStep sq tris tind tnorm res th dtq) acc).2,
        c.particle_index ≠ i := by
  intro l
  induction l with
  | nil => exact fun acc _ hacc hc => ⟨hacc, hc⟩
  | cons j rest ih =>
    intro acc hl hacc hc
    rw [List.foldl_cons]
    have hstep : PinEq s0
        (narrowPassStep sq tris tind tnorm res th dtq acc j).1 i ∧
        ∀ c ∈ (narrowPassStep sq tris tind tnorm res th dtq acc j).2,
          c.particle_index ≠ i := by
      unfold narrowPassStep
      dsimp only
      by_cases hcnt : res.candidate_counts j = 0
      · rw [if_pos hcnt]
        exact ⟨hacc, hc⟩
      · rw [if_neg hcnt]
        have hji : j ≠ i :=
          fun h => hl j (List.mem_cons_self j rest) hcnt (h ▸ h0)
        split
        · exact ⟨hacc, hc⟩
        · refine ⟨?_, ?_⟩
          · exact pinEq_ite _ (pinEq_setPrev_ne hacc j _ hji) hacc
          · intro c hcm
            rw [List.mem_append] at hcm
            rcases hcm with h | h
            · exact hc c h
            · rw [List.mem_singleton] at h
              subst h
              exact hji
    exact ih _ (fun j' hj' => hl j' (List.mem_cons_of_mem j hj'))
      hstep.1 hstep.2

theorem solver_solve_pinEq (fns : SolverFns) (iterations : Nat)
    (rho ac dtq : ℚ) (i : Nat)
    (hd : ∀ (s : PState) (om t : ℚ), s.invMass i = 0 →
      PinEq s (fns.distance s om t) i)
    (hb : ∀ (s : PState) (om t : ℚ), s.invMass i = 0 →
      PinEq s (fns.bending s om t) i)
    (hh : ∀ (s : PState) (om t : ℚ), s.invMass i = 0 →
      PinEq s (fns.tether s om t) i)
    (ha : ∀ (s : PState) (acp om t : ℚ), s.invMass i = 0 →
      PinEq s (fns.area s acp om t) i)
    (hr : ∀ (s : PState) (t : ℚ), s.invMass i = 0 →
      PinEq s (fns.resolveContacts s t) i) :
    ∀ st : PState, st.invMass i = 0 →
      PinEq st (Solver.solve fns iterations rho ac dtq st) i := by
  intro st h
  unfold Solver.solve
  suffices H : ∀ (l : List Nat) (acc : ℚ × PState), PinEq st acc.2 i →
      PinEq st ((l.foldl (solverStep fns rho ac dtq) acc)).2 i by
    exact H _ (1, st) (pinEq_refl st i)
  intro l
  induction l with
  | nil => exact fun acc h' => h'
  | cons x xs ih =>
    intro acc hacc
    rw [List.foldl_cons]
    apply ih
    have hpair : PinEq st (solverStep fns rho ac dtq acc x).2 i := by
      rw [solverStep_snd]
      have m0 : acc.2.invMass i = 0 := by
        rw [pinEq_invMass hacc]
        exact h
      have h1 := hd acc.2 (omegaNext rho acc.1 x) dtq m0
      have m1 : (fns.distance acc.2 (omegaNext rho acc.1 x) dtq).invMass i =
          0 := by
        rw [pinEq_invMass h1]
        exact m0
      have h2 := hb _ (omegaNext rho acc.1 x) dtq m1
      have m2 := pinEq_invMass h2 i ▸ m1
      have h3 := hh _ (omegaNext rho acc.1 x) dtq m2
      have m3 := pinEq_invMass h3 i ▸ m2
      have h4 := ha _ ac (omegaNext rho acc.1 x) dtq m3
      have m4 := pinEq_invMass h4 i ▸ m3
      have h5 := hr _ dtq m4
      exact pinEq_trans hacc (pinEq_trans h1 (pinEq_trans h2
        (pinEq_trans h3 (pinEq_trans h4 h5))))
    exact hpair

theorem substep_pinEq (sq : ℚ → ℚ) (cfg : SimConfig)
    (triangles : Nat → Triangle) (tindices : Nat → Nat) (tnormals : Nat → V3)
    (rth rsf rdf rst : ℚ) (dc bc : EdgeConstraint) (tc : TetherConstraint)
    (arc : AreaConstraint) (excl : TopologyExclusion)
    (queryFn : (Nat → V3) → V3 → ℚ → List Nat) (mouse : Option Nat)
    (mtarget : V3) (mcompliance : ℚ) (aeroFn : PState → Nat → V3)
    (br : BroadResolver) (sdt : ℚ) (st0 : PState) (i : Nat)
    (h0 : st0.invMass i = 0)
    (hbr : ∀ j, st0.invMass j = 0 → j < st0.count →
      br.candidate_counts j = 0) :
    ∀ acc : PState × Nat, PinEq st0 acc.1 i →
      PinEq st0 (Simulation.substep sq cfg triangles tindices tnormals rth
        rsf rdf rst dc bc tc arc excl queryFn mouse mtarget mcompliance
        aeroFn br sdt acc).1 i := by
  intro acc hacc
  unfold Simulation.substep
  dsimp only
  have m0 : acc.1.invMass i = 0 := by
    rw [pinEq_invMass hacc]
    exact h0
  have h1 := integrate_pinEq cfg.gravity cfg.damping (aeroFn acc.1) sdt
    acc.1 i m0
  have m1 : (Integrator.integrate cfg.gravity cfg.damping (aeroFn acc.1) sdt
      acc.1).invMass i = 0 := by
    rw [pinEq_invMass h1]
    exact m0
  have h2 := mouse_pinEq mouse mtarget mcompliance sdt _ i m1
  have hs2 : PinEq st0 (MouseConstraint.solve mouse mtarget mcompliance
      (Integrator.integrate cfg.gravity cfg.damping (aeroFn acc.1) sdt acc.1)
      sdt) i :=
    pinEq_trans hacc (pinEq_trans h1 h2)
  have hres : ∀ j ∈ List.range (MouseConstraint.solve mouse mtarget
      mcompliance (Integrator.integrate cfg.gravity cfg.damping
        (aeroFn acc.1) sdt acc.1) sdt).count,
      br.candidate_counts j ≠ 0 →
      st0.invMass j ≠ 0 := by
    intro j hj hcnt hjz
    apply hcnt
    apply hbr j hjz
    have := List.mem_range.mp hj
    rw [hs2.2.2.2] at this
    exact this
  have hnarrow := narrow_fold_pin sq triangles tindices tnormals br
    cfg.contact_thickness sdt st0 i h0
    (List.range (MouseConstraint.solve mouse mtarget mcompliance
      (Integrator.integrate cfg.gravity cfg.damping (aeroFn acc.1) sdt acc.1)
      sdt).count)
    (MouseConstraint.solve mouse mtarget mcompliance
      (Integrator.integrate cfg.gravity cfg.damping (aeroFn acc.1) sdt acc.1)
      sdt, []) hres hs2 (by simp)
  rw [show ∀ x : PState, (List.range x.count).foldl
    (narrowPassStep sq triangles tindices tnormals br cfg.contact_thickness
      sdt) (x, []) = perform_narrow_phase sq triangles tindices tnormals br
      cfg.contact_thickness sdt x from fun x => rfl] at hnarrow
  have hsolve := solver_solve_pinEq
    ⟨fun s om t => EdgeConstraint.solve sq dc s om t,
      fun s om t => EdgeConstraint.solve sq bc s om t,
      fun s om t => TetherConstraint.solve sq tc s om t,
      fun s acomp om t => AreaConstraint.solve sq arc s acomp om t,
      fun s t => CollisionResolver.resolve_contacts sq
        ⟨rth, rsf, rdf, rst, (perform_narrow_phase sq triangles tindices
          tnormals br cfg.contact_thickness sdt (MouseConstraint.solve mouse
            mtarget mcompliance (Integrator.integrate cfg.gravity cfg.damping
              (aeroFn acc.1) sdt acc.1) sdt)).2⟩ t s⟩
    cfg.solver_iterations cfg.spectral_radius cfg.area_compliance sdt i
    (fun s om t hs => edge_solve_pinEq sq dc om t s i hs)
    (fun s om t hs => edge_solve_pinEq sq bc om t s i hs)
    (fun s om t hs => tether_solve_pinEq sq tc om t s i hs)
    (fun s acp om t hs => area_solve_pinEq sq arc acp om t s i hs)
    (fun s t hs => resolve_contacts_pinEq sq _ t i hnarrow.2 s hs)
    ((perform_narrow_phase sq triangles tindices tnormals br
      cfg.contact_thickness sdt (MouseConstraint.solve mouse mtarget
        mcompliance (Integrator.integrate cfg.gravity cfg.damping
          (aeroFn acc.1) sdt acc.1) sdt)).1)
    (by rw [pinEq_invMass hnarrow.1]; exact h0)
  have hs4 := pinEq_trans hnarrow.1 hsolve
  exact pinEq_ite _ (pinEq_trans hs4 (selfsolve_pinEq sq excl _ _ _ _ _ _ i
    (by rw [pinEq_invMass hsolve, pinEq_invMass hnarrow.1]; exact h0))) hs4

/-- C3: the pinning invariant — a whole `step(dt)` leaves both the position
and the previous position of every particle with inverse mass 0 exactly
unchanged: the integrator and mouse constraint return early on zero inverse
mass, every internal constraint kernel guards its stores with `w > 0`, the
broad phase caches zero candidates for pinned particles so the narrow phase
neither clamps them nor emits contacts for them, contact resolution
therefore never touches them, and self-collision resolution guards its
stores as well. -/
theorem claim_C3_pinning (sq : ℚ → ℚ) (cfg : SimConfig)
    (grid : StaticSpatialHash) (capacity : Nat) (r0 : BroadResolver)
    (triangles : Nat → Triangle) (tindices : Nat → Nat)
    (tnormals : Nat → V3) (rthickness rsfric rdfric rstiff : ℚ)
    (dc bc : EdgeConstraint) (tc : TetherConstraint) (arc : AreaConstraint)
    (excl : TopologyExclusion) (queryFn : (Nat → V3) → V3 → ℚ → List Nat)
    (mouse : Option Nat) (mtarget : V3) (mcompliance : ℚ)
    (aeroFn : PState → Nat → V3) (counter0 : Nat) (dt : ℚ) (st : PState)
    (i : Nat) (h0 : st.invMass i = 0) :
    (Simulation.step sq cfg grid capacity r0 triangles tindices tnormals
      rthickness rsfric rdfric rstiff dc bc tc arc excl queryFn mouse
      mtarget mcompliance aeroFn counter0 dt st).positions i =
      st.positions i ∧
    (Simulation.step sq cfg grid capacity r0 triangles tindices tnormals
      rthickness rsfric rdfric rstiff dc bc tc arc excl queryFn mouse
      mtarget mcompliance aeroFn counter0 dt st).prevPositions i =
      st.prevPositions i := by
  unfold Simulation.step
  dsimp only
  have hbr : ∀ j, st.invMass j = 0 → j < st.count →
      (perform_broad_phase sq grid st capacity r0).candidate_counts j = 0 :=
    fun j hj hjc => broad_counts_pinned sq grid st capacity r0 j hj hjc
  suffices H : ∀ (l : List Nat) (acc : PState × Nat), PinEq st acc.1 i →
      PinEq st ((l.foldl (fun a (_ : Nat) =>
        Simulation.substep sq cfg triangles tindices tnormals rthickness
          rsfric rdfric rstiff dc bc tc arc excl queryFn mouse mtarget
          mcompliance aeroFn (perform_broad_phase sq grid st capacity r0)
          (dt / (cfg.substeps : ℚ)) a) acc)).1 i by
    have h := H (List.range cfg.substeps) (st, counter0) (pinEq_refl st i)
    exact ⟨h.1, h.2.1⟩
  intro l
  induction l with
  | nil => exact fun acc h' => h'
  | cons x xs ih =>
    intro acc hacc
    rw [List.foldl_cons]
    exact ih _ (substep_pinEq sq cfg triangles tindices tnormals rthickness
      rsfric rdfric rstiff dc bc tc arc excl queryFn mouse mtarget
      mcompliance aeroFn (perform_broad_phase sq grid st capacity r0)
      (dt / (cfg.substeps : ℚ)) st i h0 hbr acc hacc)

/-- Tiny two-particle scene for the pinning witness: particle 0 pinned. -/
def stW : PState :=
  ⟨2, fun j => if j = 0 then ⟨0, 0, 0⟩ else ⟨1, 0, 0⟩,
    fun j => if j = 0 then ⟨0, 0, 0⟩ else ⟨1, 0, 0⟩,
    fun j => if j = 0 then 0 else 1⟩

/-- Witness configuration: 2 substeps, 2 solver iterations, self-collision
every second substep. -/
def cfgW : SimConfig :=
  ⟨2, 2, 1/2, 0, ⟨0, 0, -10⟩, 99/100, 1/200, true, 2, 1/100, 1/2, 10⟩

/-- Zero square-root oracle for the witness. -/
def sqW : ℚ → ℚ := fun _ => 0

/-- One edge constraint between the two witness particles. -/
def dcW : EdgeConstraint := ⟨[(0, 1)], [1], [0], [0, 1]⟩

/-- One tether constraint between the two witness particles. -/
def tcW : TetherConstraint := ⟨[(0, 1)], [1], [0, 1]⟩

/-- One (degenerate) area record over the witness particles. -/
def arcW : AreaConstraint := ⟨[(0, 1, 0)], [1], [0, 1]⟩

/-- Exclusion table of a single triangle mesh. -/
def exclW : TopologyExclusion := TopologyExclusion.new [0, 1, 2] 3 1

/-- Self-collision query oracle returning both particles. -/
def qW : (Nat → V3) → V3 → ℚ → List Nat := fun _ _ _ => [0, 1]

/-- Constant aerodynamic force field. -/
def aW : PState → Nat → V3 := fun _ _ => ⟨0, 0, 1⟩

/-- C3 witness: one full step on the two-particle scene leaves the pinned
particle 0 exactly in place. -/
theorem claim_C3_witness :
    (Simulation.step sqW cfgW g5 10 bs0 tris2 idx2 nrm2 (1/200) (3/10)
      (1/5) (9/10) dcW dcW tcW arcW exclW qW (some 0) ⟨1, 1, 1⟩ 0 aW 0
      (1/60) stW).positions 0 = stW.positions 0 ∧
    (Simulation.step sqW cfgW g5 10 bs0 tris2 idx2 nrm2 (1/200) (3/10)
      (1/5) (9/10) dcW dcW tcW arcW exclW qW (some 0) ⟨1, 1, 1⟩ 0 aW 0
      (1/60) stW).prevPositions 0 = stW.prevPositions 0 :=
  claim_C3_pinning sqW cfgW g5 10 bs0 tris2 idx2 nrm2 (1/200) (3/10)
    (1/5) (9/10) dcW dcW tcW arcW exclW qW (some 0) ⟨1, 1, 1⟩ 0 aW 0
    (1/60) stW 0 (by with_unfolding_all decide)
